import Mathlib

/-! # cdb coordinator: two-phase-commit transaction engine

A shallow embedding of `src/servers/coordinator.cpp` and of the reply decoder
`cdb_client::decode_result` of `src/client/client.cpp`.

* The coordinator's mutable members (`participants_`, `next_id_`, `del_keys_`,
  `is_recovered`, the record manager `r_manager_`) are fields of the state
  `coordinator`.  Three further fields record what the code does to the outside:
  `rpcs` (every RPC issued, in order), `sent` (every payload handed to
  `send_result`, in order) and `notified` (calls of
  `participants_cond_.notify_all()`).
* `participants_` is a `std::map` keyed by the address string; it is modelled by
  the list of its keys in iteration order.  `iter = erase(iter)` drops the head of
  the remaining list.
* A participant's behaviour during one operation is an `rpc_env`: for every RPC
  the reply, or `none` when the call throws (transport failure, timeout, bad
  reply).
* `std::uint32_t` values are `Nat` with an explicit `% 2 ^ 32`.
* `assert(0)` in `handle_unfinished_records` is modelled in both builds: the
  parameter `ndebug` says whether assertions are compiled out.
* RPC replies of type `std::uint32_t` are taken below `2 ^ 32`; `p_next_id + 1` is
  computed modulo `2 ^ 32`.
* Strings of the client (`std::string`) and buffers of the dispatcher
  (`std::vector<char>`) are `List Char`; `int` is 32 bits wide.
* Not modelled: the log output (`__CDB_LOG`), the mutex (one operation runs at a
  time), and the write callback of `send_error`, which disconnects the client
  once the payload is written.
-/

namespace cdb

/-- Status of a log record; the five names are the ones used by coordinator.cpp. -/
inductive record_status where
  | RECORD_UNRESOLVED
  | RECORD_COMMIT
  | RECORD_COMMIT_DONE
  | RECORD_ABORT
  | RECORD_ABORT_DONE
  deriving DecidableEq, Repr

open record_status

/-- Log record `{ status, id, next_id }` as built at every `r_manager_.log({...})`. -/
structure record where
  status : record_status
  id : Nat
  next_id : Nat
  deriving DecidableEq, Repr

/-- Key of the `participants_` map (the string "ip:port"), abstracted to a number;
iteration order of the map is the order of the list that models it. -/
abbrev participant_addr := Nat

/-- Handle of a client connection (`std::shared_ptr<tcp_client>`). -/
abbrev tcp_client := Nat

/-- Command `SET key value`, with the transaction id given by `set_id`. -/
structure set_command where
  id : Nat
  key : String
  value : String
  deriving DecidableEq, Repr

/-- Command `DEL key [key ...]`, with the transaction id given by `set_id`. -/
structure del_command where
  id : Nat
  args : List String
  deriving DecidableEq, Repr

/-- Command `GET key`; it carries no transaction id. -/
structure get_command where
  key : String
  deriving DecidableEq, Repr

/-- Remote procedure calls the coordinator issues to a participant: those of the
transaction engine, `GET`, and those of the heartbeat and of participant recovery.
A snapshot (`std::vector<char>`) is a list of byte values. -/
inductive rpc_call where
  | PREPARE_SET (cmd : set_command)
  | PREPARE_DEL (cmd : del_command)
  | COMMIT (id : Nat)
  | ABORT (id : Nat)
  | GET (cmd : get_command)
  | HEARTBEAT
  | NEXT_ID
  | SET_NEXT_ID (id : Nat)
  | GET_SNAPSHOT
  | RECOVER (snapshot : List Nat) (del_keys : List String)
  deriving DecidableEq, Repr

/-- Replies of the participants during one operation; `none` is a call that throws. -/
structure rpc_env where
  prepare_set : participant_addr → set_command → Option Bool
  prepare_del : participant_addr → del_command → Option Bool
  commit : participant_addr → Nat → Option String
  abort : participant_addr → Nat → Option Bool
  get : participant_addr → get_command → Option String
  heartbeat : participant_addr → Option Unit
  next_id : participant_addr → Option Nat
  set_next_id : participant_addr → Nat → Option Unit
  get_snapshot : participant_addr → Option (List Nat)
  recover : participant_addr → List Nat → List String → Option Unit

/-- State of the coordinator together with the trace of its outputs. -/
structure coordinator where
  conf_participants : List participant_addr
  participants_ : List participant_addr
  next_id_ : Nat
  log : List record
  del_keys_ : List String
  is_recovered : Bool
  rpcs : List (participant_addr × rpc_call)
  sent : List (tcp_client × String)
  notified : Nat
  deriving DecidableEq, Repr

/-- Modelled from the spec: `participant::error_string` (participant.hpp is not in
the sources); the error reply of the wire protocol is `-ERROR\r\n`. -/
def error_string : String := "-ERROR\r\n"

/-- Modelled from the spec: `record_manager::log` (record.hpp is not in the
sources) appends one record to the append-only journal. -/
def r_log (r : record) (s : coordinator) : coordinator :=
  { s with log := s.log ++ [r] }

/-- Modelled from the spec: insertion of a record into the map `tid → latest
record` of the record manager, kept in ascending key order as a `std::map`
iterates it; a record of a tid already present supersedes the older one. -/
def records_insert (r : record) : List record → List record
  | [] => [r]
  | x :: xs =>
    if r.id < x.id then r :: x :: xs
    else if r.id = x.id then r :: xs
    else x :: records_insert r xs

/-- Modelled from the spec: `record_manager::records()` (record.hpp is not in the
sources), the map `tid → latest record` computed from a scan of the journal. -/
def records (log : List record) : List record :=
  log.foldl (fun m r => records_insert r m) []

/-- `coordinator::send_result`: hand `msg` to the client's `async_write`. -/
def send_result (client : tcp_client) (msg : String) (s : coordinator) : coordinator :=
  { s with sent := s.sent ++ [(client, msg)] }

/-- `coordinator::send_error`: `send_result` of `participant::error_string`. -/
def send_error (client : tcp_client) (s : coordinator) : coordinator :=
  send_result client error_string s

/-- Outcome of the PREPARE loop of `handle_db_set_request` / `handle_db_del_request`. -/
structure prepare_result where
  participants : List participant_addr
  prepare_ok : Bool
  participant_dead : Bool
  called : List participant_addr
  deriving DecidableEq, Repr

/-- The PREPARE loop over `participants_` (coordinator.cpp 447-467 and 508-526):
a call that throws erases the participant and goes on, a `false` reply breaks out
of the loop, a `true` reply advances the iterator. -/
def prepare_loop (call : participant_addr → Option Bool) :
    List participant_addr → prepare_result
  | [] => ⟨[], true, false, []⟩
  | p :: rest =>
    match call p with
    | none =>
      let r := prepare_loop call rest
      ⟨r.participants, r.prepare_ok, true, p :: r.called⟩
    | some false => ⟨p :: rest, false, false, [p]⟩
    | some true =>
      let r := prepare_loop call rest
      ⟨p :: r.participants, r.prepare_ok, r.participant_dead, p :: r.called⟩

/-- Outcome of the COMMIT loop of `commit_db_request`. -/
structure commit_result where
  participants : List participant_addr
  ret : String
  participant_dead : Bool
  deriving DecidableEq, Repr

/-- The COMMIT loop (coordinator.cpp 564-586): `ret` takes the reply while it is
still empty; a call that throws erases the participant. -/
def commit_loop (call : participant_addr → Option String) :
    String → List participant_addr → commit_result
  | ret, [] => ⟨[], ret, false⟩
  | ret, p :: rest =>
    match call p with
    | none =>
      let r := commit_loop call ret rest
      ⟨r.participants, r.ret, true⟩
    | some v =>
      let r := commit_loop call (if ret = "" then v else ret) rest
      ⟨p :: r.participants, r.ret, r.participant_dead⟩

/-- The ABORT loop (coordinator.cpp 607-625): a call that throws or replies `false`
erases the participant.  Returns the remaining live set and whether one was erased. -/
def abort_loop (call : participant_addr → Option Bool) :
    List participant_addr → List participant_addr × Bool
  | [] => ([], false)
  | p :: rest =>
    let r := abort_loop call rest
    match call p with
    | some true => (p :: r.1, r.2)
    | _ => (r.1, true)

/-- `coordinator::commit_db_request(client, id, participant_dead)`; the reference
parameter `participant_dead` is returned next to the state. -/
def commit_db_request (env : rpc_env) (client : Option tcp_client) (id : Nat)
    (participant_dead : Bool) (s : coordinator) : coordinator × Bool :=
  let s1 := r_log ⟨RECORD_COMMIT, id, s.next_id_⟩ s
  let r := commit_loop (fun p => env.commit p id) "" s1.participants_
  let s2 := { s1 with
    participants_ := r.participants
    rpcs := s1.rpcs ++ s1.participants_.map (fun p => (p, rpc_call.COMMIT id)) }
  let s3 := if s2.participants_ ≠ [] then r_log ⟨RECORD_COMMIT_DONE, id, s2.next_id_⟩ s2 else s2
  let s4 := match client with
    | some c => send_result c r.ret s3
    | none => s3
  (s4, participant_dead || r.participant_dead)

/-- `coordinator::abort_db_request(client, id, participant_dead)`; the reference
parameter `participant_dead` is returned next to the state. -/
def abort_db_request (env : rpc_env) (client : Option tcp_client) (id : Nat)
    (participant_dead : Bool) (s : coordinator) : coordinator × Bool :=
  let s1 := r_log ⟨RECORD_ABORT, id, s.next_id_⟩ s
  let r := abort_loop (fun p => env.abort p id) s1.participants_
  let s2 := { s1 with
    participants_ := r.1
    rpcs := s1.rpcs ++ s1.participants_.map (fun p => (p, rpc_call.ABORT id)) }
  let s3 := if s2.participants_ ≠ [] then r_log ⟨RECORD_ABORT_DONE, id, s2.next_id_⟩ s2 else s2
  let s4 := match client with
    | some c => send_error c s3
    | none => s3
  (s4, participant_dead || r.2)

/-- `participants_cond_.notify_all()` when `participant_dead` is set. -/
def notify_if (participant_dead : Bool) (s : coordinator) : coordinator :=
  if participant_dead then { s with notified := s.notified + 1 } else s

/-- `coordinator::handle_db_set_request(client, cmd)`. -/
def handle_db_set_request (env : rpc_env) (client : tcp_client) (cmd : set_command)
    (s : coordinator) : coordinator :=
  if s.participants_ = [] then send_error client s
  else
    let cmd1 : set_command := { cmd with id := s.next_id_ }
    let s1 := { s with next_id_ := (s.next_id_ + 1) % 2 ^ 32 }
    let s2 := r_log ⟨RECORD_UNRESOLVED, cmd1.id, s1.next_id_⟩ s1
    let r := prepare_loop (fun p => env.prepare_set p cmd1) s2.participants_
    let s3 := { s2 with
      participants_ := r.participants
      rpcs := s2.rpcs ++ r.called.map (fun p => (p, rpc_call.PREPARE_SET cmd1)) }
    if s3.participants_ = [] then send_error client s3
    else
      let out :=
        if r.prepare_ok then commit_db_request env (some client) cmd1.id r.participant_dead s3
        else abort_db_request env (some client) cmd1.id r.participant_dead s3
      notify_if out.2 out.1

/-- `std::set::insert(first, last)` on `del_keys_`: keys not yet present are added. -/
def del_keys_insert (keys : List String) (del_keys : List String) : List String :=
  keys.foldl (fun acc k => if k ∈ acc then acc else acc ++ [k]) del_keys

/-- `coordinator::handle_db_del_request(client, cmd)`. -/
def handle_db_del_request (env : rpc_env) (client : tcp_client) (cmd : del_command)
    (s : coordinator) : coordinator :=
  if s.participants_ = [] then send_error client s
  else
    let cmd1 : del_command := { cmd with id := s.next_id_ }
    let s1 := { s with next_id_ := (s.next_id_ + 1) % 2 ^ 32 }
    let s2 := r_log ⟨RECORD_UNRESOLVED, cmd1.id, s1.next_id_⟩ s1
    let r := prepare_loop (fun p => env.prepare_del p cmd1) s2.participants_
    let s3 := { s2 with
      participants_ := r.participants
      rpcs := s2.rpcs ++ r.called.map (fun p => (p, rpc_call.PREPARE_DEL cmd1)) }
    if s3.participants_ = [] then send_error client s3
    else
      let out :=
        if r.prepare_ok then
          let c := commit_db_request env (some client) cmd1.id r.participant_dead s3
          let s4 :=
            if c.1.participants_.length < c.1.conf_participants.length then
              { c.1 with del_keys_ := del_keys_insert cmd1.args c.1.del_keys_ }
            else c.1
          (s4, c.2)
        else abort_db_request env (some client) cmd1.id r.participant_dead s3
      notify_if out.2 out.1

/-- The loop of `coordinator::handle_unfinished_records` over the copied map
(coordinator.cpp 77-97).  The `default:` branch is `assert(0)`: with assertions
compiled in the process stops there, which the second component reports; with
`NDEBUG` the `assert` expands to nothing and the `break` leaves the `switch`. -/
def handle_unfinished_loop (ndebug : Bool) (env : rpc_env) :
    List record → Bool → coordinator → coordinator × Bool
  | [], _, s => (s, false)
  | r :: rest, participant_dead, s =>
    match r.status with
    | RECORD_UNRESOLVED =>
      let out := abort_db_request env none r.id participant_dead s
      handle_unfinished_loop ndebug env rest out.2 out.1
    | RECORD_ABORT =>
      let out := abort_db_request env none r.id participant_dead s
      handle_unfinished_loop ndebug env rest out.2 out.1
    | RECORD_COMMIT =>
      let out := commit_db_request env none r.id participant_dead s
      handle_unfinished_loop ndebug env rest out.2 out.1
    | _ =>
      if ndebug then handle_unfinished_loop ndebug env rest participant_dead s
      else (s, true)

/-- `coordinator::handle_unfinished_records()`: the loop over a copy of
`r_manager_.records()`.  The second component is true when `assert(0)` fired. -/
def handle_unfinished_records (ndebug : Bool) (env : rpc_env) (s : coordinator) :
    coordinator × Bool :=
  handle_unfinished_loop ndebug env (records s.log) false s

/-! ## The common shape of the two write dispatches -/

/-- The code shared, line for line, by `handle_db_set_request` and
`handle_db_del_request` up to the `del_keys_` update: `prep` is the PREPARE call
on the command that carries the tid, `call` the RPC written to the trace. -/
def write_dispatch (prep : participant_addr → Option Bool) (call : rpc_call)
    (env : rpc_env) (client : tcp_client) (s : coordinator) : coordinator :=
  if s.participants_ = [] then send_error client s
  else
    let s1 := { s with next_id_ := (s.next_id_ + 1) % 2 ^ 32 }
    let s2 := r_log ⟨RECORD_UNRESOLVED, s.next_id_, s1.next_id_⟩ s1
    let r := prepare_loop prep s2.participants_
    let s3 := { s2 with
      participants_ := r.participants
      rpcs := s2.rpcs ++ r.called.map (fun p => (p, call)) }
    if s3.participants_ = [] then send_error client s3
    else
      let out :=
        if r.prepare_ok then commit_db_request env (some client) s.next_id_ r.participant_dead s3
        else abort_db_request env (some client) s.next_id_ r.participant_dead s3
      notify_if out.2 out.1

/-- The records a write dispatch appends, as a function of the participants' replies. -/
def write_records (prep : participant_addr → Option Bool) (env : rpc_env)
    (s : coordinator) : List record :=
  let n := s.next_id_
  let m := (s.next_id_ + 1) % 2 ^ 32
  let r := prepare_loop prep s.participants_
  if s.participants_ = [] then []
  else if r.participants = [] then [⟨RECORD_UNRESOLVED, n, m⟩]
  else if r.prepare_ok then
    ⟨RECORD_UNRESOLVED, n, m⟩ :: ⟨RECORD_COMMIT, n, m⟩ ::
      (if (commit_loop (fun p => env.commit p n) "" r.participants).participants ≠ []
        then [⟨RECORD_COMMIT_DONE, n, m⟩] else [])
  else
    ⟨RECORD_UNRESOLVED, n, m⟩ :: ⟨RECORD_ABORT, n, m⟩ ::
      (if (abort_loop (fun p => env.abort p n) r.participants).1 ≠ []
        then [⟨RECORD_ABORT_DONE, n, m⟩] else [])

/-- The payload a write dispatch hands to the client. -/
def write_reply (prep : participant_addr → Option Bool) (env : rpc_env)
    (s : coordinator) : String :=
  let r := prepare_loop prep s.participants_
  if s.participants_ = [] then error_string
  else if r.participants = [] then error_string
  else if r.prepare_ok then (commit_loop (fun p => env.commit p s.next_id_) "" r.participants).ret
  else error_string

/-- The live set a write dispatch leaves. -/
def write_live (prep : participant_addr → Option Bool) (env : rpc_env)
    (s : coordinator) : List participant_addr :=
  let r := prepare_loop prep s.participants_
  if r.participants = [] then []
  else if r.prepare_ok then
    (commit_loop (fun p => env.commit p s.next_id_) "" r.participants).participants
  else (abort_loop (fun p => env.abort p s.next_id_) r.participants).1

/-- What a write dispatch does on the commit path: three records, same live set,
and the reply of a live participant to the client. -/
def commit_outcome (env : rpc_env) (client : tcp_client) (s s' : coordinator) : Prop :=
  s'.log = s.log ++
    [⟨RECORD_UNRESOLVED, s.next_id_, (s.next_id_ + 1) % 2 ^ 32⟩,
     ⟨RECORD_COMMIT, s.next_id_, (s.next_id_ + 1) % 2 ^ 32⟩,
     ⟨RECORD_COMMIT_DONE, s.next_id_, (s.next_id_ + 1) % 2 ^ 32⟩] ∧
  s'.participants_ = s.participants_ ∧
  ∃ v, s'.sent = s.sent ++ [(client, v)] ∧ ∃ p ∈ s.participants_, env.commit p s.next_id_ = some v

/-- What a write dispatch does on the abort path, after the PREPARE loop left the
live set `live`: `-ERROR` to the client, `UNRESOLVED`, `ABORT` and, when a
participant acknowledged `ABORT`, `ABORT_DONE`. -/
def abort_outcome (env : rpc_env) (client : tcp_client) (live : List participant_addr)
    (s s' : coordinator) : Prop :=
  s'.sent = s.sent ++ [(client, error_string)] ∧
  (∀ r ∈ s'.log.drop s.log.length,
    r.status ≠ RECORD_COMMIT ∧ r.status ≠ RECORD_COMMIT_DONE) ∧
  ((∃ q ∈ live, env.abort q s.next_id_ = some true) →
    s'.log = s.log ++
      [⟨RECORD_UNRESOLVED, s.next_id_, (s.next_id_ + 1) % 2 ^ 32⟩,
       ⟨RECORD_ABORT, s.next_id_, (s.next_id_ + 1) % 2 ^ 32⟩,
       ⟨RECORD_ABORT_DONE, s.next_id_, (s.next_id_ + 1) % 2 ^ 32⟩]) ∧
  ((∀ q ∈ live, env.abort q s.next_id_ ≠ some true) →
    s'.participants_ = [] ∧
    s'.log = s.log ++
      [⟨RECORD_UNRESOLVED, s.next_id_, (s.next_id_ + 1) % 2 ^ 32⟩,
       ⟨RECORD_ABORT, s.next_id_, (s.next_id_ + 1) % 2 ^ 32⟩])

/-- Transaction id carried by an RPC of the transaction engine. -/
def rpc_call.tid : rpc_call → Option Nat
  | rpc_call.PREPARE_SET cmd => some cmd.id
  | rpc_call.PREPARE_DEL cmd => some cmd.id
  | rpc_call.COMMIT id => some id
  | rpc_call.ABORT id => some id
  | _ => none

/-- The RPCs a write dispatch issues, in order. -/
def write_rpcs (prep : participant_addr → Option Bool) (call : rpc_call)
    (s : coordinator) : List (participant_addr × rpc_call) :=
  let r := prepare_loop prep s.participants_
  r.called.map (fun p => (p, call)) ++
    (if r.participants = [] then []
     else if r.prepare_ok then r.participants.map (fun p => (p, rpc_call.COMMIT s.next_id_))
     else r.participants.map (fun p => (p, rpc_call.ABORT s.next_id_)))

/-- A dispatch that only answers `-ERROR`: nothing but `sent` changes. -/
def error_only_outcome (client : tcp_client) (s s' : coordinator) : Prop :=
  s'.sent = s.sent ++ [(client, error_string)] ∧ s'.next_id_ = s.next_id_ ∧
  s'.log = s.log ∧ s'.rpcs = s.rpcs ∧ s'.del_keys_ = s.del_keys_

/-- From the words of the specification (section 4.G with 4.E): what redriving one
entry of the latest-record map does.  `UNRESOLVED` and `ABORT` entries get an
`ABORT` record, an `ABORT(tid)` call on every live participant, and `ABORT_DONE`
when a participant is left; `COMMIT` entries the same with `COMMIT`; `COMMIT_DONE`
and `ABORT_DONE` entries are no-ops. -/
def redrive_entry (env : rpc_env) (s : coordinator) (e : record) : coordinator :=
  match e.status with
  | RECORD_COMMIT =>
    let live := s.participants_.filter (fun p => (env.commit p e.id).isSome)
    { s with
      log := s.log ++ ⟨RECORD_COMMIT, e.id, s.next_id_⟩ ::
        (if live ≠ [] then [⟨RECORD_COMMIT_DONE, e.id, s.next_id_⟩] else [])
      rpcs := s.rpcs ++ s.participants_.map (fun p => (p, rpc_call.COMMIT e.id))
      participants_ := live }
  | RECORD_COMMIT_DONE => s
  | RECORD_ABORT_DONE => s
  | _ =>
    let live := s.participants_.filter (fun p => env.abort p e.id == some true)
    { s with
      log := s.log ++ ⟨RECORD_ABORT, e.id, s.next_id_⟩ ::
        (if live ≠ [] then [⟨RECORD_ABORT_DONE, e.id, s.next_id_⟩] else [])
      rpcs := s.rpcs ++ s.participants_.map (fun p => (p, rpc_call.ABORT e.id))
      participants_ := live }

/-- Terminal statuses. -/
def record_status.is_done : record_status → Bool
  | RECORD_COMMIT_DONE => true
  | RECORD_ABORT_DONE => true
  | _ => false

/-- The payload the claim about the COMMIT reply names: the reply of the first
participant, in iteration order, whose call succeeded. -/
def first_success (call : participant_addr → Option String)
    (l : List participant_addr) : Option String :=
  (l.filterMap call).head?

/-- The first non-empty reply of a call that succeeded, `""` when there is none. -/
def first_nonempty (call : participant_addr → Option String)
    (l : List participant_addr) : String :=
  ((l.filterMap call).find? (fun v => decide (v ≠ ""))).getD ""

/-- One operation of a coordinator history.  `live` is the live set the operation
finds: between two operations the heartbeat may erase and readmit participants. -/
inductive op where
  | set (env : rpc_env) (live : List participant_addr) (client : tcp_client) (cmd : set_command)
  | del (env : rpc_env) (live : List participant_addr) (client : tcp_client) (cmd : del_command)
  | unfinished (env : rpc_env) (live : List participant_addr)

/-- Effect of one operation: a SET dispatch, a DEL dispatch, or a run of
`handle_unfinished_records` (in the build chosen by `ndebug`). -/
def op.step (ndebug : Bool) : op → coordinator → coordinator
  | op.set env live client cmd, s =>
    handle_db_set_request env client cmd { s with participants_ := live }
  | op.del env live client cmd, s =>
    handle_db_del_request env client cmd { s with participants_ := live }
  | op.unfinished env live, s =>
    (handle_unfinished_records ndebug env { s with participants_ := live }).1

/-- A history: the operations one after the other. -/
def run (ndebug : Bool) (ops : List op) (s : coordinator) : coordinator :=
  ops.foldl (fun t o => o.step ndebug t) s

/-- Number of transactions a log has seen: its `UNRESOLVED` records. -/
def tx_count (log : List record) : Nat :=
  log.countP (fun r => decide (r.status = RECORD_UNRESOLVED))

/-- The tids of the `UNRESOLVED` records of a log, in log order. -/
def unresolved_tids (log : List record) : List Nat :=
  (log.filter (fun r => decide (r.status = RECORD_UNRESOLVED))).map (fun r => r.id)

/-- Number of records of `tid` with the given status. -/
def status_count (st : record_status) (tid : Nat) (log : List record) : Nat :=
  log.countP (fun r => decide (r.id = tid) && decide (r.status = st))

/-- Number of terminal records of `tid`. -/
def done_total (tid : Nat) (log : List record) : Nat :=
  log.countP (fun r => decide (r.id = tid) && r.status.is_done)

/-- Whether the latest record of `tid` in the log is terminal. -/
def latest_done (tid : Nat) (log : List record) : Bool :=
  log.foldl (fun acc r => if r.id = tid then r.status.is_done else acc) false

/-- Log invariant: a tid has one terminal record when its latest record is
terminal, and none otherwise. -/
def done_inv (log : List record) : Prop :=
  ∀ tid, done_total tid log = if latest_done tid log then 1 else 0

/-- Records appended for one tid after its `UNRESOLVED` record: all of that tid,
none `UNRESOLVED`, none terminal but possibly the last. -/
def tx_ext (t : Nat) (ext : List record) : Prop :=
  (∀ r ∈ ext, r.id = t ∧ r.status ≠ RECORD_UNRESOLVED) ∧
  (∀ r ∈ ext.dropLast, r.status.is_done = false)

/-- History invariant relative to the first tid `start`: the counter is `start`
plus the number of transactions, every logged tid is one of the tids handed out,
and the log satisfies `done_inv`. -/
def hist_inv (start next_id : Nat) (log : List record) : Prop :=
  next_id = (start + tx_count log) % 2 ^ 32 ∧
  (∀ r ∈ log, ∃ j, j < tx_count log ∧ r.id = (start + j) % 2 ^ 32) ∧
  done_inv log

/-- What a write dispatch on a non-empty live set does with the counter value
`n = s.next_id_`: the counter becomes `n + 1` modulo `2 ^ 32`, the first record
appended is `{UNRESOLVED, n, n + 1}`, and every record appended and every RPC
issued carries the tid `n`. -/
def fresh_tid_outcome (s s' : coordinator) : Prop :=
  s'.next_id_ = (s.next_id_ + 1) % 2 ^ 32 ∧
  (s'.log.drop s.log.length).head? =
    some ⟨RECORD_UNRESOLVED, s.next_id_, (s.next_id_ + 1) % 2 ^ 32⟩ ∧
  (∀ r ∈ s'.log.drop s.log.length, r.id = s.next_id_) ∧
  (∀ c ∈ s'.rpcs.drop s.rpcs.length, c.2.tid = some s.next_id_)

/-- Outcome of the loop of `handle_db_get_request`. -/
structure get_result where
  participants : List participant_addr
  value : Option String
  participant_dead : Bool
  called : List participant_addr
  deriving DecidableEq, Repr

/-- The loop of `handle_db_get_request` (coordinator.cpp 398-413): `GET` goes to
`participants_.begin()`; a reply ends the loop, a call that throws erases that
participant and the loop goes on with the next one. -/
def get_loop (call : participant_addr → Option String) :
    List participant_addr → get_result
  | [] => ⟨[], none, false, []⟩
  | p :: rest =>
    match call p with
    | some v => ⟨p :: rest, some v, false, [p]⟩
    | none =>
      let r := get_loop call rest
      ⟨r.participants, r.value, true, p :: r.called⟩

/-- `coordinator::handle_db_get_request(client, cmd)`. -/
def handle_db_get_request (env : rpc_env) (client : tcp_client) (cmd : get_command)
    (s : coordinator) : coordinator :=
  if s.participants_ = [] then send_error client s
  else
    let r := get_loop (fun p => env.get p cmd) s.participants_
    let s1 := { s with
      participants_ := r.participants
      rpcs := s.rpcs ++ r.called.map (fun p => (p, rpc_call.GET cmd)) }
    let s2 := match r.value with
      | some v => send_result client v s1
      | none => send_error client s1
    notify_if r.participant_dead s2

/-- Whether a dispatch took the commit path: it appended a `COMMIT` record. -/
def commit_path (s s' : coordinator) : Prop :=
  ∃ r ∈ s'.log.drop s.log.length, r.status = RECORD_COMMIT

/-- What a DEL dispatch with keys `keys` does to `del_keys_`: on the commit path
with fewer live participants left than configured, the keys are united with it;
otherwise it is unchanged. -/
def del_keys_outcome (keys : List String) (s s' : coordinator) : Prop :=
  (commit_path s s' → s'.participants_.length < s.conf_participants.length →
    (∀ k, k ∈ s'.del_keys_ ↔ k ∈ s.del_keys_ ∨ k ∈ keys) ∧
    (s.del_keys_.Nodup → s'.del_keys_.Nodup)) ∧
  (commit_path s s' → ¬ s'.participants_.length < s.conf_participants.length →
    s'.del_keys_ = s.del_keys_) ∧
  (¬ commit_path s s' → s'.del_keys_ = s.del_keys_)

/-- What a GET dispatch does: nothing to the log and the counter; the value of the
first participant that answers goes to the client and the participants before it
are erased; `-ERROR` and an empty live set when none answers. -/
def get_outcome (env : rpc_env) (client : tcp_client) (cmd : get_command)
    (s s' : coordinator) : Prop :=
  s'.log = s.log ∧ s'.next_id_ = s.next_id_ ∧
  (∀ pre p post v, s.participants_ = pre ++ p :: post →
    (∀ q ∈ pre, env.get q cmd = none) → env.get p cmd = some v →
    s'.sent = s.sent ++ [(client, v)] ∧ s'.participants_ = p :: post) ∧
  ((∀ q ∈ s.participants_, env.get q cmd = none) →
    s'.sent = s.sent ++ [(client, error_string)] ∧ s'.participants_ = [])

/-- `records.count(id) && records[id].status == st` on the latest-record map. -/
def records_has (m : List record) (id : Nat) (st : record_status) : Bool :=
  match m.find? (fun r => decide (r.id = id)) with
  | some r => decide (r.status = st)
  | none => false

/-- `participants_.erase(addr)`. -/
def participants_erase (addr : participant_addr) (l : List participant_addr) :
    List participant_addr :=
  l.filter (fun p => decide (p ≠ addr))

/-- `participants_[addr] = ...`: a new key takes its place in key order, an
existing key keeps its place. -/
def participants_insert (addr : participant_addr) (l : List participant_addr) :
    List participant_addr :=
  if addr ∈ l then l else l.orderedInsert (fun a b => a ≤ b) addr

/-- Append one RPC to the trace. -/
def trace_rpc (p : participant_addr) (c : rpc_call) (s : coordinator) : coordinator :=
  { s with rpcs := s.rpcs ++ [(p, c)] }

/-- Outcome of the snapshot loop of `recover_participant`. -/
structure snapshot_result where
  participants : List participant_addr
  snapshot : Option (List Nat)
  called : List participant_addr
  deriving DecidableEq, Repr

/-- The `GET_SNAPSHOT` part of the loop of `recover_participant` (coordinator.cpp
229-244): the call goes to `participants_.begin()`; a call that throws erases that
participant and the loop goes on. -/
def snapshot_loop (call : participant_addr → Option (List Nat)) :
    List participant_addr → snapshot_result
  | [] => ⟨[], none, []⟩
  | p :: rest =>
    match call p with
    | some snap => ⟨p :: rest, some snap, [p]⟩
    | none =>
      let r := snapshot_loop call rest
      ⟨r.participants, r.snapshot, p :: r.called⟩

/-- `coordinator::recover_participant(client)` for the participant `target` the
heartbeat client talks to.  The second component is `some b` when the function
returns `b` and `none` when an exception leaves it (`SET_NEXT_ID` of the first
branch and `NEXT_ID` are called outside any `try`).  `p_next_id + 1` is computed
in `std::uint32_t`. -/
def recover_participant (env : rpc_env) (target : participant_addr) (s : coordinator) :
    coordinator × Option Bool :=
  if s.is_recovered = false then
    let s1 := trace_rpc target (rpc_call.SET_NEXT_ID s.next_id_) s
    match env.set_next_id target s.next_id_ with
    | none => (s1, none)
    | some _ => ({ s1 with is_recovered := true }, some true)
  else
    let s1 := trace_rpc target rpc_call.NEXT_ID s
    match env.next_id target with
    | none => (s1, none)
    | some p_next_id =>
      if p_next_id = s.next_id_ then (s1, some true)
      else if (p_next_id + 1) % 2 ^ 32 = s.next_id_ ∧
          records_has (records s.log) p_next_id RECORD_UNRESOLVED = true then (s1, some true)
      else
        let r := snapshot_loop env.get_snapshot s1.participants_
        let s2 := { s1 with
          participants_ := r.participants
          rpcs := s1.rpcs ++ r.called.map (fun p => (p, rpc_call.GET_SNAPSHOT)) }
        match r.snapshot with
        | none => (s2, some false)
        | some snapshot =>
          let s3 := trace_rpc target (rpc_call.RECOVER snapshot s2.del_keys_) s2
          match env.recover target snapshot s2.del_keys_ with
          | none => (s3, some false)
          | some _ =>
            let s4 := trace_rpc target (rpc_call.SET_NEXT_ID s.next_id_) s3
            match env.set_next_id target s.next_id_ with
            | none => (s4, some false)
            | some _ => (s4, some true)

/-- Lines 178-180 of coordinator.cpp: `participants_[addr] = ...`, then
`del_keys_.clear()` when the live set is as large as the configured list. -/
def admit_participant (addr : participant_addr) (s1 : coordinator) : coordinator :=
  let s2 := { s1 with participants_ := participants_insert addr s1.participants_ }
  if s2.participants_.length = s2.conf_participants.length then
    { s2 with del_keys_ := [] }
  else s2

/-- The body of the `for` loop of `coordinator::heartbeat_participants` for the
configured participant `addr` (coordinator.cpp 163-194).  The second component is
true when `assert(0)` fired in `handle_unfinished_records`. -/
def heartbeat_participant (ndebug : Bool) (env : rpc_env) (addr : participant_addr)
    (s : coordinator) : coordinator × Bool :=
  let s0 := trace_rpc addr rpc_call.HEARTBEAT s
  match env.heartbeat addr with
  | none => ({ s0 with participants_ := participants_erase addr s0.participants_ }, false)
  | some _ =>
    if addr ∈ s0.participants_ then (s0, false)
    else
      match recover_participant env addr s0 with
      | (s1, none) => ({ s1 with participants_ := participants_erase addr s1.participants_ }, false)
      | (s1, some false) => (s1, false)
      | (s1, some true) => handle_unfinished_records ndebug env (admit_participant addr s1)

/-- The NEXT_ID of participant `target` after the RPCs `calls`, modelled as the
claim says: the value it reported, updated only by a `SET_NEXT_ID` that succeeded. -/
def next_id_after (env : rpc_env) (target : participant_addr)
    (calls : List (participant_addr × rpc_call)) : Option Nat :=
  calls.foldl
    (fun acc c =>
      match c.2 with
      | rpc_call.SET_NEXT_ID v =>
        if c.1 = target ∧ (env.set_next_id target v).isSome then some v else acc
      | _ => acc)
    (env.next_id target)

/-- What the heartbeat does for a participant `B` that answers `HEARTBEAT`, is
not live, and needs a snapshot, when `A` is the first live participant and hands
out `snapshot`: the RPCs start with `HEARTBEAT`, `NEXT_ID`, `GET_SNAPSHOT` on `A`
and `RECOVER(snapshot, del_keys_)` on `B`; `B` is not live in the state in which
`RECOVER` is issued; it is live afterwards only if `RECOVER` and `SET_NEXT_ID`
succeeded; and when they did, `del_keys_` ends empty. -/
def recover_before_insert (env : rpc_env) (A B : participant_addr) (snapshot : List Nat)
    (s : coordinator) (mid : coordinator × Option Bool) (s' : coordinator) : Prop :=
  (∃ rest, s'.rpcs = s.rpcs ++
    [(B, rpc_call.HEARTBEAT), (B, rpc_call.NEXT_ID), (A, rpc_call.GET_SNAPSHOT),
     (B, rpc_call.RECOVER snapshot s.del_keys_)] ++ rest) ∧
  (∃ rest, mid.1.rpcs = s.rpcs ++
    [(B, rpc_call.HEARTBEAT), (B, rpc_call.NEXT_ID), (A, rpc_call.GET_SNAPSHOT),
     (B, rpc_call.RECOVER snapshot s.del_keys_)] ++ rest) ∧
  B ∉ mid.1.participants_ ∧
  (B ∈ s'.participants_ →
    (env.recover B snapshot s.del_keys_).isSome ∧ (env.set_next_id B s.next_id_).isSome) ∧
  ((env.recover B snapshot s.del_keys_).isSome → (env.set_next_id B s.next_id_).isSome →
    s'.del_keys_ = [])

/-- One operation of the running coordinator: a client dispatch, or the body of
the heartbeat loop for the `i`-th configured participant. -/
inductive sys_op where
  | set (env : rpc_env) (client : tcp_client) (cmd : set_command)
  | del (env : rpc_env) (client : tcp_client) (cmd : del_command)
  | get (env : rpc_env) (client : tcp_client) (cmd : get_command)
  | heartbeat (env : rpc_env) (i : Nat)

/-- Effect of one operation of the running coordinator. -/
def sys_op.step (ndebug : Bool) : sys_op → coordinator → coordinator
  | sys_op.set env client cmd, s => handle_db_set_request env client cmd s
  | sys_op.del env client cmd, s => handle_db_del_request env client cmd s
  | sys_op.get env client cmd, s => handle_db_get_request env client cmd s
  | sys_op.heartbeat env i, s =>
    match s.conf_participants.get? i with
    | some addr => (heartbeat_participant ndebug env addr s).1
    | none => s

/-- The operations one after the other. -/
def sys_run (ndebug : Bool) (ops : List sys_op) (s : coordinator) : coordinator :=
  ops.foldl (fun t o => o.step ndebug t) s

/-- Membership invariant: the live set has no duplicate key, holds configured
participants only, and `del_keys_` is empty whenever the live set is as large as
the configured list. -/
def member_inv (s : coordinator) : Prop :=
  s.participants_.Nodup ∧ (∀ p ∈ s.participants_, p ∈ s.conf_participants) ∧
  (s.participants_.length = s.conf_participants.length → s.del_keys_ = [])

/-! ## The request dispatcher -/

/-- A parsed client command as `handle_db_requests` sees it: `cmd->type` selects the
handler; `other` is any type the `switch` sends to `default:`. -/
inductive command where
  | get (cmd : get_command)
  | set (cmd : set_command)
  | del (cmd : del_command)
  | other
  deriving DecidableEq, Repr

/-- How a run of the parser over a buffer ends: `is_done()`, a
`_parse_incomplete_error`, or another `std::runtime_error`. -/
inductive parse_end where
  | done
  | incomplete
  | malformed
  deriving DecidableEq, Repr

/-- One run of `command_parser` over a buffer (command_parser.hpp is not in the
sources, the parser is a parameter): the commands the successive calls of
`read_command()` returned, each with the value of `bytes_parsed()` after it, and
how the run ended. -/
structure parse_run where
  reads : List (command × Nat)
  ending : parse_end
  deriving DecidableEq, Repr

/-- `coordinator::parse_db_requests`: the commands pushed to `ret`, and
`bytes_parsed`, which starts at 0 and is set after every command read. -/
def parse_db_requests (r : parse_run) : List command × Nat :=
  (r.reads.map (fun x => x.1), r.reads.foldl (fun _ x => x.2) 0)

/-- `tcp_client::read_result`. -/
structure read_result where
  success : Bool
  data : List Char
  deriving DecidableEq, Repr

/-- What `handle_db_requests` leaves armed on the connection. -/
inductive next_read where
  | disconnected
  | closed
  | read (prev_data : Option (List Char))
  deriving DecidableEq, Repr

/-- The `switch (cmd->type)` of `handle_db_requests`. -/
def dispatch (env : rpc_env) (client : tcp_client) : command → coordinator → coordinator
  | command.get cmd, s => handle_db_get_request env client cmd s
  | command.set cmd, s => handle_db_set_request env client cmd s
  | command.del cmd, s => handle_db_del_request env client cmd s
  | command.other, s => send_error client s

/-- The dispatch loop `for (const auto &cmd : cmds)`; `envs i` are the replies of
the participants while the `i`-th command is handled. -/
def dispatch_all (envs : Nat → rpc_env) (client : tcp_client) :
    Nat → List command → coordinator → coordinator
  | _, [], s => s
  | i, c :: cs, s => dispatch_all envs client (i + 1) cs (dispatch (envs i) client c s)

/-- `coordinator::handle_command_error(client, data, is_incomplete)`. -/
def handle_command_error (client : tcp_client) (data : List Char) (is_incomplete : Bool)
    (s : coordinator) : coordinator × next_read :=
  if is_incomplete = false then (send_error client s, next_read.closed)
  else (s, next_read.read (some data))

/-- `coordinator::handle_db_requests(client, prev_data, req)`. -/
def handle_db_requests (parser : List Char → parse_run) (envs : Nat → rpc_env)
    (client : tcp_client) (prev_data : Option (List Char)) (req : read_result)
    (s : coordinator) : coordinator × next_read :=
  if req.success = false then (s, next_read.disconnected)
  else
    let data := (match prev_data with
      | some d => d
      | none => []) ++ req.data
    let r := parser data
    let parsed := parse_db_requests r
    let s1 := dispatch_all envs client 0 parsed.1 s
    match r.ending with
    | parse_end.done => (s1, next_read.read none)
    | parse_end.incomplete => handle_command_error client (data.drop parsed.2) true s1
    | parse_end.malformed => handle_command_error client (data.drop parsed.2) false s1

/-- From the words of the specification (sections 4.F and 6.1): each decoded
command goes through the engine once, in the order parsed; a `GET` through the
read path, a `SET` or `DEL` through the write path, any other verb is answered
`-ERROR`.  `envs j` are the replies of the participants while the `j`-th command
is handled. -/
def handle_in_parse_order (envs : Nat → rpc_env) (client : tcp_client)
    (cmds : List command) (s : coordinator) : coordinator :=
  cmds.enum.foldl
    (fun t jc =>
      match jc.2 with
      | command.get cmd => handle_db_get_request (envs jc.1) client cmd t
      | command.set cmd => handle_db_set_request (envs jc.1) client cmd t
      | command.del cmd => handle_db_del_request (envs jc.1) client cmd t
      | command.other => send_error client t)
    s

/-- The state and the connection after a read that ended in an incomplete frame,
as the claim words it: the commands read are handled once each in parse order,
every payload sent to the client is the reply of one of them (one per command, so
none for the incomplete frame), and the read is armed again with the buffer
without its first `b` bytes. -/
def carried_over_outcome (envs : Nat → rpc_env) (client : tcp_client)
    (buffer : List Char) (cmds : List command) (b : Nat) (s : coordinator)
    (out : coordinator × next_read) : Prop :=
  out.1 = handle_in_parse_order envs client cmds s ∧
  out.2 = next_read.read (some (buffer.drop b)) ∧
  (∃ replies : List String,
    out.1.sent = s.sent ++ replies.map (fun v => (client, v)) ∧
    replies.length = cmds.length)

/-! ## The client's reply decoder -/

/-- Modelled from the spec: `command_parser::separator` (command_parser.hpp is not
in the sources), the frame separator `\r\n`. -/
def separator : List Char := ['\r', '\n']

/-- `value[idx] >= '0' && value[idx] <= '9'`. -/
def is_digit (c : Char) : Bool := decide (48 ≤ c.toNat ∧ c.toNat ≤ 57)

/-- Value of a string of decimal digits. -/
def digits_value (ds : List Char) : Nat :=
  ds.foldl (fun acc c => acc * 10 + (c.toNat - 48)) 0

/-- `std::stoi` on a string of digits inside the `try` of `decode_int`: the value,
and `-1` (the `catch`) when the string is empty or the value does not fit `int`. -/
def stoi_digits (ds : List Char) : Int :=
  if ds = [] then -1
  else if digits_value ds ≤ 2147483647 then (digits_value ds : Int)
  else -1

/-- `std::string::substr(pos, n)` for `pos` within the string. -/
def substr (value : List Char) (pos n : Nat) : List Char :=
  (value.drop pos).take n

/-- `cdb_client::decode_int(value, idx)`: the result and the new `idx`. -/
def decode_int (value : List Char) (idx : Nat) : Int × Nat :=
  let digits := (value.drop idx).takeWhile is_digit
  (stoi_digits digits, idx + digits.length)

/-- The `while (idx < value.length())` loop of `cdb_client::decode_result` with what
follows it; `ss` is the contents of the string stream.  Every iteration advances
`idx`, so `fuel` bounds the iterations; `none` is fuel running out. -/
def decode_loop (value : List Char) : Nat → Nat → List Char → Option (List Char)
  | 0, _, _ => none
  | fuel + 1, idx, ss =>
    if idx < value.length then
      if substr value idx 2 ≠ separator then some []
      else if idx + 2 ≥ value.length then some (ss.take (ss.length - 1))
      else if value.get? (idx + 2) ≠ some '$' then some []
      else
        let r := decode_int value (idx + 3)
        if r.1 ≤ 0 then some []
        else if r.2 ≥ value.length ∨ substr value r.2 2 ≠ separator then some []
        else
          decode_loop value fuel (r.2 + 2 + r.1.toNat)
            (ss ++ substr value (r.2 + 2) r.1.toNat ++ [' '])
    else some (ss.take (ss.length - 1))

/-- `cdb_client::decode_result(value)`. -/
def decode_result (value : List Char) : Option (List Char) :=
  if value = "+OK\r\n".toList then some value
  else if value = "-ERROR\r\n".toList then some []
  else if value ≠ [] ∧ value.head? = some ':' then some value
  else if value = [] ∨ value.head? ≠ some '*' then some []
  else
    let r := decode_int value 1
    if r.1 ≤ 0 then some []
    else decode_loop value (value.length + 1) r.2 []

/-- Decimal numeral of `n`. -/
def decimal (n : Nat) : List Char := Nat.toDigits 10 n

/-- Bulk string `$<len>\r\n<bytes>\r\n`. -/
def encode_bulk_string (b : List Char) : List Char :=
  '$' :: decimal b.length ++ separator ++ b ++ separator

/-- Bulk array `*<n>\r\n` followed by the `n` bulk strings. -/
def encode_bulk_array (l : List (List Char)) : List Char :=
  '*' :: decimal l.length ++ separator ++ (l.map encode_bulk_string).flatten

/-- The strings joined by single spaces. -/
def join_spaces (l : List (List Char)) : List Char :=
  List.intercalate [' '] l

/-! ## Test data -/

/-- Participants that accept everything: `true` to PREPARE and ABORT, `+OK` to
COMMIT, the value `v` to GET, NEXT_ID 0, an empty snapshot. -/
def env_ok : rpc_env :=
  { prepare_set := fun _ _ => some true
    prepare_del := fun _ _ => some true
    commit := fun _ _ => some "+OK\r\n"
    abort := fun _ _ => some true
    get := fun _ _ => some "v"
    heartbeat := fun _ => some ()
    next_id := fun _ => some 0
    set_next_id := fun _ _ => some ()
    get_snapshot := fun _ => some []
    recover := fun _ _ _ => some () }

/-- A coordinator with `n`-independent fields empty. -/
def mk_state (conf live : List participant_addr) (next_id : Nat) : coordinator :=
  ⟨conf, live, next_id, [], [], true, [], [], 0⟩

/-- Participant 1 is unreachable, every other participant accepts everything. -/
def env_one_dead : rpc_env :=
  { env_ok with
    prepare_set := fun p _ => if p = 1 then none else some true
    prepare_del := fun p _ => if p = 1 then none else some true }

/-- Every participant replies `false` to PREPARE and acknowledges `ABORT`. -/
def env_dissent : rpc_env :=
  { env_ok with
    prepare_set := fun _ _ => some false
    prepare_del := fun _ _ => some false }

/-- No participant answers COMMIT. -/
def env_commit_dead : rpc_env :=
  { env_ok with commit := fun _ _ => none }

/-- Participant 1 answers COMMIT with the empty string, the others with `:1`. -/
def env_empty_first : rpc_env :=
  { env_ok with commit := fun p _ => if p = 1 then some "" else some ":1\r\n" }

/-- A state whose log holds a finished transaction 1 and an open transaction 2. -/
def state_done_then_open : coordinator :=
  { mk_state [1] [1] 3 with
    log := [⟨RECORD_UNRESOLVED, 1, 2⟩, ⟨RECORD_COMMIT, 1, 2⟩, ⟨RECORD_COMMIT_DONE, 1, 2⟩,
            ⟨RECORD_UNRESOLVED, 2, 3⟩] }

/-- A state whose log holds an open transaction 1 and a decided transaction 2. -/
def state_two_open : coordinator :=
  { mk_state [1] [1] 3 with
    log := [⟨RECORD_UNRESOLVED, 1, 2⟩, ⟨RECORD_UNRESOLVED, 2, 3⟩, ⟨RECORD_COMMIT, 2, 3⟩] }

/-- Participant 1 does not answer COMMIT, the others reply `+OK`. -/
def env_one_commit_dead : rpc_env :=
  { env_ok with commit := fun p _ => if p = 1 then none else some "+OK\r\n" }

/-- A history: a SET whose COMMIT reaches nobody, a redrive that completes it, a
second redrive, and a DEL that every participant refuses. -/
def history_example : List op :=
  [op.set env_commit_dead [1] 0 ⟨0, "k", "v"⟩,
   op.unfinished env_ok [1],
   op.unfinished env_ok [1],
   op.del env_dissent [1] 0 ⟨0, ["k"]⟩]

/-- No participant answers PREPARE. -/
def env_prepare_dead : rpc_env :=
  { env_ok with
    prepare_set := fun _ _ => none
    prepare_del := fun _ _ => none }

/-- No participant answers GET. -/
def env_get_dead : rpc_env :=
  { env_ok with get := fun _ _ => none }

/-- Participant 1 does not answer GET, the others reply `foo`. -/
def env_get_one_dead : rpc_env :=
  { env_ok with get := fun p _ => if p = 1 then none else some "foo" }

/-- A recovered coordinator at counter 8 whose transaction 7 is still
`UNRESOLVED`; participant 1 of the configured 1 and 2 is live. -/
def state_pending : coordinator :=
  { mk_state [1, 2] [1] 8 with log := [⟨RECORD_UNRESOLVED, 7, 8⟩] }

/-- Every participant reports NEXT_ID 7. -/
def env_behind : rpc_env :=
  { env_ok with next_id := fun _ => some 7 }

/-- A coordinator at counter 8 with `k` in `del_keys_`; participant 1 of the
configured 1 and 2 is live. -/
def state_degraded : coordinator :=
  { mk_state [1, 2] [1] 8 with
    del_keys_ := ["k"]
    log := [⟨RECORD_UNRESOLVED, 7, 8⟩, ⟨RECORD_COMMIT, 7, 8⟩, ⟨RECORD_COMMIT_DONE, 7, 8⟩] }

/-- Every participant reports NEXT_ID 8 and hands out the snapshot `[1, 2, 3]`. -/
def env_up_to_date : rpc_env :=
  { env_ok with
    next_id := fun _ => some 8
    get_snapshot := fun _ => some [1, 2, 3] }

/-- Every participant reports NEXT_ID 7 and hands out the snapshot `[1, 2, 3]`. -/
def env_stale : rpc_env :=
  { env_ok with
    next_id := fun _ => some 7
    get_snapshot := fun _ => some [1, 2, 3] }

/-- A run of the system: `DEL k` with participant 2 down, a heartbeat that finds
participant 2 still down, then one that readmits it from a snapshot. -/
def system_example : List sys_op :=
  [sys_op.heartbeat { env_ok with heartbeat := fun p => if p = 2 then none else some () } 1,
   sys_op.del env_ok 0 ⟨0, ["k"]⟩,
   sys_op.get env_ok 0 ⟨"k"⟩,
   sys_op.heartbeat { env_ok with next_id := fun _ => some 3 } 1]

/-- A parser run for a buffer that holds one complete `SET k v` frame of 27 bytes
followed by the beginning of another frame. -/
def parser_one_then_incomplete : List Char → parse_run :=
  fun _ => ⟨[(command.set ⟨0, "k", "v"⟩, 27)], parse_end.incomplete⟩

/-! ## Lemmas on the three loops -/

theorem prepare_loop_all_true (call : participant_addr → Option Bool)
    (l : List participant_addr) (h : ∀ p ∈ l, call p = some true) :
    prepare_loop call l = ⟨l, true, false, l⟩ := by
  induction l with
  | nil => rfl
  | cons p rest ih =>
    have hp : call p = some true := h p (List.mem_cons_self _ _)
    have hr := ih (fun q hq => h q (List.mem_cons_of_mem _ hq))
    simp [prepare_loop, hp, hr]

theorem prepare_loop_ok_true (call : participant_addr → Option Bool)
    (l : List participant_addr) (h : (prepare_loop call l).prepare_ok = true) :
    ∀ p ∈ (prepare_loop call l).participants, call p = some true := by
  induction l with
  | nil => simp [prepare_loop]
  | cons q rest ih =>
    unfold prepare_loop at h ⊢
    cases hq : call q with
    | none =>
      simp only [hq] at h ⊢
      exact ih h
    | some b =>
      cases b with
      | false => simp [hq] at h
      | true =>
        simp only [hq] at h ⊢
        intro p hp
        rcases List.mem_cons.mp hp with rfl | hp
        · exact hq
        · exact ih h p hp

theorem prepare_loop_false (call : participant_addr → Option Bool)
    (l : List participant_addr) (h : ∃ p ∈ l, call p = some false) :
    (prepare_loop call l).prepare_ok = false ∧ (prepare_loop call l).participants ≠ [] := by
  induction l with
  | nil => simp at h
  | cons q rest ih =>
    obtain ⟨p, hp, hpf⟩ := h
    unfold prepare_loop
    cases hq : call q with
    | none =>
      have : p ∈ rest := by
        rcases List.mem_cons.mp hp with rfl | hp
        · rw [hq] at hpf; cases hpf
        · exact hp
      simpa using ih ⟨p, this, hpf⟩
    | some b =>
      cases b with
      | false => simp
      | true =>
        have : p ∈ rest := by
          rcases List.mem_cons.mp hp with rfl | hp
          · rw [hq] at hpf; cases hpf
          · exact hp
        simpa using (ih ⟨p, this, hpf⟩).1

theorem prepare_loop_sublist (call : participant_addr → Option Bool)
    (l : List participant_addr) : (prepare_loop call l).participants.Sublist l := by
  induction l with
  | nil => simp [prepare_loop]
  | cons q rest ih =>
    unfold prepare_loop
    cases hq : call q with
    | none => simpa using ih.trans (List.sublist_cons_self q rest)
    | some b =>
      cases b with
      | false => simp
      | true => simpa using ih

theorem commit_loop_participants (call : participant_addr → Option String)
    (ret : String) (l : List participant_addr) :
    (commit_loop call ret l).participants = l.filter (fun p => (call p).isSome) := by
  induction l generalizing ret with
  | nil => rfl
  | cons p rest ih =>
    unfold commit_loop
    cases hp : call p with
    | none => simpa [hp] using ih ret
    | some v => simpa [hp] using ih _

theorem commit_loop_dead (call : participant_addr → Option String)
    (ret : String) (l : List participant_addr) :
    (commit_loop call ret l).participant_dead = l.any (fun p => (call p).isNone) := by
  induction l generalizing ret with
  | nil => rfl
  | cons p rest ih =>
    unfold commit_loop
    cases hp : call p with
    | none => simp [hp]
    | some v => simpa [hp] using ih _

/-- The reply kept by the COMMIT loop: the first non-empty reply of a call that
succeeded, and the initial `ret` when there is none. -/
theorem commit_loop_ret (call : participant_addr → Option String)
    (ret : String) (l : List participant_addr) :
    (commit_loop call ret l).ret =
      if ret = "" then ((l.filterMap call).find? (fun v => decide (v ≠ ""))).getD "" else ret := by
  induction l generalizing ret with
  | nil => by_cases h : ret = "" <;> simp [commit_loop, h]
  | cons p rest ih =>
    unfold commit_loop
    cases hp : call p with
    | none => simpa [hp] using ih ret
    | some v =>
      simp only [hp]
      rw [ih]
      by_cases h : ret = ""
      · by_cases hv : v = ""
        · simp [h, hv, hp, List.filterMap_cons]
        · simp [h, hv, hp, List.filterMap_cons]
      · simp [h]

theorem abort_loop_participants (call : participant_addr → Option Bool)
    (l : List participant_addr) :
    (abort_loop call l).1 = l.filter (fun p => call p == some true) := by
  induction l with
  | nil => rfl
  | cons p rest ih =>
    unfold abort_loop
    cases hp : call p with
    | none => simpa [hp] using ih
    | some b => cases b <;> simpa [hp] using ih

/-! ## Projections of `commit_db_request` and `abort_db_request` -/

theorem commit_db_request_log (env : rpc_env) (client : Option tcp_client) (id : Nat)
    (d : Bool) (s : coordinator) :
    (commit_db_request env client id d s).1.log =
      s.log ++ ⟨RECORD_COMMIT, id, s.next_id_⟩ ::
        (if (commit_loop (fun p => env.commit p id) "" s.participants_).participants ≠ []
          then [⟨RECORD_COMMIT_DONE, id, s.next_id_⟩] else []) := by
  unfold commit_db_request
  cases client <;> by_cases h : (commit_loop (fun p => env.commit p id) "" s.participants_).participants = []
    <;> simp [r_log, send_result, h]

theorem abort_db_request_log (env : rpc_env) (client : Option tcp_client) (id : Nat)
    (d : Bool) (s : coordinator) :
    (abort_db_request env client id d s).1.log =
      s.log ++ ⟨RECORD_ABORT, id, s.next_id_⟩ ::
        (if (abort_loop (fun p => env.abort p id) s.participants_).1 ≠ []
          then [⟨RECORD_ABORT_DONE, id, s.next_id_⟩] else []) := by
  unfold abort_db_request
  cases client <;> by_cases h : (abort_loop (fun p => env.abort p id) s.participants_).1 = []
    <;> simp [r_log, send_result, send_error, h]

theorem commit_db_request_frame (env : rpc_env) (client : Option tcp_client) (id : Nat)
    (d : Bool) (s : coordinator) :
    (commit_db_request env client id d s).1.next_id_ = s.next_id_ ∧
    (commit_db_request env client id d s).1.del_keys_ = s.del_keys_ ∧
    (commit_db_request env client id d s).1.conf_participants = s.conf_participants ∧
    (commit_db_request env client id d s).1.notified = s.notified ∧
    (commit_db_request env client id d s).1.participants_ =
      (commit_loop (fun p => env.commit p id) "" s.participants_).participants ∧
    (commit_db_request env client id d s).1.rpcs =
      s.rpcs ++ s.participants_.map (fun p => (p, rpc_call.COMMIT id)) := by
  unfold commit_db_request
  cases client <;> by_cases h : (commit_loop (fun p => env.commit p id) "" s.participants_).participants = []
    <;> simp [r_log, send_result, h]

theorem abort_db_request_frame (env : rpc_env) (client : Option tcp_client) (id : Nat)
    (d : Bool) (s : coordinator) :
    (abort_db_request env client id d s).1.next_id_ = s.next_id_ ∧
    (abort_db_request env client id d s).1.del_keys_ = s.del_keys_ ∧
    (abort_db_request env client id d s).1.conf_participants = s.conf_participants ∧
    (abort_db_request env client id d s).1.notified = s.notified ∧
    (abort_db_request env client id d s).1.participants_ =
      (abort_loop (fun p => env.abort p id) s.participants_).1 ∧
    (abort_db_request env client id d s).1.rpcs =
      s.rpcs ++ s.participants_.map (fun p => (p, rpc_call.ABORT id)) := by
  unfold abort_db_request
  cases client <;> by_cases h : (abort_loop (fun p => env.abort p id) s.participants_).1 = []
    <;> simp [r_log, send_result, send_error, h]

theorem commit_db_request_sent (env : rpc_env) (client : Option tcp_client) (id : Nat)
    (d : Bool) (s : coordinator) :
    (commit_db_request env client id d s).1.sent =
      match client with
      | some c => s.sent ++ [(c, (commit_loop (fun p => env.commit p id) "" s.participants_).ret)]
      | none => s.sent := by
  unfold commit_db_request
  cases client <;> by_cases h : (commit_loop (fun p => env.commit p id) "" s.participants_).participants = []
    <;> simp [r_log, send_result, h]

theorem abort_db_request_sent (env : rpc_env) (client : Option tcp_client) (id : Nat)
    (d : Bool) (s : coordinator) :
    (abort_db_request env client id d s).1.sent =
      match client with
      | some c => s.sent ++ [(c, error_string)]
      | none => s.sent := by
  unfold abort_db_request
  cases client <;> by_cases h : (abort_loop (fun p => env.abort p id) s.participants_).1 = []
    <;> simp [r_log, send_result, send_error, h]

/-! ## The write dispatches in terms of `write_dispatch` -/

theorem handle_db_set_request_eq (env : rpc_env) (client : tcp_client) (cmd : set_command)
    (s : coordinator) :
    handle_db_set_request env client cmd s =
      write_dispatch (fun p => env.prepare_set p { cmd with id := s.next_id_ })
        (rpc_call.PREPARE_SET { cmd with id := s.next_id_ }) env client s := rfl

theorem handle_db_del_request_eq (env : rpc_env) (client : tcp_client) (cmd : del_command)
    (s : coordinator) :
    ∃ dk, handle_db_del_request env client cmd s =
      { write_dispatch (fun p => env.prepare_del p { cmd with id := s.next_id_ })
          (rpc_call.PREPARE_DEL { cmd with id := s.next_id_ }) env client s with del_keys_ := dk } := by
  unfold handle_db_del_request write_dispatch
  by_cases h1 : s.participants_ = []
  · exact ⟨s.del_keys_, by simp [h1, send_error, send_result]⟩
  · simp only [h1, if_false]
    split
    · exact ⟨s.del_keys_, by simp [send_error, send_result, r_log]⟩
    · split
      · simp only [notify_if]
        split <;> split <;> exact ⟨_, rfl⟩
      · exact ⟨(abort_db_request env (some client) s.next_id_ _ _).1.del_keys_, by
          simp [notify_if]; split <;> rfl⟩

theorem write_dispatch_log (prep : participant_addr → Option Bool) (call : rpc_call)
    (env : rpc_env) (client : tcp_client) (s : coordinator) :
    (write_dispatch prep call env client s).log = s.log ++ write_records prep env s := by
  unfold write_dispatch write_records
  by_cases h1 : s.participants_ = []
  · simp [h1, send_error, send_result]
  · simp only [h1, if_false]
    by_cases h2 : (prepare_loop prep s.participants_).participants = []
    · simp [r_log, h2, send_error, send_result]
    · simp only [r_log, h2, if_false]
      cases hok : (prepare_loop prep s.participants_).prepare_ok
      · simp only [notify_if, Bool.false_eq_true, if_false]
        split <;> simp [abort_db_request_log]
      · simp only [notify_if, if_true]
        split <;> simp [commit_db_request_log]

theorem write_dispatch_sent (prep : participant_addr → Option Bool) (call : rpc_call)
    (env : rpc_env) (client : tcp_client) (s : coordinator) :
    (write_dispatch prep call env client s).sent = s.sent ++ [(client, write_reply prep env s)] := by
  unfold write_dispatch write_reply
  by_cases h1 : s.participants_ = []
  · simp [h1, send_error, send_result]
  · simp only [h1, if_false]
    by_cases h2 : (prepare_loop prep s.participants_).participants = []
    · simp [r_log, h2, send_error, send_result]
    · simp only [r_log, h2, if_false]
      cases hok : (prepare_loop prep s.participants_).prepare_ok
      · simp only [notify_if, Bool.false_eq_true, if_false]
        split <;> simp [abort_db_request_sent]
      · simp only [notify_if, if_true]
        split <;> simp [commit_db_request_sent]

theorem write_dispatch_participants (prep : participant_addr → Option Bool) (call : rpc_call)
    (env : rpc_env) (client : tcp_client) (s : coordinator) :
    (write_dispatch prep call env client s).participants_ = write_live prep env s := by
  unfold write_dispatch write_live
  by_cases h1 : s.participants_ = []
  · simp [h1, send_error, send_result, prepare_loop]
  · simp only [h1, if_false]
    by_cases h2 : (prepare_loop prep s.participants_).participants = []
    · simp [r_log, h2, send_error, send_result]
    · simp only [r_log, h2, if_false]
      cases hok : (prepare_loop prep s.participants_).prepare_ok
      · simp only [notify_if, Bool.false_eq_true, if_false]
        split <;> simp [(abort_db_request_frame _ _ _ _ _).2.2.2.2.1]
      · simp only [notify_if, if_true]
        split <;> simp [(commit_db_request_frame _ _ _ _ _).2.2.2.2.1]

theorem write_dispatch_next_id (prep : participant_addr → Option Bool) (call : rpc_call)
    (env : rpc_env) (client : tcp_client) (s : coordinator) :
    (write_dispatch prep call env client s).next_id_ =
      if s.participants_ = [] then s.next_id_ else (s.next_id_ + 1) % 2 ^ 32 := by
  unfold write_dispatch
  by_cases h1 : s.participants_ = []
  · simp [h1, send_error, send_result]
  · simp only [h1, if_false]
    by_cases h2 : (prepare_loop prep s.participants_).participants = []
    · simp [r_log, h2, send_error, send_result]
    · simp only [r_log, h2, if_false]
      cases hok : (prepare_loop prep s.participants_).prepare_ok
      · simp only [notify_if, Bool.false_eq_true, if_false]
        split <;> simp [(abort_db_request_frame _ _ _ _ _).1]
      · simp only [notify_if, if_true]
        split <;> simp [(commit_db_request_frame _ _ _ _ _).1]

theorem handle_db_del_request_log (env : rpc_env) (client : tcp_client) (cmd : del_command)
    (s : coordinator) :
    (handle_db_del_request env client cmd s).log =
      s.log ++ write_records (fun p => env.prepare_del p { cmd with id := s.next_id_ }) env s := by
  obtain ⟨dk, h⟩ := handle_db_del_request_eq env client cmd s
  rw [h]
  exact write_dispatch_log _ _ _ _ _

theorem handle_db_del_request_sent (env : rpc_env) (client : tcp_client) (cmd : del_command)
    (s : coordinator) :
    (handle_db_del_request env client cmd s).sent =
      s.sent ++ [(client, write_reply (fun p => env.prepare_del p { cmd with id := s.next_id_ }) env s)] := by
  obtain ⟨dk, h⟩ := handle_db_del_request_eq env client cmd s
  rw [h]
  exact write_dispatch_sent _ _ _ _ _

theorem handle_db_del_request_participants (env : rpc_env) (client : tcp_client)
    (cmd : del_command) (s : coordinator) :
    (handle_db_del_request env client cmd s).participants_ =
      write_live (fun p => env.prepare_del p { cmd with id := s.next_id_ }) env s := by
  obtain ⟨dk, h⟩ := handle_db_del_request_eq env client cmd s
  rw [h]
  exact write_dispatch_participants _ _ _ _ _

theorem handle_db_del_request_next_id (env : rpc_env) (client : tcp_client)
    (cmd : del_command) (s : coordinator) :
    (handle_db_del_request env client cmd s).next_id_ =
      if s.participants_ = [] then s.next_id_ else (s.next_id_ + 1) % 2 ^ 32 := by
  obtain ⟨dk, h⟩ := handle_db_del_request_eq env client cmd s
  rw [h]
  exact write_dispatch_next_id _ _ _ _ _

/-- With every call succeeding on a non-empty live set, the reply kept by the
COMMIT loop is the reply of one of the participants. -/
theorem commit_loop_ret_mem (call : participant_addr → Option String)
    (l : List participant_addr) (hne : l ≠ []) (h : ∀ p ∈ l, ∃ v, call p = some v) :
    ∃ p ∈ l, call p = some (commit_loop call "" l).ret := by
  rw [commit_loop_ret]
  simp only [if_true]
  cases hf : (l.filterMap call).find? (fun v => decide (v ≠ "")) with
  | some v =>
    have hv : v ∈ l.filterMap call := List.mem_of_find?_eq_some hf
    obtain ⟨p, hp, hpv⟩ := List.mem_filterMap.mp hv
    exact ⟨p, hp, by simpa using hpv⟩
  | none =>
    cases l with
    | nil => exact absurd rfl hne
    | cons p rest =>
      obtain ⟨v, hv⟩ := h p (List.mem_cons_self _ _)
      have hmem : v ∈ (p :: rest).filterMap call :=
        List.mem_filterMap.mpr ⟨p, List.mem_cons_self _ _, hv⟩
      have := List.find?_eq_none.mp hf v hmem
      have hv0 : v = "" := by simpa using this
      exact ⟨p, List.mem_cons_self _ _, by simpa [hv0] using hv⟩

theorem write_commit_outcome (prep : participant_addr → Option Bool) (env : rpc_env)
    (client : tcp_client) (s s' : coordinator) (hne : s.participants_ ≠ [])
    (hprep : ∀ p ∈ s.participants_, prep p = some true)
    (hcommit : ∀ p ∈ s.participants_, ∃ v, env.commit p s.next_id_ = some v)
    (hlog : s'.log = s.log ++ write_records prep env s)
    (hlive : s'.participants_ = write_live prep env s)
    (hsent : s'.sent = s.sent ++ [(client, write_reply prep env s)]) :
    commit_outcome env client s s' := by
  have hr := prepare_loop_all_true prep s.participants_ hprep
  have hc : (commit_loop (fun p => env.commit p s.next_id_) "" s.participants_).participants
      = s.participants_ := by
    rw [commit_loop_participants]
    apply List.filter_eq_self.mpr
    intro p hp
    obtain ⟨v, hv⟩ := hcommit p hp
    simp [hv]
  refine ⟨?_, ?_, ?_⟩
  · rw [hlog]; simp [write_records, hr, hne, hc]
  · rw [hlive]; simp [write_live, hr, hne, hc]
  · refine ⟨_, hsent, ?_⟩
    simp only [write_reply, hr, hne, if_false, if_true]
    exact commit_loop_ret_mem _ _ hne hcommit

theorem write_abort_outcome (prep : participant_addr → Option Bool) (env : rpc_env)
    (client : tcp_client) (s s' : coordinator)
    (hfalse : ∃ p ∈ s.participants_, prep p = some false)
    (hlog : s'.log = s.log ++ write_records prep env s)
    (hlive : s'.participants_ = write_live prep env s)
    (hsent : s'.sent = s.sent ++ [(client, write_reply prep env s)]) :
    abort_outcome env client (prepare_loop prep s.participants_).participants s s' := by
  obtain ⟨hok, hpne⟩ := prepare_loop_false prep s.participants_ hfalse
  have hne : s.participants_ ≠ [] := by
    obtain ⟨p, hp, _⟩ := hfalse
    exact List.ne_nil_of_mem hp
  have hrec : write_records prep env s =
      ⟨RECORD_UNRESOLVED, s.next_id_, (s.next_id_ + 1) % 2 ^ 32⟩ ::
      ⟨RECORD_ABORT, s.next_id_, (s.next_id_ + 1) % 2 ^ 32⟩ ::
      (if (abort_loop (fun p => env.abort p s.next_id_)
            (prepare_loop prep s.participants_).participants).1 ≠ []
        then [⟨RECORD_ABORT_DONE, s.next_id_, (s.next_id_ + 1) % 2 ^ 32⟩] else []) := by
    simp [write_records, hne, hpne, hok]
  refine ⟨?_, ?_, ?_, ?_⟩
  · rw [hsent]; simp [write_reply, hne, hpne, hok]
  · rw [hlog, hrec]
    intro r hr
    simp only [List.drop_left] at hr
    split at hr
    · simp at hr
      rcases hr with rfl | rfl | rfl <;> simp
    · simp at hr
      rcases hr with rfl | rfl <;> simp
  · rintro ⟨q, hq, hqa⟩
    have : (abort_loop (fun p => env.abort p s.next_id_)
        (prepare_loop prep s.participants_).participants).1 ≠ [] := by
      rw [abort_loop_participants]
      apply List.ne_nil_of_mem (a := q)
      simp [List.mem_filter, hq, hqa]
    rw [hlog, hrec]; simp [this]
  · intro hall
    have : (abort_loop (fun p => env.abort p s.next_id_)
        (prepare_loop prep s.participants_).participants).1 = [] := by
      rw [abort_loop_participants]
      apply List.filter_eq_nil_iff.mpr
      intro q hq
      simpa using hall q hq
    refine ⟨?_, ?_⟩
    · rw [hlive]; simp [write_live, hpne, hok, this]
    · rw [hlog, hrec]; simp [this]

theorem write_dispatch_rpcs (prep : participant_addr → Option Bool) (call : rpc_call)
    (env : rpc_env) (client : tcp_client) (s : coordinator) :
    (write_dispatch prep call env client s).rpcs = s.rpcs ++ write_rpcs prep call s := by
  unfold write_dispatch write_rpcs
  by_cases h1 : s.participants_ = []
  · simp [h1, send_error, send_result, prepare_loop]
  · simp only [h1, if_false]
    by_cases h2 : (prepare_loop prep s.participants_).participants = []
    · simp [r_log, h2, send_error, send_result]
    · simp only [r_log, h2, if_false]
      cases hok : (prepare_loop prep s.participants_).prepare_ok
      · simp only [notify_if, Bool.false_eq_true, if_false]
        split <;> simp [(abort_db_request_frame _ _ _ _ _).2.2.2.2.2]
      · simp only [notify_if, if_true]
        split <;> simp [(commit_db_request_frame _ _ _ _ _).2.2.2.2.2]

theorem handle_db_del_request_rpcs (env : rpc_env) (client : tcp_client)
    (cmd : del_command) (s : coordinator) :
    (handle_db_del_request env client cmd s).rpcs =
      s.rpcs ++ write_rpcs (fun p => env.prepare_del p { cmd with id := s.next_id_ })
        (rpc_call.PREPARE_DEL { cmd with id := s.next_id_ }) s := by
  obtain ⟨dk, h⟩ := handle_db_del_request_eq env client cmd s
  rw [h]
  exact write_dispatch_rpcs _ _ _ _ _

/-! ## The write path -/

/-- C1: a SET or DEL dispatched on a non-empty live set whose participants all
reply `true` to PREPARE and all answer COMMIT appends exactly `UNRESOLVED`,
`COMMIT`, `COMMIT_DONE` for the tid, leaves the live set as it was and sends the
client the COMMIT reply of a live participant. -/
theorem write_commit_path (env : rpc_env) (client : tcp_client) (s : coordinator)
    (hne : s.participants_ ≠ [])
    (hcommit : ∀ p ∈ s.participants_, ∃ v, env.commit p s.next_id_ = some v) :
    (∀ cmd : set_command,
      (∀ p ∈ s.participants_, env.prepare_set p { cmd with id := s.next_id_ } = some true) →
      commit_outcome env client s (handle_db_set_request env client cmd s)) ∧
    (∀ cmd : del_command,
      (∀ p ∈ s.participants_, env.prepare_del p { cmd with id := s.next_id_ } = some true) →
      commit_outcome env client s (handle_db_del_request env client cmd s)) := by
  constructor
  · intro cmd hprep
    apply write_commit_outcome _ env client s _ hne hprep hcommit
    · rw [handle_db_set_request_eq]; exact write_dispatch_log _ _ _ _ _
    · rw [handle_db_set_request_eq]; exact write_dispatch_participants _ _ _ _ _
    · rw [handle_db_set_request_eq]; exact write_dispatch_sent _ _ _ _ _
  · intro cmd hprep
    exact write_commit_outcome _ env client s _ hne hprep hcommit
      (handle_db_del_request_log _ _ _ _) (handle_db_del_request_participants _ _ _ _)
      (handle_db_del_request_sent _ _ _ _)

/-- Witness of C1: `SET freak foo` with one participant that accepts everything. -/
theorem write_commit_path_witness :
    commit_outcome env_ok 0 (mk_state [1] [1] 7)
      (handle_db_set_request env_ok 0 ⟨0, "freak", "foo"⟩ (mk_state [1] [1] 7)) :=
  (write_commit_path env_ok 0 (mk_state [1] [1] 7) (by decide)
    (fun _ _ => ⟨_, rfl⟩)).1 ⟨0, "freak", "foo"⟩ (fun _ _ => rfl)

theorem write_records_commit (prep : participant_addr → Option Bool) (env : rpc_env)
    (s : coordinator) (h : ∃ r ∈ write_records prep env s, r.status = RECORD_COMMIT) :
    (prepare_loop prep s.participants_).prepare_ok = true := by
  obtain ⟨r, hr, hst⟩ := h
  unfold write_records at hr
  simp only at hr
  split at hr
  · simp at hr
  · split at hr
    · simp at hr; subst hr; simp at hst
    · split at hr
      · assumption
      · split at hr
        · simp at hr
          rcases hr with rfl | rfl | rfl <;> simp at hst
        · simp at hr
          rcases hr with rfl | rfl <;> simp at hst

theorem write_live_sub (prep : participant_addr → Option Bool) (env : rpc_env)
    (s : coordinator) :
    ∀ p ∈ write_live prep env s, p ∈ (prepare_loop prep s.participants_).participants := by
  intro p hp
  unfold write_live at hp
  simp only at hp
  split at hp
  · simp at hp
  · split at hp
    · rw [commit_loop_participants] at hp
      exact (List.mem_filter.mp hp).1
    · rw [abort_loop_participants] at hp
      exact (List.mem_filter.mp hp).1

theorem write_commit_only_if_prepared (prep : participant_addr → Option Bool) (env : rpc_env)
    (s s' : coordinator)
    (hlog : s'.log = s.log ++ write_records prep env s)
    (hlive : s'.participants_ = write_live prep env s)
    (h : ∃ r ∈ s'.log.drop s.log.length, r.status = RECORD_COMMIT) :
    (∀ p ∈ (prepare_loop prep s.participants_).participants, prep p = some true) ∧
    (∀ p ∈ s'.participants_, prep p = some true) ∧
    (∀ p ∈ s.participants_, prep p ≠ some false) := by
  rw [hlog, List.drop_left] at h
  have hok := write_records_commit prep env s h
  have h1 := prepare_loop_ok_true prep s.participants_ hok
  refine ⟨h1, ?_, ?_⟩
  · intro p hp
    rw [hlive] at hp
    exact h1 p (write_live_sub prep env s p hp)
  · intro p hp hf
    have := (prepare_loop_false prep s.participants_ ⟨p, hp, hf⟩).1
    rw [hok] at this
    cases this

/-- C2: when a SET or DEL dispatch appends a `COMMIT` record, every participant
in the live set left by the PREPARE loop (the live set at the moment of the
append) replied `true` to its PREPARE call, so does every participant of the
final live set, and no participant of the initial live set replies `false`. -/
theorem commit_record_only_if_prepared (env : rpc_env) (client : tcp_client)
    (s : coordinator) :
    (∀ cmd : set_command,
      (∃ r ∈ (handle_db_set_request env client cmd s).log.drop s.log.length,
        r.status = RECORD_COMMIT) →
      (∀ p ∈ (prepare_loop (fun p => env.prepare_set p { cmd with id := s.next_id_ })
          s.participants_).participants,
        env.prepare_set p { cmd with id := s.next_id_ } = some true) ∧
      (∀ p ∈ (handle_db_set_request env client cmd s).participants_,
        env.prepare_set p { cmd with id := s.next_id_ } = some true) ∧
      (∀ p ∈ s.participants_, env.prepare_set p { cmd with id := s.next_id_ } ≠ some false)) ∧
    (∀ cmd : del_command,
      (∃ r ∈ (handle_db_del_request env client cmd s).log.drop s.log.length,
        r.status = RECORD_COMMIT) →
      (∀ p ∈ (prepare_loop (fun p => env.prepare_del p { cmd with id := s.next_id_ })
          s.participants_).participants,
        env.prepare_del p { cmd with id := s.next_id_ } = some true) ∧
      (∀ p ∈ (handle_db_del_request env client cmd s).participants_,
        env.prepare_del p { cmd with id := s.next_id_ } = some true) ∧
      (∀ p ∈ s.participants_, env.prepare_del p { cmd with id := s.next_id_ } ≠ some false)) := by
  constructor
  · intro cmd h
    refine write_commit_only_if_prepared
      (fun p => env.prepare_set p { cmd with id := s.next_id_ }) env s _ ?_ ?_ h
    · rw [handle_db_set_request_eq]; exact write_dispatch_log _ _ _ _ _
    · rw [handle_db_set_request_eq]; exact write_dispatch_participants _ _ _ _ _
  · intro cmd h
    exact write_commit_only_if_prepared
      (fun p => env.prepare_del p { cmd with id := s.next_id_ }) env s _
      (handle_db_del_request_log _ _ _ _) (handle_db_del_request_participants _ _ _ _) h

/-- Witness of C2: participant 1 fails PREPARE and is erased, participant 2
replies `true`; the `COMMIT` record is appended with the live set `[2]`. -/
theorem commit_record_only_if_prepared_witness :
    (handle_db_set_request env_one_dead 0 ⟨0, "k", "v"⟩ (mk_state [1, 2] [1, 2] 7)).participants_
      = [2] ∧
    ∀ p ∈ (handle_db_set_request env_one_dead 0 ⟨0, "k", "v"⟩
        (mk_state [1, 2] [1, 2] 7)).participants_,
      env_one_dead.prepare_set p ⟨7, "k", "v"⟩ = some true :=
  ⟨by decide,
   ((commit_record_only_if_prepared env_one_dead 0 (mk_state [1, 2] [1, 2] 7)).1 ⟨0, "k", "v"⟩
    ⟨⟨RECORD_COMMIT, 7, 8⟩, by decide, rfl⟩).2.1⟩

/-- C3: a SET or DEL dispatch in which a live participant replies `false` to
PREPARE sends `-ERROR`, appends no `COMMIT` or `COMMIT_DONE` record, appends
exactly `UNRESOLVED`, `ABORT`, `ABORT_DONE` when a participant of the live set
left by PREPARE acknowledges `ABORT`, and only `UNRESOLVED`, `ABORT` (with an
empty live set) when none does. -/
theorem write_abort_path (env : rpc_env) (client : tcp_client) (s : coordinator) :
    (∀ cmd : set_command,
      (∃ p ∈ s.participants_, env.prepare_set p { cmd with id := s.next_id_ } = some false) →
      abort_outcome env client
        (prepare_loop (fun p => env.prepare_set p { cmd with id := s.next_id_ })
          s.participants_).participants
        s (handle_db_set_request env client cmd s)) ∧
    (∀ cmd : del_command,
      (∃ p ∈ s.participants_, env.prepare_del p { cmd with id := s.next_id_ } = some false) →
      abort_outcome env client
        (prepare_loop (fun p => env.prepare_del p { cmd with id := s.next_id_ })
          s.participants_).participants
        s (handle_db_del_request env client cmd s)) := by
  constructor
  · intro cmd h
    refine write_abort_outcome
      (fun p => env.prepare_set p { cmd with id := s.next_id_ }) env client s _ h ?_ ?_ ?_
    · rw [handle_db_set_request_eq]; exact write_dispatch_log _ _ _ _ _
    · rw [handle_db_set_request_eq]; exact write_dispatch_participants _ _ _ _ _
    · rw [handle_db_set_request_eq]; exact write_dispatch_sent _ _ _ _ _
  · intro cmd h
    exact write_abort_outcome
      (fun p => env.prepare_del p { cmd with id := s.next_id_ }) env client s _ h
      (handle_db_del_request_log _ _ _ _) (handle_db_del_request_participants _ _ _ _)
      (handle_db_del_request_sent _ _ _ _)

/-- Witness of C3: the sole participant replies `false` to `PREPARE_SET` and
acknowledges `ABORT`. -/
theorem write_abort_path_witness :
    abort_outcome env_dissent 0 [1] (mk_state [1] [1] 7)
      (handle_db_set_request env_dissent 0 ⟨0, "k", "v"⟩ (mk_state [1] [1] 7)) :=
  (write_abort_path env_dissent 0 (mk_state [1] [1] 7)).1 ⟨0, "k", "v"⟩ ⟨1, by decide, rfl⟩

/-- C4: a SET or DEL dispatched on an empty live set sends `-ERROR` and leaves
the tid counter, the log, the RPC trace and `del_keys_` as they were. -/
theorem write_empty_live_set (env : rpc_env) (client : tcp_client) (s : coordinator)
    (h : s.participants_ = []) :
    (∀ cmd : set_command, error_only_outcome client s (handle_db_set_request env client cmd s)) ∧
    (∀ cmd : del_command, error_only_outcome client s (handle_db_del_request env client cmd s)) := by
  constructor
  · intro cmd
    simp [handle_db_set_request, h, send_error, send_result, error_only_outcome]
  · intro cmd
    simp [handle_db_del_request, h, send_error, send_result, error_only_outcome]

/-- Witness of C4: a `DEL` with both configured participants down. -/
theorem write_empty_live_set_witness :
    error_only_outcome 0 (mk_state [1, 2] [] 7)
      (handle_db_del_request env_ok 0 ⟨0, ["k"]⟩ (mk_state [1, 2] [] 7)) :=
  (write_empty_live_set env_ok 0 (mk_state [1, 2] [] 7) rfl).2 ⟨0, ["k"]⟩

/-! ## `commit_db_request` -/

/-- C7 (the code at the failing input): with a non-null client and a sole live
participant whose COMMIT call throws, `commit_db_request` hands the client the
empty payload, which is not `-ERROR`. -/
theorem commit_all_failed_reply :
    (commit_db_request env_commit_dead (some 0) 7 false (mk_state [1] [1] 8)).1.sent = [(0, "")] ∧
    (commit_db_request env_commit_dead (some 0) 7 false (mk_state [1] [1] 8)).1.participants_ = [] ∧
    error_string ≠ "" := by
  decide

/-- C8 as stated fails: participant 1 is the first whose COMMIT succeeds, its
reply is the empty string, and the client is sent the reply of participant 2. -/
theorem commit_reply_counterexample :
    first_success (fun p => env_empty_first.commit p 7) (mk_state [1, 2] [1, 2] 8).participants_
      = some "" ∧
    (commit_db_request env_empty_first (some 0) 7 false (mk_state [1, 2] [1, 2] 8)).1.sent
      = [(0, ":1\r\n")] := by
  decide

theorem first_nonempty_mem (call : participant_addr → Option String)
    (l : List participant_addr) (h : ∃ p ∈ l, ∃ v, call p = some v) :
    ∃ p ∈ l, call p = some (first_nonempty call l) := by
  unfold first_nonempty
  cases hf : (l.filterMap call).find? (fun v => decide (v ≠ "")) with
  | some v =>
    have hv : v ∈ l.filterMap call := List.mem_of_find?_eq_some hf
    obtain ⟨p, hp, hpv⟩ := List.mem_filterMap.mp hv
    exact ⟨p, hp, by simpa using hpv⟩
  | none =>
    obtain ⟨p, hp, v, hv⟩ := h
    have hmem : v ∈ l.filterMap call := List.mem_filterMap.mpr ⟨p, hp, hv⟩
    have := List.find?_eq_none.mp hf v hmem
    have hv0 : v = "" := by simpa using this
    exact ⟨p, hp, by simpa [hv0] using hv⟩

/-- C8 amended: with a non-null client and at least one COMMIT call succeeding,
the client is sent the first non-empty reply among the calls that succeeded, in
iteration order, and the empty string when every such reply is empty; this
payload is the reply of a participant whose call succeeded, and it is the reply of
the first such participant whenever that reply is not empty, whatever later
participants reply. -/
theorem commit_reply_first_nonempty (env : rpc_env) (client : tcp_client) (id : Nat)
    (d : Bool) (s : coordinator)
    (hsucc : ∃ p ∈ s.participants_, ∃ v, env.commit p id = some v) :
    (commit_db_request env (some client) id d s).1.sent =
      s.sent ++ [(client, first_nonempty (fun p => env.commit p id) s.participants_)] ∧
    (∃ p ∈ s.participants_,
      env.commit p id = some (first_nonempty (fun p => env.commit p id) s.participants_)) ∧
    (∀ v, first_success (fun p => env.commit p id) s.participants_ = some v → v ≠ "" →
      (commit_db_request env (some client) id d s).1.sent = s.sent ++ [(client, v)]) := by
  have h1 : (commit_db_request env (some client) id d s).1.sent =
      s.sent ++ [(client, first_nonempty (fun p => env.commit p id) s.participants_)] := by
    rw [commit_db_request_sent]
    simp [commit_loop_ret, first_nonempty]
  refine ⟨h1, first_nonempty_mem _ _ hsucc, ?_⟩
  intro v hv hne
  rw [h1]
  unfold first_success at hv
  unfold first_nonempty
  cases hl : s.participants_.filterMap (fun p => env.commit p id) with
  | nil => rw [hl] at hv; simp at hv
  | cons a rest =>
    rw [hl] at hv
    simp at hv
    subst hv
    simp [List.find?_cons, hne]

/-- Witness of C8 amended: one participant down, the next replies `+OK`. -/
theorem commit_reply_first_nonempty_witness :
    (commit_db_request env_one_commit_dead (some 0) 7 false (mk_state [1, 2] [1, 2] 8)).1.sent
      = [(0, "+OK\r\n")] :=
  ((commit_reply_first_nonempty env_one_commit_dead 0 7 false (mk_state [1, 2] [1, 2] 8)
    ⟨2, by decide, "+OK\r\n", rfl⟩).2.2 "+OK\r\n" (by decide) (by decide))

/-! ## `handle_unfinished_records` -/

theorem abort_db_request_redrive (env : rpc_env) (e : record) (d : Bool) (s : coordinator)
    (h : e.status = RECORD_UNRESOLVED ∨ e.status = RECORD_ABORT) :
    (abort_db_request env none e.id d s).1 = redrive_entry env s e := by
  have hr : redrive_entry env s e =
      { s with
        log := s.log ++ ⟨RECORD_ABORT, e.id, s.next_id_⟩ ::
          (if s.participants_.filter (fun p => env.abort p e.id == some true) ≠ []
            then [⟨RECORD_ABORT_DONE, e.id, s.next_id_⟩] else [])
        rpcs := s.rpcs ++ s.participants_.map (fun p => (p, rpc_call.ABORT e.id))
        participants_ := s.participants_.filter (fun p => env.abort p e.id == some true) } := by
    unfold redrive_entry
    rcases h with h | h <;> rw [h]
  rw [hr]
  unfold abort_db_request
  simp only [r_log, abort_loop_participants]
  split <;> simp_all

theorem commit_db_request_redrive (env : rpc_env) (e : record) (d : Bool) (s : coordinator)
    (h : e.status = RECORD_COMMIT) :
    (commit_db_request env none e.id d s).1 = redrive_entry env s e := by
  unfold redrive_entry commit_db_request
  rw [h]
  simp only [r_log, commit_loop_participants]
  split <;> simp_all

/-- With `NDEBUG` the loop redrives every entry and never stops. -/
theorem handle_unfinished_loop_ndebug (env : rpc_env) (es : List record) (d : Bool)
    (s : coordinator) :
    handle_unfinished_loop true env es d s = (es.foldl (redrive_entry env) s, false) := by
  induction es generalizing d s with
  | nil => rfl
  | cons e rest ih =>
    unfold handle_unfinished_loop
    cases hst : e.status
    · simp only [List.foldl_cons]
      rw [ih, abort_db_request_redrive env e _ s (Or.inl hst)]
    · simp only [List.foldl_cons]
      rw [ih, commit_db_request_redrive env e _ s hst]
    · simp only [List.foldl_cons, if_true]
      rw [ih]; simp [redrive_entry, hst]
    · simp only [List.foldl_cons]
      rw [ih, abort_db_request_redrive env e _ s (Or.inr hst)]
    · simp only [List.foldl_cons, if_true]
      rw [ih]; simp [redrive_entry, hst]

/-- Without terminal entries the loop redrives every entry, in either build. -/
theorem handle_unfinished_loop_open (ndebug : Bool) (env : rpc_env) (es : List record)
    (d : Bool) (s : coordinator) (h : ∀ e ∈ es, e.status.is_done = false) :
    handle_unfinished_loop ndebug env es d s = (es.foldl (redrive_entry env) s, false) := by
  induction es generalizing d s with
  | nil => rfl
  | cons e rest ih =>
    have he := h e (List.mem_cons_self _ _)
    have hrest : ∀ e ∈ rest, e.status.is_done = false :=
      fun x hx => h x (List.mem_cons_of_mem _ hx)
    unfold handle_unfinished_loop
    cases hst : e.status
    · simp only [List.foldl_cons]
      rw [ih _ _ hrest, abort_db_request_redrive env e _ s (Or.inl hst)]
    · simp only [List.foldl_cons]
      rw [ih _ _ hrest, commit_db_request_redrive env e _ s hst]
    · rw [hst] at he; cases he
    · simp only [List.foldl_cons]
      rw [ih _ _ hrest, abort_db_request_redrive env e _ s (Or.inr hst)]
    · rw [hst] at he; cases he

/-- With assertions compiled in, the loop stops at the first terminal entry. -/
theorem handle_unfinished_loop_assert (env : rpc_env) (pre post : List record) (e : record)
    (d : Bool) (s : coordinator) (hpre : ∀ x ∈ pre, x.status.is_done = false)
    (he : e.status.is_done = true) :
    handle_unfinished_loop false env (pre ++ e :: post) d s
      = (pre.foldl (redrive_entry env) s, true) := by
  induction pre generalizing d s with
  | nil =>
    simp only [List.nil_append, List.foldl_nil]
    unfold handle_unfinished_loop
    cases hst : e.status <;> simp_all [record_status.is_done]
  | cons x rest ih =>
    have hx := hpre x (List.mem_cons_self _ _)
    have hrest : ∀ y ∈ rest, y.status.is_done = false :=
      fun y hy => hpre y (List.mem_cons_of_mem _ hy)
    simp only [List.cons_append, List.foldl_cons]
    unfold handle_unfinished_loop
    cases hst : x.status
    · simp only []
      rw [ih _ _ hrest, abort_db_request_redrive env x _ s (Or.inl hst)]
    · simp only []
      rw [ih _ _ hrest, commit_db_request_redrive env x _ s hst]
    · rw [hst] at hx; cases hx
    · simp only []
      rw [ih _ _ hrest, abort_db_request_redrive env x _ s (Or.inr hst)]
    · rw [hst] at hx; cases hx

theorem redrive_entry_frame (env : rpc_env) (s : coordinator) (e : record) :
    (redrive_entry env s e).next_id_ = s.next_id_ ∧ (redrive_entry env s e).sent = s.sent := by
  unfold redrive_entry
  cases e.status <;> simp

theorem redrive_foldl_frame (env : rpc_env) (es : List record) (s : coordinator) :
    (es.foldl (redrive_entry env) s).next_id_ = s.next_id_ ∧
    (es.foldl (redrive_entry env) s).sent = s.sent := by
  induction es generalizing s with
  | nil => simp
  | cons e rest ih =>
    simp only [List.foldl_cons]
    rw [(ih _).1, (ih _).2]
    exact redrive_entry_frame env s e

theorem records_insert_mem (r y : record) (m : List record)
    (h : y ∈ records_insert r m) : y = r ∨ y ∈ m := by
  induction m with
  | nil => simpa [records_insert] using h
  | cons x xs ih =>
    unfold records_insert at h
    split at h
    · rcases List.mem_cons.mp h with h | h
      · exact Or.inl h
      · exact Or.inr h
    · split at h
      · rcases List.mem_cons.mp h with h | h
        · exact Or.inl h
        · exact Or.inr (List.mem_cons_of_mem _ h)
      · rcases List.mem_cons.mp h with h | h
        · exact Or.inr (h ▸ List.mem_cons_self _ _)
        · rcases ih h with h | h
          · exact Or.inl h
          · exact Or.inr (List.mem_cons_of_mem _ h)

theorem records_insert_sorted (r : record) (m : List record)
    (hm : m.Pairwise (fun a b => a.id < b.id)) :
    (records_insert r m).Pairwise (fun a b => a.id < b.id) := by
  induction m with
  | nil => simp [records_insert]
  | cons x xs ih =>
    rw [List.pairwise_cons] at hm
    unfold records_insert
    split
    · rename_i hlt
      refine List.pairwise_cons.mpr ⟨?_, List.pairwise_cons.mpr hm⟩
      intro y hy
      rcases List.mem_cons.mp hy with rfl | hy
      · exact hlt
      · exact lt_trans hlt (hm.1 y hy)
    · split
      · rename_i _ heq
        refine List.pairwise_cons.mpr ⟨?_, hm.2⟩
        intro y hy
        rw [heq]; exact hm.1 y hy
      · rename_i hnlt hne
        refine List.pairwise_cons.mpr ⟨?_, ih hm.2⟩
        intro y hy
        rcases records_insert_mem r y xs hy with rfl | hy
        · omega
        · exact hm.1 y hy

theorem records_append (log : List record) (r : record) :
    records (log ++ [r]) = records_insert r (records log) := by
  simp [records, List.foldl_append]

theorem records_sorted (log : List record) :
    (records log).Pairwise (fun a b => a.id < b.id) := by
  induction log using List.reverseRecOn with
  | nil => simp [records]
  | append_singleton l r ih =>
    rw [records_append]
    exact records_insert_sorted r _ ih

/-- C9: on a latest-record map `m` whose entries are all `UNRESOLVED`, `ABORT` or
`COMMIT`, the loop of `handle_unfinished_records` redrives the entries one after
the other in the order of the map, each as the specification words it
(`redrive_entry`), without stopping, and leaves the tid counter and the client
replies as they were; the map `records()` that `handle_unfinished_records` copies
is in ascending tid order with one entry per tid. -/
theorem handle_unfinished_records_redrives (ndebug : Bool) (env : rpc_env) (s : coordinator)
    (m : List record)
    (h : ∀ e ∈ m, e.status = RECORD_UNRESOLVED ∨ e.status = RECORD_ABORT ∨
      e.status = RECORD_COMMIT) :
    handle_unfinished_loop ndebug env m false s = (m.foldl (redrive_entry env) s, false) ∧
    (handle_unfinished_loop ndebug env m false s).1.next_id_ = s.next_id_ ∧
    (handle_unfinished_loop ndebug env m false s).1.sent = s.sent ∧
    (records s.log = m →
      handle_unfinished_records ndebug env s = (m.foldl (redrive_entry env) s, false) ∧
      m.Pairwise (fun a b => a.id < b.id)) := by
  have hopen : ∀ e ∈ m, e.status.is_done = false := by
    intro e he
    rcases h e he with h | h | h <;> rw [h] <;> rfl
  have heq := handle_unfinished_loop_open ndebug env m false s hopen
  refine ⟨heq, ?_, ?_, ?_⟩
  · rw [heq]; exact (redrive_foldl_frame env _ s).1
  · rw [heq]; exact (redrive_foldl_frame env _ s).2
  · intro hm
    refine ⟨?_, hm ▸ records_sorted s.log⟩
    unfold handle_unfinished_records
    rw [hm]; exact heq

/-- Witness of C9: transaction 1 is `UNRESOLVED`, transaction 2 is `COMMIT`. -/
theorem handle_unfinished_records_redrives_witness :
    (handle_unfinished_records false env_ok state_two_open).1.log = state_two_open.log ++
      [⟨RECORD_ABORT, 1, 3⟩, ⟨RECORD_ABORT_DONE, 1, 3⟩,
       ⟨RECORD_COMMIT, 2, 3⟩, ⟨RECORD_COMMIT_DONE, 2, 3⟩] := by
  rw [((handle_unfinished_records_redrives false env_ok state_two_open
    [⟨RECORD_UNRESOLVED, 1, 2⟩, ⟨RECORD_COMMIT, 2, 3⟩] (by decide)).2.2.2 (by decide)).1]
  decide

/-- C10 as stated fails: the map holds `COMMIT_DONE` for tid 1 and `UNRESOLVED`
for tid 2; with assertions compiled in, `assert(0)` fires at the first entry and
the open entry after it is not redriven. -/
theorem handle_unfinished_done_counterexample :
    records state_done_then_open.log = [⟨RECORD_COMMIT_DONE, 1, 2⟩, ⟨RECORD_UNRESOLVED, 2, 3⟩] ∧
    handle_unfinished_records false env_ok state_done_then_open = (state_done_then_open, true) := by
  decide

/-- C10 amended: for a latest-record map `pre ++ e :: post` whose first terminal
entry (`COMMIT_DONE` or `ABORT_DONE`) is `e`, no RPC is issued and no record
appended for `e`; the entry reaches `assert(0)`, so with assertions compiled in
the run stops at `e`, the entries before it redriven and those after it not, and
with `NDEBUG` the run goes on to the remaining entries. -/
theorem handle_unfinished_done_entry (env : rpc_env) (s : coordinator)
    (pre post : List record) (e : record)
    (he : e.status = RECORD_COMMIT_DONE ∨ e.status = RECORD_ABORT_DONE)
    (hpre : ∀ x ∈ pre, x.status ≠ RECORD_COMMIT_DONE ∧ x.status ≠ RECORD_ABORT_DONE) :
    handle_unfinished_loop true env (pre ++ e :: post) false s =
      handle_unfinished_loop true env (pre ++ post) false s ∧
    handle_unfinished_loop false env (pre ++ e :: post) false s =
      ((handle_unfinished_loop false env pre false s).1, true) ∧
    (handle_unfinished_loop false env pre false s).2 = false ∧
    (records s.log = pre ++ e :: post →
      handle_unfinished_records true env s =
        (post.foldl (redrive_entry env) (pre.foldl (redrive_entry env) s), false) ∧
      handle_unfinished_records false env s = (pre.foldl (redrive_entry env) s, true)) := by
  have hid : ∀ t : coordinator, redrive_entry env t e = t := by
    intro t
    unfold redrive_entry
    rcases he with he | he <;> rw [he]
  have hdone : e.status.is_done = true := by
    rcases he with he | he <;> rw [he] <;> rfl
  have hopen : ∀ x ∈ pre, x.status.is_done = false := by
    intro x hx
    have := hpre x hx
    cases hst : x.status <;> simp_all [record_status.is_done]
  have hpre_eq := handle_unfinished_loop_open false env pre false s hopen
  refine ⟨?_, ?_, ?_, ?_⟩
  · rw [handle_unfinished_loop_ndebug, handle_unfinished_loop_ndebug]
    simp [List.foldl_append, hid]
  · rw [hpre_eq]
    exact handle_unfinished_loop_assert env pre post e false s hopen hdone
  · rw [hpre_eq]
  · intro hmap
    constructor
    · unfold handle_unfinished_records
      rw [handle_unfinished_loop_ndebug, hmap]
      simp [List.foldl_append, hid]
    · unfold handle_unfinished_records
      rw [hmap]
      exact handle_unfinished_loop_assert env pre post e false s hopen hdone

/-- Witness of C10 amended: the map of `state_done_then_open`. -/
theorem handle_unfinished_done_entry_witness :
    handle_unfinished_records true env_ok state_done_then_open =
      ([⟨RECORD_UNRESOLVED, 2, 3⟩].foldl (redrive_entry env_ok)
        (([] : List record).foldl (redrive_entry env_ok) state_done_then_open), false) :=
  ((handle_unfinished_done_entry env_ok state_done_then_open [] [⟨RECORD_UNRESOLVED, 2, 3⟩]
    ⟨RECORD_COMMIT_DONE, 1, 2⟩ (Or.inl rfl) (by simp)).2.2.2 (by decide)).1

/-! ## Histories -/

theorem latest_done_append (tid : Nat) (log : List record) (r : record) :
    latest_done tid (log ++ [r]) = if r.id = tid then r.status.is_done else latest_done tid log := by
  simp [latest_done, List.foldl_append]

theorem done_total_append (tid : Nat) (log : List record) (r : record) :
    done_total tid (log ++ [r]) =
      done_total tid log + if r.id = tid ∧ r.status.is_done = true then 1 else 0 := by
  simp [done_total, List.countP_append, List.countP_cons]

theorem done_inv_append (log : List record) (r : record) (h : done_inv log)
    (hl : latest_done r.id log = false) : done_inv (log ++ [r]) := by
  intro tid
  rw [latest_done_append, done_total_append]
  by_cases hid : r.id = tid
  · subst hid
    have := h r.id
    rw [hl] at this
    cases hd : r.status.is_done <;> simp [this]
  · simp [hid, h tid]

theorem latest_done_append_other (tid : Nat) (log ext : List record)
    (h : ∀ r ∈ ext, r.id ≠ tid) : latest_done tid (log ++ ext) = latest_done tid log := by
  induction ext generalizing log with
  | nil => simp
  | cons r rest ih =>
    have : log ++ r :: rest = (log ++ [r]) ++ rest := by simp
    rw [this, ih _ (fun x hx => h x (List.mem_cons_of_mem _ hx)), latest_done_append]
    simp [h r (List.mem_cons_self _ _)]

theorem latest_done_fresh (tid : Nat) (log : List record) (h : ∀ r ∈ log, r.id ≠ tid) :
    latest_done tid log = false := by
  have := latest_done_append_other tid [] log h
  simpa [latest_done] using this

/-- Appending records of one tid whose latest record is not terminal, none of
them terminal but possibly the last, keeps the log invariant. -/
theorem done_inv_extend (t : Nat) (ext log : List record) (h : done_inv log)
    (hl : latest_done t log = false) (hid : ∀ r ∈ ext, r.id = t)
    (hopen : ∀ r ∈ ext.dropLast, r.status.is_done = false) : done_inv (log ++ ext) := by
  induction ext generalizing log with
  | nil => simpa using h
  | cons r rest ih =>
    have hr : r.id = t := hid r (List.mem_cons_self _ _)
    have h1 : done_inv (log ++ [r]) := done_inv_append log r h (by rw [hr]; exact hl)
    have happ : log ++ r :: rest = (log ++ [r]) ++ rest := by simp
    rw [happ]
    cases rest with
    | nil => simpa using h1
    | cons x xs =>
      have hro : r.status.is_done = false := hopen r (by simp [List.dropLast])
      apply ih _ h1
      · rw [latest_done_append]; simp [hr, hro]
      · intro y hy; exact hid y (List.mem_cons_of_mem _ hy)
      · intro y hy
        apply hopen y
        rw [List.dropLast_cons_of_ne_nil (by simp)]
        exact List.mem_cons_of_mem _ hy

theorem records_insert_mem_sorted (r y : record) (m : List record)
    (hm : m.Pairwise (fun a b => a.id < b.id)) (h : y ∈ records_insert r m) :
    y = r ∨ (y ∈ m ∧ y.id ≠ r.id) := by
  induction m with
  | nil => left; simpa [records_insert] using h
  | cons x xs ih =>
    rw [List.pairwise_cons] at hm
    unfold records_insert at h
    split at h
    · rename_i hlt
      rcases List.mem_cons.mp h with h | h
      · exact Or.inl h
      · right
        refine ⟨h, ?_⟩
        rcases List.mem_cons.mp h with rfl | h
        · omega
        · have := hm.1 y h; omega
    · split at h
      · rename_i _ heq
        rcases List.mem_cons.mp h with h | h
        · exact Or.inl h
        · right
          refine ⟨List.mem_cons_of_mem _ h, ?_⟩
          have := hm.1 y h; omega
      · rename_i hnlt hne
        rcases List.mem_cons.mp h with h | h
        · right
          subst h
          exact ⟨List.mem_cons_self _ _, fun hc => hne hc.symm⟩
        · rcases ih hm.2 h with h | h
          · exact Or.inl h
          · exact Or.inr ⟨List.mem_cons_of_mem _ h.1, h.2⟩

/-- An entry of the latest-record map is a record of the log, and it is terminal
exactly when the latest record of its tid is. -/
theorem records_latest (log : List record) :
    ∀ e ∈ records log, e ∈ log ∧ latest_done e.id log = e.status.is_done := by
  induction log using List.reverseRecOn with
  | nil => simp [records]
  | append_singleton l r ih =>
    intro e he
    rw [records_append] at he
    rcases records_insert_mem_sorted r e _ (records_sorted l) he with rfl | ⟨hmem, hne⟩
    · exact ⟨by simp, by rw [latest_done_append]; simp⟩
    · refine ⟨List.mem_append_left _ (ih e hmem).1, ?_⟩
      rw [latest_done_append, if_neg (fun hc => hne hc.symm)]
      exact (ih e hmem).2

theorem tx_count_eq (log : List record) : tx_count log = (unresolved_tids log).length := by
  simp [tx_count, unresolved_tids, List.countP_eq_length_filter]

theorem tx_count_append (l1 l2 : List record) :
    tx_count (l1 ++ l2) = tx_count l1 + tx_count l2 := by
  simp [tx_count, List.countP_append]

theorem unresolved_tids_append (l1 l2 : List record) :
    unresolved_tids (l1 ++ l2) = unresolved_tids l1 ++ unresolved_tids l2 := by
  simp [unresolved_tids]

theorem unresolved_tids_of_none (ext : List record)
    (h : ∀ r ∈ ext, r.status ≠ RECORD_UNRESOLVED) : unresolved_tids ext = [] := by
  unfold unresolved_tids
  rw [List.filter_eq_nil_iff.mpr (by intro r hr; simpa using h r hr)]
  rfl

theorem tx_ext_abort (id n : Nat) (c : Prop) [Decidable c] :
    tx_ext id (⟨RECORD_ABORT, id, n⟩ :: (if c then [⟨RECORD_ABORT_DONE, id, n⟩] else [])) := by
  by_cases h : c <;> simp [tx_ext, h, List.dropLast, record_status.is_done]

theorem tx_ext_commit (id n : Nat) (c : Prop) [Decidable c] :
    tx_ext id (⟨RECORD_COMMIT, id, n⟩ :: (if c then [⟨RECORD_COMMIT_DONE, id, n⟩] else [])) := by
  by_cases h : c <;> simp [tx_ext, h, List.dropLast, record_status.is_done]

/-- The records of a write dispatch: none on an empty live set, else the
`UNRESOLVED` record of the tid followed by records of the same tid. -/
theorem write_records_shape (prep : participant_addr → Option Bool) (env : rpc_env)
    (s : coordinator) :
    (s.participants_ = [] ∧ write_records prep env s = []) ∨
    (s.participants_ ≠ [] ∧ ∃ tail,
      write_records prep env s =
        ⟨RECORD_UNRESOLVED, s.next_id_, (s.next_id_ + 1) % 2 ^ 32⟩ :: tail ∧
      tx_ext s.next_id_ tail) := by
  unfold write_records
  by_cases h1 : s.participants_ = []
  · left; simp [h1]
  · right
    refine ⟨h1, ?_⟩
    simp only [h1, if_false]
    split
    · exact ⟨[], rfl, by simp [tx_ext]⟩
    · split
      · exact ⟨_, rfl, tx_ext_commit _ _ _⟩
      · exact ⟨_, rfl, tx_ext_abort _ _ _⟩

/-- Summary of a run of the loop of `handle_unfinished_records` over entries in
ascending tid order: the log invariant is kept, the counter is not touched, and
the records appended are not `UNRESOLVED` and carry tids of the entries. -/
theorem handle_unfinished_loop_inv (ndebug : Bool) (env : rpc_env) (es : List record)
    (d : Bool) (s : coordinator)
    (hsorted : es.Pairwise (fun a b => a.id < b.id))
    (hinv : done_inv s.log)
    (hopen : ∀ e ∈ es, e.status.is_done = false → latest_done e.id s.log = false) :
    done_inv (handle_unfinished_loop ndebug env es d s).1.log ∧
    (handle_unfinished_loop ndebug env es d s).1.next_id_ = s.next_id_ ∧
    ∃ ext, (handle_unfinished_loop ndebug env es d s).1.log = s.log ++ ext ∧
      ∀ r ∈ ext, r.status ≠ RECORD_UNRESOLVED ∧ ∃ e ∈ es, r.id = e.id := by
  induction es generalizing d s with
  | nil => exact ⟨hinv, rfl, [], by simp [handle_unfinished_loop], by simp⟩
  | cons e rest ih =>
    rw [List.pairwise_cons] at hsorted
    have skip : done_inv (handle_unfinished_loop ndebug env rest d s).1.log ∧
        (handle_unfinished_loop ndebug env rest d s).1.next_id_ = s.next_id_ ∧
        ∃ ext, (handle_unfinished_loop ndebug env rest d s).1.log = s.log ++ ext ∧
          ∀ r ∈ ext, r.status ≠ RECORD_UNRESOLVED ∧ ∃ x ∈ e :: rest, r.id = x.id := by
      obtain ⟨h1, h2, ext, h3, h4⟩ := ih d s hsorted.2 hinv
        (fun x hx => hopen x (List.mem_cons_of_mem _ hx))
      refine ⟨h1, h2, ext, h3, ?_⟩
      intro r hr
      obtain ⟨hu, x, hx, hid⟩ := h4 r hr
      exact ⟨hu, x, List.mem_cons_of_mem _ hx, hid⟩
    have step : ∀ out : coordinator × Bool, e.status.is_done = false →
        out.1.next_id_ = s.next_id_ →
        (∃ ext, out.1.log = s.log ++ ext ∧ tx_ext e.id ext) →
        done_inv (handle_unfinished_loop ndebug env rest out.2 out.1).1.log ∧
        (handle_unfinished_loop ndebug env rest out.2 out.1).1.next_id_ = s.next_id_ ∧
        ∃ ext, (handle_unfinished_loop ndebug env rest out.2 out.1).1.log = s.log ++ ext ∧
          ∀ r ∈ ext, r.status ≠ RECORD_UNRESOLVED ∧ ∃ x ∈ e :: rest, r.id = x.id := by
      intro out he hnext hext
      obtain ⟨ext1, hlog1, hids1, hopen1⟩ := hext
      have hl := hopen e (List.mem_cons_self _ _) he
      have hinv1 : done_inv out.1.log := by
        rw [hlog1]
        exact done_inv_extend e.id ext1 s.log hinv hl (fun r hr => (hids1 r hr).1) hopen1
      have hopen' : ∀ x ∈ rest, x.status.is_done = false → latest_done x.id out.1.log = false := by
        intro x hx hxo
        rw [hlog1, latest_done_append_other]
        · exact hopen x (List.mem_cons_of_mem _ hx) hxo
        · intro r hr
          rw [(hids1 r hr).1]
          have := hsorted.1 x hx
          omega
      obtain ⟨h1, h2, ext2, h3, h4⟩ := ih out.2 out.1 hsorted.2 hinv1 hopen'
      refine ⟨h1, by rw [h2, hnext], ext1 ++ ext2, by rw [h3, hlog1, List.append_assoc], ?_⟩
      intro r hr
      rcases List.mem_append.mp hr with hr | hr
      · exact ⟨(hids1 r hr).2, e, List.mem_cons_self _ _, (hids1 r hr).1⟩
      · obtain ⟨hu, x, hx, hid⟩ := h4 r hr
        exact ⟨hu, x, List.mem_cons_of_mem _ hx, hid⟩
    unfold handle_unfinished_loop
    cases hst : e.status
    · exact step (abort_db_request env none e.id d s) (by rw [hst]; rfl)
        (abort_db_request_frame _ _ _ _ _).1
        ⟨_, abort_db_request_log _ _ _ _ _, tx_ext_abort _ _ _⟩
    · exact step (commit_db_request env none e.id d s) (by rw [hst]; rfl)
        (commit_db_request_frame _ _ _ _ _).1
        ⟨_, commit_db_request_log _ _ _ _ _, tx_ext_commit _ _ _⟩
    · cases ndebug
      · exact ⟨hinv, rfl, [], by simp, by simp⟩
      · exact skip
    · exact step (abort_db_request env none e.id d s) (by rw [hst]; rfl)
        (abort_db_request_frame _ _ _ _ _).1
        ⟨_, abort_db_request_log _ _ _ _ _, tx_ext_abort _ _ _⟩
    · cases ndebug
      · exact ⟨hinv, rfl, [], by simp, by simp⟩
      · exact skip

theorem handle_unfinished_loop_frame (ndebug : Bool) (env : rpc_env) (es : List record)
    (d : Bool) (s : coordinator) :
    (handle_unfinished_loop ndebug env es d s).1.next_id_ = s.next_id_ ∧
    ∃ ext, (handle_unfinished_loop ndebug env es d s).1.log = s.log ++ ext ∧
      ∀ r ∈ ext, r.status ≠ RECORD_UNRESOLVED := by
  induction es generalizing d s with
  | nil => exact ⟨rfl, [], by simp [handle_unfinished_loop], by simp⟩
  | cons e rest ih =>
    have step : ∀ out : coordinator × Bool, out.1.next_id_ = s.next_id_ →
        (∃ ext, out.1.log = s.log ++ ext ∧ tx_ext e.id ext) →
        (handle_unfinished_loop ndebug env rest out.2 out.1).1.next_id_ = s.next_id_ ∧
        ∃ ext, (handle_unfinished_loop ndebug env rest out.2 out.1).1.log = s.log ++ ext ∧
          ∀ r ∈ ext, r.status ≠ RECORD_UNRESOLVED := by
      intro out hnext hext
      obtain ⟨ext1, hlog1, hids1, _⟩ := hext
      obtain ⟨h2, ext2, h3, h4⟩ := ih out.2 out.1
      refine ⟨by rw [h2, hnext], ext1 ++ ext2, by rw [h3, hlog1, List.append_assoc], ?_⟩
      intro r hr
      rcases List.mem_append.mp hr with hr | hr
      · exact (hids1 r hr).2
      · exact h4 r hr
    unfold handle_unfinished_loop
    cases hst : e.status
    · exact step (abort_db_request env none e.id d s) (abort_db_request_frame _ _ _ _ _).1
        ⟨_, abort_db_request_log _ _ _ _ _, tx_ext_abort _ _ _⟩
    · exact step (commit_db_request env none e.id d s) (commit_db_request_frame _ _ _ _ _).1
        ⟨_, commit_db_request_log _ _ _ _ _, tx_ext_commit _ _ _⟩
    · cases ndebug
      · exact ⟨rfl, [], by simp, by simp⟩
      · exact ih d s
    · exact step (abort_db_request env none e.id d s) (abort_db_request_frame _ _ _ _ _).1
        ⟨_, abort_db_request_log _ _ _ _ _, tx_ext_abort _ _ _⟩
    · cases ndebug
      · exact ⟨rfl, [], by simp, by simp⟩
      · exact ih d s

/-- Log and counter after a write dispatch on the live set `live`. -/
theorem write_step (ndebug : Bool) (o : op) (s : coordinator) :
    (∃ env live, o = op.unfinished env live) ∨
    ∃ (prep : participant_addr → Option Bool) (env : rpc_env) (live : List participant_addr),
      (o.step ndebug s).log =
        s.log ++ write_records prep env { s with participants_ := live } ∧
      (o.step ndebug s).next_id_ =
        if live = [] then s.next_id_ else (s.next_id_ + 1) % 2 ^ 32 := by
  cases o with
  | set env live client cmd =>
    right
    refine ⟨fun p => env.prepare_set p { cmd with id := s.next_id_ }, env, live, ?_, ?_⟩
    · simp only [op.step]
      rw [handle_db_set_request_eq, write_dispatch_log]
    · simp only [op.step]
      rw [handle_db_set_request_eq, write_dispatch_next_id]
  | del env live client cmd =>
    right
    refine ⟨fun p => env.prepare_del p { cmd with id := s.next_id_ }, env, live, ?_, ?_⟩
    · simp only [op.step]
      rw [handle_db_del_request_log]
    · simp only [op.step]
      rw [handle_db_del_request_next_id]
  | unfinished env live => exact Or.inl ⟨env, live, rfl⟩

/-- What one operation does to the log and the counter: it appends records, and
either none of them is `UNRESOLVED` and the counter stays, or exactly the first
is, with the tid taken from the counter, and the counter advances. -/
theorem step_frame (ndebug : Bool) (o : op) (s : coordinator) :
    ∃ ext, (o.step ndebug s).log = s.log ++ ext ∧
      ((unresolved_tids ext = [] ∧ (o.step ndebug s).next_id_ = s.next_id_) ∨
       (unresolved_tids ext = [s.next_id_] ∧
        (o.step ndebug s).next_id_ = (s.next_id_ + 1) % 2 ^ 32)) := by
  rcases write_step ndebug o s with ⟨env, live, rfl⟩ | ⟨prep, env, live, hlog, hnext⟩
  · obtain ⟨h1, ext, h2, h3⟩ := handle_unfinished_loop_frame ndebug env
      (records s.log) false { s with participants_ := live }
    exact ⟨ext, h2, Or.inl ⟨unresolved_tids_of_none ext h3, h1⟩⟩
  · refine ⟨_, hlog, ?_⟩
    rcases write_records_shape prep env { s with participants_ := live } with
      ⟨he, hrec⟩ | ⟨hne, tail, hrec, htail⟩
    · left
      simp only at he
      rw [hrec, hnext]
      simp [he, unresolved_tids]
    · right
      simp only at hne
      rw [hrec, hnext]
      have := unresolved_tids_of_none tail (fun r hr => (htail.1 r hr).2)
      have happ := unresolved_tids_append
        [⟨RECORD_UNRESOLVED, s.next_id_, (s.next_id_ + 1) % 2 ^ 32⟩] tail
      simp only [List.singleton_append] at happ
      rw [happ, this]
      simp [hne, unresolved_tids]

theorem run_append (ndebug : Bool) (ops : List op) (o : op) (s : coordinator) :
    run ndebug (ops ++ [o]) s = o.step ndebug (run ndebug ops s) := by
  simp [run, List.foldl_append]

/-- Along a history that does not wrap the counter, the tids of the `UNRESOLVED`
records appended are the consecutive values starting at the initial counter. -/
theorem run_tids (ndebug : Bool) (ops : List op) (s : coordinator) :
    ∃ ext, (run ndebug ops s).log = s.log ++ ext ∧
      (s.next_id_ + tx_count ext < 2 ^ 32 →
        unresolved_tids ext = List.range' s.next_id_ (tx_count ext) ∧
        (run ndebug ops s).next_id_ = s.next_id_ + tx_count ext) := by
  induction ops using List.reverseRecOn with
  | nil => exact ⟨[], by simp [run], by intro _; simp [tx_count, unresolved_tids, run]⟩
  | append_singleton ops o ih =>
    obtain ⟨ext, hlog, hind⟩ := ih
    obtain ⟨e2, hlog2, hcase⟩ := step_frame ndebug o (run ndebug ops s)
    rw [run_append]
    refine ⟨ext ++ e2, by rw [hlog2, hlog, List.append_assoc], ?_⟩
    intro hbound
    rw [tx_count_append] at hbound
    obtain ⟨htids, hnext⟩ := hind (by omega)
    rw [unresolved_tids_append, tx_count_append]
    rcases hcase with ⟨hu, hn⟩ | ⟨hu, hn⟩
    · have h0 : tx_count e2 = 0 := by rw [tx_count_eq, hu]; rfl
      rw [hu, h0, hn]
      exact ⟨by simpa using htids, by simpa using hnext⟩
    · have h1 : tx_count e2 = 1 := by rw [tx_count_eq, hu]; rfl
      rw [h1] at hbound
      rw [hu, h1, hn, hnext, htids]
      refine ⟨by rw [List.range'_concat]; simp, ?_⟩
      rw [Nat.mod_eq_of_lt (by omega)]
      omega

theorem write_rpcs_tid (prep : participant_addr → Option Bool) (call : rpc_call)
    (s : coordinator) (h : call.tid = some s.next_id_) :
    ∀ c ∈ write_rpcs prep call s, c.2.tid = some s.next_id_ := by
  intro c hc
  unfold write_rpcs at hc
  simp only at hc
  rcases List.mem_append.mp hc with hc | hc
  · obtain ⟨p, _, rfl⟩ := List.mem_map.mp hc
    exact h
  · split at hc
    · simp at hc
    · split at hc
      · obtain ⟨p, _, rfl⟩ := List.mem_map.mp hc
        rfl
      · obtain ⟨p, _, rfl⟩ := List.mem_map.mp hc
        rfl

theorem write_fresh_tid (prep : participant_addr → Option Bool) (call : rpc_call)
    (env : rpc_env) (s s' : coordinator) (hne : s.participants_ ≠ [])
    (hcall : call.tid = some s.next_id_)
    (hlog : s'.log = s.log ++ write_records prep env s)
    (hnext : s'.next_id_ = if s.participants_ = [] then s.next_id_ else (s.next_id_ + 1) % 2 ^ 32)
    (hrpcs : s'.rpcs = s.rpcs ++ write_rpcs prep call s) :
    fresh_tid_outcome s s' := by
  rcases write_records_shape prep env s with ⟨he, _⟩ | ⟨_, tail, hrec, htail⟩
  · exact absurd he hne
  · refine ⟨by rw [hnext]; simp [hne], ?_, ?_, ?_⟩
    · rw [hlog, List.drop_left, hrec]; rfl
    · rw [hlog, List.drop_left, hrec]
      intro r hr
      rcases List.mem_cons.mp hr with rfl | hr
      · rfl
      · exact (htail.1 r hr).1
    · rw [hrpcs, List.drop_left]
      exact write_rpcs_tid prep call s hcall

theorem tx_count_step (ndebug : Bool) (o : op) (s : coordinator) :
    tx_count s.log ≤ tx_count (o.step ndebug s).log := by
  obtain ⟨ext, hlog, _⟩ := step_frame ndebug o s
  rw [hlog, tx_count_append]
  omega

theorem tx_count_of_none (ext : List record)
    (h : ∀ r ∈ ext, r.status ≠ RECORD_UNRESOLVED) : tx_count ext = 0 := by
  rw [tx_count_eq, unresolved_tids_of_none ext h]
  rfl

/-- One operation keeps the history invariant as long as fewer than `2 ^ 32`
transactions have been started. -/
theorem step_hist_inv (ndebug : Bool) (o : op) (s : coordinator) (start : Nat)
    (h : hist_inv start s.next_id_ s.log)
    (hb : tx_count (o.step ndebug s).log < 2 ^ 32) :
    hist_inv start (o.step ndebug s).next_id_ (o.step ndebug s).log := by
  obtain ⟨hnext, hids, hinv⟩ := h
  have e32 : (2 : Nat) ^ 32 = 4294967296 := by norm_num
  rcases write_step ndebug o s with ⟨env, live, rfl⟩ | ⟨prep, env, live, hlog, hnext'⟩
  · have hrec := records_latest s.log
    obtain ⟨h1, h2, ext, h3, h4⟩ := handle_unfinished_loop_inv ndebug env (records s.log) false
      { s with participants_ := live } (records_sorted s.log) hinv
      (fun e he ho => by rw [← ho]; exact (hrec e he).2)
    have h0 : tx_count ext = 0 := tx_count_of_none ext (fun r hr => (h4 r hr).1)
    have hlog : (op.step ndebug (op.unfinished env live) s).log = s.log ++ ext := h3
    have hn : (op.step ndebug (op.unfinished env live) s).next_id_ = s.next_id_ := h2
    refine ⟨?_, ?_, h1⟩
    · rw [hn, hlog, tx_count_append, h0, hnext]; rfl
    · rw [hlog, tx_count_append, h0]
      intro r hr
      rcases List.mem_append.mp hr with hr | hr
      · exact hids r hr
      · obtain ⟨_, e, he, hid⟩ := h4 r hr
        rw [hid]
        exact hids e (hrec e he).1
  · rw [hlog] at hb ⊢
    rw [hnext']
    rcases write_records_shape prep env { s with participants_ := live } with
      ⟨he, hrec⟩ | ⟨hne, tail, hrec, htail⟩
    · simp only at he
      rw [hrec]
      simp only [List.append_nil, he, if_true]
      exact ⟨hnext, hids, hinv⟩
    · simp only at hne
      have ht0 : tx_count tail = 0 := tx_count_of_none tail (fun r hr => (htail.1 r hr).2)
      have hcount : tx_count (s.log ++ write_records prep env { s with participants_ := live })
          = tx_count s.log + 1 := by
        rw [hrec, tx_count_append]
        have : tx_count (⟨RECORD_UNRESOLVED, s.next_id_, (s.next_id_ + 1) % 2 ^ 32⟩ :: tail)
            = 1 + tx_count tail := by
          simp [tx_count, List.countP_cons, Nat.add_comm]
        rw [this, ht0]
      have hrec' : write_records prep env { s with participants_ := live } =
          ⟨RECORD_UNRESOLVED, s.next_id_, (s.next_id_ + 1) % 2 ^ 32⟩ :: tail := hrec
      have htail' : tx_ext s.next_id_ tail := htail
      clear hrec htail
      rename' hrec' => hrec, htail' => htail
      rw [hcount] at hb
      unfold hist_inv
      rw [hcount]
      rw [e32] at hb hnext hids ⊢
      refine ⟨by simp only [hne, if_false]; rw [hnext]; omega, ?_, ?_⟩
      · intro r hr
        rcases List.mem_append.mp hr with hr | hr
        · obtain ⟨j, hj, hid⟩ := hids r hr
          exact ⟨j, by omega, hid⟩
        · refine ⟨tx_count s.log, by omega, ?_⟩
          rw [hrec] at hr
          rcases List.mem_cons.mp hr with rfl | hr
          · exact hnext
          · rw [(htail.1 r hr).1]; exact hnext
      · rw [hrec]
        apply done_inv_extend s.next_id_ _ _ hinv
        · apply latest_done_fresh
          intro r hr
          obtain ⟨j, hj, hid⟩ := hids r hr
          rw [hid, hnext]
          omega
        · intro r hr
          rcases List.mem_cons.mp hr with rfl | hr
          · rfl
          · exact (htail.1 r hr).1
        · intro r hr
          cases tail with
          | nil => simp [List.dropLast] at hr
          | cons x xs =>
            rw [List.dropLast_cons_of_ne_nil (by simp)] at hr
            rcases List.mem_cons.mp hr with rfl | hr
            · rfl
            · exact htail.2 r hr

/-- A history from an empty log with fewer than `2 ^ 32` transactions keeps the
history invariant. -/
theorem run_hist_inv (ndebug : Bool) (ops : List op) (s0 : coordinator)
    (hlog : s0.log = []) (hid : s0.next_id_ < 2 ^ 32)
    (hn : tx_count (run ndebug ops s0).log < 2 ^ 32) :
    hist_inv s0.next_id_ (run ndebug ops s0).next_id_ (run ndebug ops s0).log := by
  induction ops using List.reverseRecOn with
  | nil =>
    simp only [run, List.foldl_nil, hlog]
    have e32 : (2 : Nat) ^ 32 = 4294967296 := by norm_num
    rw [e32] at hid
    refine ⟨by simp [tx_count]; omega, by simp, ?_⟩
    intro tid
    simp [done_total, latest_done]
  | append_singleton ops o ih =>
    rw [run_append] at hn ⊢
    have hmono := tx_count_step ndebug o (run ndebug ops s0)
    exact step_hist_inv ndebug o _ _ (ih (by omega)) hn

theorem done_total_split (tid : Nat) (log : List record) :
    done_total tid log =
      status_count RECORD_COMMIT_DONE tid log + status_count RECORD_ABORT_DONE tid log := by
  induction log with
  | nil => rfl
  | cons r rest ih =>
    simp only [done_total, status_count, List.countP_cons] at ih ⊢
    rw [ih]
    by_cases hid : r.id = tid <;> cases hst : r.status <;>
      simp [hid, record_status.is_done] <;> omega

/-! ## Tids and terminal records along a history -/

/-- C5: a SET or DEL dispatched on a non-empty live set with counter value `n`
uses `n` as the tid (every record appended and every RPC issued carries it),
sets the counter to `n + 1` modulo `2 ^ 32` and appends `{UNRESOLVED, n, n + 1}`
first; and along any history that does not wrap the counter the tids of the
`UNRESOLVED` records appended are `n, n + 1, ...` in log order, hence strictly
increasing and without repetition. -/
theorem tid_assignment (s : coordinator) :
    (∀ (env : rpc_env) (client : tcp_client) (cmd : set_command), s.participants_ ≠ [] →
      fresh_tid_outcome s (handle_db_set_request env client cmd s)) ∧
    (∀ (env : rpc_env) (client : tcp_client) (cmd : del_command), s.participants_ ≠ [] →
      fresh_tid_outcome s (handle_db_del_request env client cmd s)) ∧
    (∀ (ndebug : Bool) (ops : List op),
      s.next_id_ + tx_count ((run ndebug ops s).log.drop s.log.length) < 2 ^ 32 →
      unresolved_tids ((run ndebug ops s).log.drop s.log.length) =
        List.range' s.next_id_ (tx_count ((run ndebug ops s).log.drop s.log.length)) ∧
      (unresolved_tids ((run ndebug ops s).log.drop s.log.length)).Pairwise (fun a b => a < b) ∧
      (unresolved_tids ((run ndebug ops s).log.drop s.log.length)).Nodup) := by
  refine ⟨?_, ?_, ?_⟩
  · intro env client cmd hne
    refine write_fresh_tid (fun p => env.prepare_set p { cmd with id := s.next_id_ })
      (rpc_call.PREPARE_SET { cmd with id := s.next_id_ }) env s _ hne rfl ?_ ?_ ?_
    · rw [handle_db_set_request_eq]; exact write_dispatch_log _ _ _ _ _
    · rw [handle_db_set_request_eq]; exact write_dispatch_next_id _ _ _ _ _
    · rw [handle_db_set_request_eq]; exact write_dispatch_rpcs _ _ _ _ _
  · intro env client cmd hne
    exact write_fresh_tid (fun p => env.prepare_del p { cmd with id := s.next_id_ })
      (rpc_call.PREPARE_DEL { cmd with id := s.next_id_ }) env s _ hne rfl
      (handle_db_del_request_log _ _ _ _) (handle_db_del_request_next_id _ _ _ _)
      (handle_db_del_request_rpcs _ _ _ _)
  · intro ndebug ops hb
    obtain ⟨ext, hlog, hind⟩ := run_tids ndebug ops s
    rw [hlog, List.drop_left] at hb ⊢
    obtain ⟨htids, _⟩ := hind hb
    rw [htids]
    exact ⟨rfl, List.pairwise_lt_range' _ _, List.nodup_range' _ _⟩

/-- Witness of C5: a SET at counter 7, and the tids 7 and 8 of `history_example`. -/
theorem tid_assignment_witness :
    fresh_tid_outcome (mk_state [1] [1] 7)
      (handle_db_set_request env_ok 0 ⟨0, "k", "v"⟩ (mk_state [1] [1] 7)) ∧
    unresolved_tids ((run false history_example (mk_state [1] [1] 7)).log.drop 0)
      = List.range' 7 2 :=
  ⟨(tid_assignment (mk_state [1] [1] 7)).1 env_ok 0 ⟨0, "k", "v"⟩ (by decide),
   ((tid_assignment (mk_state [1] [1] 7)).2.2 false history_example (by decide)).1⟩

/-- C6: in the log of any history of SET dispatches, DEL dispatches and runs of
`handle_unfinished_records` that starts from the empty log and has fewer than
`2 ^ 32` transactions, every tid has at most one `COMMIT_DONE` record, at most
one `ABORT_DONE` record, and not both. -/
theorem done_records_unique (ndebug : Bool) (ops : List op) (s0 : coordinator)
    (hlog : s0.log = []) (hid : s0.next_id_ < 2 ^ 32)
    (hn : tx_count (run ndebug ops s0).log < 2 ^ 32) (tid : Nat) :
    status_count RECORD_COMMIT_DONE tid (run ndebug ops s0).log ≤ 1 ∧
    status_count RECORD_ABORT_DONE tid (run ndebug ops s0).log ≤ 1 ∧
    ¬ (0 < status_count RECORD_COMMIT_DONE tid (run ndebug ops s0).log ∧
       0 < status_count RECORD_ABORT_DONE tid (run ndebug ops s0).log) := by
  have h := (run_hist_inv ndebug ops s0 hlog hid hn).2.2 tid
  rw [done_total_split] at h
  have hle : status_count RECORD_COMMIT_DONE tid (run ndebug ops s0).log +
      status_count RECORD_ABORT_DONE tid (run ndebug ops s0).log ≤ 1 := by
    rw [h]; split <;> omega
  omega

/-- Witness of C6: `history_example` from an empty log; tid 7 ends with one
`COMMIT_DONE` and no `ABORT_DONE`. -/
theorem done_records_unique_witness :
    status_count RECORD_COMMIT_DONE 7 (run false history_example (mk_state [1] [1] 7)).log ≤ 1 ∧
    status_count RECORD_ABORT_DONE 7 (run false history_example (mk_state [1] [1] 7)).log ≤ 1 ∧
    ¬ (0 < status_count RECORD_COMMIT_DONE 7 (run false history_example (mk_state [1] [1] 7)).log ∧
       0 < status_count RECORD_ABORT_DONE 7 (run false history_example (mk_state [1] [1] 7)).log) :=
  done_records_unique false history_example (mk_state [1] [1] 7) rfl (by decide) (by decide) 7

/-! ## `del_keys_`, notification and the read path -/

theorem del_keys_insert_mem (keys dk : List String) (k : String) :
    k ∈ del_keys_insert keys dk ↔ k ∈ dk ∨ k ∈ keys := by
  unfold del_keys_insert
  induction keys generalizing dk with
  | nil => simp
  | cons x xs ih =>
    simp only [List.foldl_cons]
    rw [ih]
    by_cases hx : x ∈ dk
    · simp only [hx, if_true, List.mem_cons]
      constructor
      · rintro (h | h)
        · exact Or.inl h
        · exact Or.inr (Or.inr h)
      · rintro (h | h | h)
        · exact Or.inl h
        · exact Or.inl (h ▸ hx)
        · exact Or.inr h
    · simp only [hx, if_false, List.mem_append, List.mem_singleton, List.mem_cons]
      tauto

theorem del_keys_insert_nodup (keys dk : List String) (h : dk.Nodup) :
    (del_keys_insert keys dk).Nodup := by
  unfold del_keys_insert
  induction keys generalizing dk with
  | nil => simpa using h
  | cons x xs ih =>
    simp only [List.foldl_cons]
    apply ih
    by_cases hx : x ∈ dk
    · simpa [hx] using h
    · simp only [hx, if_false]
      rw [List.nodup_append]
      refine ⟨h, by simp, ?_⟩
      intro a ha hb
      simp at hb
      subst hb
      exact hx ha

theorem write_records_commit_iff (prep : participant_addr → Option Bool) (env : rpc_env)
    (s : coordinator) :
    (∃ r ∈ write_records prep env s, r.status = RECORD_COMMIT) ↔
      (s.participants_ ≠ [] ∧ (prepare_loop prep s.participants_).participants ≠ [] ∧
        (prepare_loop prep s.participants_).prepare_ok = true) := by
  unfold write_records
  by_cases h1 : s.participants_ = []
  · simp [h1]
  · by_cases h2 : (prepare_loop prep s.participants_).participants = []
    · simp [h1, h2]
    · cases hok : (prepare_loop prep s.participants_).prepare_ok
      · simp only [h1, h2, hok, if_false, Bool.false_eq_true, ne_eq, not_false_eq_true,
          and_false, iff_false, not_exists, not_and]
        intro r hr
        split at hr
        · simp at hr
          rcases hr with rfl | rfl | rfl <;> simp
        · simp at hr
          rcases hr with rfl | rfl <;> simp
      · simp only [h1, h2, hok, if_false, if_true, ne_eq, not_false_eq_true, and_self, iff_true]
        exact ⟨⟨RECORD_COMMIT, s.next_id_, (s.next_id_ + 1) % 2 ^ 32⟩, by simp, rfl⟩

theorem handle_db_del_request_del_keys (env : rpc_env) (client : tcp_client)
    (cmd : del_command) (s : coordinator) :
    (handle_db_del_request env client cmd s).del_keys_ =
      if s.participants_ ≠ [] ∧
          (prepare_loop (fun p => env.prepare_del p { cmd with id := s.next_id_ })
            s.participants_).participants ≠ [] ∧
          (prepare_loop (fun p => env.prepare_del p { cmd with id := s.next_id_ })
            s.participants_).prepare_ok = true ∧
          (write_live (fun p => env.prepare_del p { cmd with id := s.next_id_ }) env s).length
            < s.conf_participants.length
      then del_keys_insert cmd.args s.del_keys_ else s.del_keys_ := by
  unfold handle_db_del_request write_live
  by_cases h1 : s.participants_ = []
  · simp [h1, send_error, send_result]
  · simp only [h1, if_false, ne_eq, not_false_eq_true, true_and]
    by_cases h2 : (prepare_loop (fun p => env.prepare_del p { cmd with id := s.next_id_ })
        s.participants_).participants = []
    · simp [r_log, h2, send_error, send_result]
    · simp only [r_log, h2, if_false, not_false_eq_true, true_and]
      cases hok : (prepare_loop (fun p => env.prepare_del p { cmd with id := s.next_id_ })
          s.participants_).prepare_ok
      · simp only [notify_if, Bool.false_eq_true, if_false, false_and]
        split <;> simp [(abort_db_request_frame _ _ _ _ _).2.1]
      · simp only [notify_if, if_true, true_and]
        split <;> split <;>
          simp_all [(commit_db_request_frame _ _ _ _ _).2.1,
            (commit_db_request_frame _ _ _ _ _).2.2.1,
            (commit_db_request_frame _ _ _ _ _).2.2.2.2.1] <;>
          rw [if_neg (by omega)]

/-- C13: a DEL dispatch with keys `K` that takes the commit path and leaves fewer
live participants than are configured unites `K` with `del_keys_`; a DEL that
commits with no fewer live participants than configured, or that does not commit,
leaves `del_keys_` unchanged; SET and GET dispatches never change `del_keys_`. -/
theorem del_keys_frame (env : rpc_env) (client : tcp_client) (s : coordinator) :
    (∀ cmd : del_command,
      del_keys_outcome cmd.args s (handle_db_del_request env client cmd s)) ∧
    (∀ cmd : set_command, (handle_db_set_request env client cmd s).del_keys_ = s.del_keys_) ∧
    (∀ cmd : get_command, (handle_db_get_request env client cmd s).del_keys_ = s.del_keys_) := by
  refine ⟨?_, ?_, ?_⟩
  · intro cmd
    have hdk := handle_db_del_request_del_keys env client cmd s
    have hlive := handle_db_del_request_participants env client cmd s
    have hcp : commit_path s (handle_db_del_request env client cmd s) ↔
        (s.participants_ ≠ [] ∧
          (prepare_loop (fun p => env.prepare_del p { cmd with id := s.next_id_ })
            s.participants_).participants ≠ [] ∧
          (prepare_loop (fun p => env.prepare_del p { cmd with id := s.next_id_ })
            s.participants_).prepare_ok = true) := by
      unfold commit_path
      rw [handle_db_del_request_log, List.drop_left]
      exact write_records_commit_iff _ env s
    refine ⟨?_, ?_, ?_⟩
    · intro hc hlt
      rw [hlive] at hlt
      rw [hdk, if_pos ⟨(hcp.mp hc).1, (hcp.mp hc).2.1, (hcp.mp hc).2.2, hlt⟩]
      exact ⟨fun k => del_keys_insert_mem _ _ k, del_keys_insert_nodup _ _⟩
    · intro _ hge
      rw [hlive] at hge
      rw [hdk, if_neg (fun h => hge h.2.2.2)]
    · intro hnc
      rw [hdk, if_neg (fun h => hnc (hcp.mpr ⟨h.1, h.2.1, h.2.2.1⟩))]
  · intro cmd
    unfold handle_db_set_request
    by_cases h1 : s.participants_ = []
    · simp [h1, send_error, send_result]
    · simp only [h1, if_false]
      split
      · simp [r_log, send_error, send_result]
      · simp only [notify_if]
        split <;> split <;>
          simp [(commit_db_request_frame _ _ _ _ _).2.1, (abort_db_request_frame _ _ _ _ _).2.1,
            r_log]
  · intro cmd
    unfold handle_db_get_request
    by_cases h1 : s.participants_ = []
    · simp [h1, send_error, send_result]
    · simp only [h1, if_false, notify_if]
      split <;> split <;> simp [send_error, send_result]

/-- Witness of C13: only participant 1 of the configured 1 and 2 is live and
commits `DEL k`. -/
theorem del_keys_frame_witness :
    (handle_db_del_request env_ok 0 ⟨0, ["k"]⟩ (mk_state [1, 2] [1] 7)).del_keys_ = ["k"] ∧
    ∀ k, k ∈ (handle_db_del_request env_ok 0 ⟨0, ["k"]⟩ (mk_state [1, 2] [1] 7)).del_keys_ ↔
      k ∈ (mk_state [1, 2] [1] 7).del_keys_ ∨ k ∈ ["k"] :=
  ⟨by decide,
   (((del_keys_frame env_ok 0 (mk_state [1, 2] [1] 7)).1 ⟨0, ["k"]⟩).1
    ⟨⟨RECORD_COMMIT, 7, 8⟩, by decide, rfl⟩ (by decide)).1⟩

/-- C14 (the code at the failing input): the sole live participant does not answer
`PREPARE_SET`; it is erased, the dispatch returns with `-ERROR` after the PREPARE
loop, and `participants_cond_` has not been notified.  The read path notifies in
the same situation. -/
theorem prepare_all_dead_not_notified :
    (handle_db_set_request env_prepare_dead 0 ⟨0, "k", "v"⟩ (mk_state [1] [1] 7)).participants_
      = [] ∧
    (handle_db_set_request env_prepare_dead 0 ⟨0, "k", "v"⟩ (mk_state [1] [1] 7)).notified = 0 ∧
    (handle_db_del_request env_prepare_dead 0 ⟨0, ["k"]⟩ (mk_state [1] [1] 7)).notified = 0 ∧
    (handle_db_get_request env_get_dead 0 ⟨"k"⟩ (mk_state [1] [1] 7)).notified = 1 := by
  decide

theorem get_loop_found (call : participant_addr → Option String)
    (pre post : List participant_addr) (p : participant_addr) (v : String)
    (hpre : ∀ q ∈ pre, call q = none) (hp : call p = some v) :
    (get_loop call (pre ++ p :: post)).participants = p :: post ∧
    (get_loop call (pre ++ p :: post)).value = some v := by
  induction pre with
  | nil => simp [get_loop, hp]
  | cons q rest ih =>
    have hq : call q = none := hpre q (List.mem_cons_self _ _)
    have := ih (fun x hx => hpre x (List.mem_cons_of_mem _ hx))
    simp only [List.cons_append, get_loop, hq]
    exact this

theorem get_loop_none (call : participant_addr → Option String)
    (l : List participant_addr) (h : ∀ q ∈ l, call q = none) :
    (get_loop call l).participants = [] ∧ (get_loop call l).value = none := by
  induction l with
  | nil => simp [get_loop]
  | cons q rest ih =>
    have hq : call q = none := h q (List.mem_cons_self _ _)
    have := ih (fun x hx => h x (List.mem_cons_of_mem _ hx))
    simp only [get_loop, hq]
    exact this

/-- C15: a GET dispatch leaves the log and the tid counter unchanged; the client
is sent the value of the first live participant, in iteration order, whose `GET`
call succeeds, and exactly the participants before it are erased; when the live
set is empty or every call fails, the client is sent `-ERROR` and the live set
ends empty. -/
theorem get_dispatch (env : rpc_env) (client : tcp_client) (cmd : get_command)
    (s : coordinator) :
    get_outcome env client cmd s (handle_db_get_request env client cmd s) := by
  unfold get_outcome
  refine ⟨?_, ?_, ?_, ?_⟩
  · unfold handle_db_get_request
    by_cases h1 : s.participants_ = []
    · simp [h1, send_error, send_result]
    · simp only [h1, if_false, notify_if]
      split <;> split <;> simp [send_error, send_result]
  · unfold handle_db_get_request
    by_cases h1 : s.participants_ = []
    · simp [h1, send_error, send_result]
    · simp only [h1, if_false, notify_if]
      split <;> split <;> simp [send_error, send_result]
  · intro pre p post v hl hpre hp
    obtain ⟨hpart, hval⟩ := get_loop_found (fun q => env.get q cmd) pre post p v hpre hp
    have h1 : s.participants_ ≠ [] := by rw [hl]; simp
    unfold handle_db_get_request
    simp only [h1, if_false, notify_if]
    rw [hl, hval, hpart]
    split <;> simp [send_result]
  · intro hall
    by_cases h1 : s.participants_ = []
    · simp [handle_db_get_request, h1, send_error, send_result]
    · obtain ⟨hpart, hval⟩ := get_loop_none (fun q => env.get q cmd) s.participants_ hall
      unfold handle_db_get_request
      simp only [h1, if_false, notify_if]
      rw [hval, hpart]
      split <;> simp [send_error, send_result]

/-- Witness of C15: participant 1 does not answer `GET`, participant 2 replies
`foo`; the client gets `foo` and participant 1 is erased. -/
theorem get_dispatch_witness :
    (handle_db_get_request env_get_one_dead 0 ⟨"k"⟩ (mk_state [1, 2] [1, 2] 7)).sent
      = (mk_state [1, 2] [1, 2] 7).sent ++ [(0, "foo")] ∧
    (handle_db_get_request env_get_one_dead 0 ⟨"k"⟩ (mk_state [1, 2] [1, 2] 7)).participants_
      = [2] :=
  (get_dispatch env_get_one_dead 0 ⟨"k"⟩ (mk_state [1, 2] [1, 2] 7)).2.2.1 [1] 2 [] "foo" rfl
    (by decide) rfl

/-! ## Heartbeat and participant recovery -/

/-- C11 as stated fails: transaction 7 is `UNRESOLVED`, the counter is 8 and the
target reports NEXT_ID 7; `recover_participant` returns true without any
`SET_NEXT_ID`, so the target's NEXT_ID stays 7. -/
theorem recover_participant_counterexample :
    (recover_participant env_behind 2 state_pending).2 = some true ∧
    (recover_participant env_behind 2 state_pending).1.next_id_ = 8 ∧
    next_id_after env_behind 2
      ((recover_participant env_behind 2 state_pending).1.rpcs.drop state_pending.rpcs.length)
      = some 7 := by
  decide

/-- C11 amended: when `recover_participant` returns true, the target's NEXT_ID
after the call equals the coordinator's `next_id_`, or it is the value `p` the
target reported with `p + 1 = next_id_` (in 32 bits) and the latest record of tid
`p` being `UNRESOLVED`. -/
theorem recover_participant_next_id (env : rpc_env) (target : participant_addr)
    (s s' : coordinator) (h : recover_participant env target s = (s', some true)) :
    s'.next_id_ = s.next_id_ ∧
    (next_id_after env target (s'.rpcs.drop s.rpcs.length) = some s'.next_id_ ∨
     ∃ p, env.next_id target = some p ∧ (p + 1) % 2 ^ 32 = s'.next_id_ ∧
       records_has (records s.log) p RECORD_UNRESOLVED = true ∧
       next_id_after env target (s'.rpcs.drop s.rpcs.length) = some p) := by
  unfold recover_participant at h
  by_cases hr : s.is_recovered = false
  · simp only [hr, if_true] at h
    cases hs : env.set_next_id target s.next_id_ with
    | none => simp [hs] at h
    | some u =>
      simp only [hs, Prod.mk.injEq, and_true] at h
      subst h
      exact ⟨rfl, Or.inl (by simp [next_id_after, trace_rpc, hs])⟩
  · rw [if_neg hr] at h
    cases hn : env.next_id target with
    | none => simp [hn] at h
    | some p =>
      simp only [hn] at h
      by_cases h1 : p = s.next_id_
      · simp only [h1, if_true, Prod.mk.injEq, and_true] at h
        subst h
        exact ⟨rfl, Or.inl (by simp [next_id_after, trace_rpc, hn, h1])⟩
      · simp only [h1, if_false] at h
        by_cases h2 : (p + 1) % 2 ^ 32 = s.next_id_ ∧
            records_has (records s.log) p RECORD_UNRESOLVED = true
        · simp only [h2, and_self, if_true, Prod.mk.injEq, and_true] at h
          subst h
          exact ⟨rfl, Or.inr ⟨p, rfl, h2.1, h2.2, by simp [next_id_after, trace_rpc, hn]⟩⟩
        · simp only [h2, if_false] at h
          cases hsnap : (snapshot_loop env.get_snapshot
              (trace_rpc target rpc_call.NEXT_ID s).participants_).snapshot with
          | none => simp [hsnap] at h
          | some snap =>
            simp only [hsnap] at h
            cases hrec : env.recover target snap
                (trace_rpc target rpc_call.NEXT_ID s).del_keys_ with
            | none =>
              have hrec' : env.recover target snap s.del_keys_ = none := hrec
              simp [trace_rpc, hrec'] at h
            | some u =>
              have hrec' : env.recover target snap s.del_keys_ = some u := hrec
              cases hs : env.set_next_id target s.next_id_ with
              | none => simp [trace_rpc, hrec', hs] at h
              | some u2 =>
                simp only [trace_rpc, hrec', hs, Prod.mk.injEq, and_true] at h
                subst h
                refine ⟨rfl, Or.inl ?_⟩
                simp [next_id_after, List.foldl_append, hs]

/-- Witness of C11 amended: the target reports the coordinator's counter. -/
theorem recover_participant_next_id_witness :
    next_id_after env_up_to_date 2
      ((recover_participant env_up_to_date 2 state_degraded).1.rpcs.drop
        state_degraded.rpcs.length) = some 8 := by
  have h := (recover_participant_next_id env_up_to_date 2 state_degraded
    (recover_participant env_up_to_date 2 state_degraded).1 (by decide)).2
  rcases h with h | ⟨p, hp, hmod, _, _⟩
  · exact h
  · exact absurd hmod (by
      have : p = 8 := by
        have h8 : env_up_to_date.next_id 2 = some 8 := rfl
        rw [h8] at hp
        exact (Option.some.inj hp).symm
      subst this
      decide)

theorem commit_loop_sublist (call : participant_addr → Option String) (ret : String)
    (l : List participant_addr) : (commit_loop call ret l).participants.Sublist l := by
  rw [commit_loop_participants]
  exact List.filter_sublist l

theorem abort_loop_sublist (call : participant_addr → Option Bool)
    (l : List participant_addr) : (abort_loop call l).1.Sublist l := by
  rw [abort_loop_participants]
  exact List.filter_sublist l

/-- What a run of the loop of `handle_unfinished_records` leaves alone: `del_keys_`
and the configured list; participants are only erased, RPCs only appended. -/
theorem handle_unfinished_loop_members (ndebug : Bool) (env : rpc_env) (es : List record)
    (d : Bool) (s : coordinator) :
    (handle_unfinished_loop ndebug env es d s).1.del_keys_ = s.del_keys_ ∧
    (handle_unfinished_loop ndebug env es d s).1.conf_participants = s.conf_participants ∧
    (handle_unfinished_loop ndebug env es d s).1.participants_.Sublist s.participants_ ∧
    ∃ ext, (handle_unfinished_loop ndebug env es d s).1.rpcs = s.rpcs ++ ext := by
  induction es generalizing d s with
  | nil => exact ⟨rfl, rfl, List.Sublist.refl _, [], by simp [handle_unfinished_loop]⟩
  | cons e rest ih =>
    have step : ∀ out : coordinator × Bool, out.1.del_keys_ = s.del_keys_ →
        out.1.conf_participants = s.conf_participants →
        out.1.participants_.Sublist s.participants_ →
        (∃ ext, out.1.rpcs = s.rpcs ++ ext) →
        (handle_unfinished_loop ndebug env rest out.2 out.1).1.del_keys_ = s.del_keys_ ∧
        (handle_unfinished_loop ndebug env rest out.2 out.1).1.conf_participants
          = s.conf_participants ∧
        (handle_unfinished_loop ndebug env rest out.2 out.1).1.participants_.Sublist
          s.participants_ ∧
        ∃ ext, (handle_unfinished_loop ndebug env rest out.2 out.1).1.rpcs = s.rpcs ++ ext := by
      intro out h1 h2 h3 h4
      obtain ⟨ext1, h4⟩ := h4
      obtain ⟨i1, i2, i3, ext2, i4⟩ := ih out.2 out.1
      exact ⟨by rw [i1, h1], by rw [i2, h2], i3.trans h3, ext1 ++ ext2,
        by rw [i4, h4, List.append_assoc]⟩
    have habort : ∀ dd, (handle_unfinished_loop ndebug env rest
          (abort_db_request env none e.id dd s).2 (abort_db_request env none e.id dd s).1).1.del_keys_
          = s.del_keys_ ∧
        (handle_unfinished_loop ndebug env rest
          (abort_db_request env none e.id dd s).2
          (abort_db_request env none e.id dd s).1).1.conf_participants = s.conf_participants ∧
        (handle_unfinished_loop ndebug env rest
          (abort_db_request env none e.id dd s).2
          (abort_db_request env none e.id dd s).1).1.participants_.Sublist s.participants_ ∧
        ∃ ext, (handle_unfinished_loop ndebug env rest
          (abort_db_request env none e.id dd s).2
          (abort_db_request env none e.id dd s).1).1.rpcs = s.rpcs ++ ext := by
      intro dd
      have f := abort_db_request_frame env none e.id dd s
      exact step _ f.2.1 f.2.2.1 (by rw [f.2.2.2.2.1]; exact abort_loop_sublist _ _)
        ⟨_, f.2.2.2.2.2⟩
    unfold handle_unfinished_loop
    cases hst : e.status
    · exact habort d
    · have f := commit_db_request_frame env none e.id d s
      exact step _ f.2.1 f.2.2.1 (by rw [f.2.2.2.2.1]; exact commit_loop_sublist _ _ _)
        ⟨_, f.2.2.2.2.2⟩
    · cases ndebug
      · exact ⟨rfl, rfl, List.Sublist.refl _, [], by simp⟩
      · exact ih d s
    · exact habort d
    · cases ndebug
      · exact ⟨rfl, rfl, List.Sublist.refl _, [], by simp⟩
      · exact ih d s

/-- `recover_participant` on the snapshot path, when the first live participant
hands out a snapshot. -/
theorem recover_participant_snapshot (env : rpc_env) (A B : participant_addr)
    (rest : List participant_addr) (p : Nat) (snap : List Nat) (s : coordinator)
    (hlive : s.participants_ = A :: rest) (hrec : s.is_recovered = true)
    (hp : env.next_id B = some p) (hne : p ≠ s.next_id_)
    (hun : ¬ ((p + 1) % 2 ^ 32 = s.next_id_ ∧
      records_has (records s.log) p RECORD_UNRESOLVED = true))
    (hsnap : env.get_snapshot A = some snap) :
    recover_participant env B s =
      match env.recover B snap s.del_keys_ with
      | none =>
        ({ s with rpcs := s.rpcs ++ [(B, rpc_call.NEXT_ID), (A, rpc_call.GET_SNAPSHOT),
            (B, rpc_call.RECOVER snap s.del_keys_)] }, some false)
      | some _ =>
        match env.set_next_id B s.next_id_ with
        | none =>
          ({ s with rpcs := s.rpcs ++ [(B, rpc_call.NEXT_ID), (A, rpc_call.GET_SNAPSHOT),
              (B, rpc_call.RECOVER snap s.del_keys_), (B, rpc_call.SET_NEXT_ID s.next_id_)] },
            some false)
        | some _ =>
          ({ s with rpcs := s.rpcs ++ [(B, rpc_call.NEXT_ID), (A, rpc_call.GET_SNAPSHOT),
              (B, rpc_call.RECOVER snap s.del_keys_), (B, rpc_call.SET_NEXT_ID s.next_id_)] },
            some true) := by
  unfold recover_participant
  rw [if_neg (by simp [hrec])]
  simp only [hp, hne, if_false, hun, trace_rpc, hlive, snapshot_loop, hsnap]
  cases hr : env.recover B snap s.del_keys_ with
  | none => simp [← hlive]
  | some u =>
    cases hs : env.set_next_id B s.next_id_ with
    | none => simp [← hlive]
    | some u2 => simp [← hlive]

/-- C12 as stated fails: `k` is in `del_keys_`, only participant 1 of the
configured 1 and 2 is live, and participant 2 answers `HEARTBEAT`.  When it
reports the coordinator's own NEXT_ID it is inserted into the live set after
`HEARTBEAT` and `NEXT_ID` alone, without `GET_SNAPSHOT` and without `RECOVER`;
when `is_recovered` is false it is inserted after `SET_NEXT_ID` alone; and when
participant 1 does not answer `GET_SNAPSHOT` no `RECOVER` is issued either. -/
theorem heartbeat_recover_counterexample :
    "k" ∈ state_degraded.del_keys_ ∧
    ∀ ndebug : Bool,
      ((heartbeat_participant ndebug env_up_to_date 2 state_degraded).1.participants_ = [1, 2] ∧
       (heartbeat_participant ndebug env_up_to_date 2 state_degraded).1.rpcs
        = [(2, rpc_call.HEARTBEAT), (2, rpc_call.NEXT_ID)]) ∧
      ((heartbeat_participant ndebug env_stale 2
          { state_degraded with is_recovered := false }).1.participants_ = [1, 2] ∧
       (heartbeat_participant ndebug env_stale 2
          { state_degraded with is_recovered := false }).1.rpcs
        = [(2, rpc_call.HEARTBEAT), (2, rpc_call.SET_NEXT_ID 8)]) ∧
      (heartbeat_participant ndebug { env_stale with get_snapshot := fun _ => none } 2
          state_degraded).1.rpcs
        = [(2, rpc_call.HEARTBEAT), (2, rpc_call.NEXT_ID), (1, rpc_call.GET_SNAPSHOT)] := by
  refine ⟨by decide, ?_⟩
  intro ndebug
  cases ndebug <;> decide

theorem heartbeat_participant_thrown (ndebug : Bool) (env : rpc_env)
    (addr : participant_addr) (s s1 : coordinator) (u : Unit)
    (hb : env.heartbeat addr = some u) (hlive : addr ∉ s.participants_)
    (hrp : recover_participant env addr (trace_rpc addr rpc_call.HEARTBEAT s) = (s1, none)) :
    heartbeat_participant ndebug env addr s =
      ({ s1 with participants_ := participants_erase addr s1.participants_ }, false) := by
  unfold heartbeat_participant
  have h0 : addr ∉ (trace_rpc addr rpc_call.HEARTBEAT s).participants_ := hlive
  simp only [hb, h0, if_false, hrp]

theorem heartbeat_participant_rejected (ndebug : Bool) (env : rpc_env)
    (addr : participant_addr) (s s1 : coordinator) (u : Unit)
    (hb : env.heartbeat addr = some u) (hlive : addr ∉ s.participants_)
    (hrp : recover_participant env addr (trace_rpc addr rpc_call.HEARTBEAT s)
      = (s1, some false)) :
    heartbeat_participant ndebug env addr s = (s1, false) := by
  unfold heartbeat_participant
  have h0 : addr ∉ (trace_rpc addr rpc_call.HEARTBEAT s).participants_ := hlive
  simp only [hb, h0, if_false, hrp]

theorem heartbeat_participant_admitted (ndebug : Bool) (env : rpc_env)
    (addr : participant_addr) (s s1 : coordinator) (u : Unit)
    (hb : env.heartbeat addr = some u) (hlive : addr ∉ s.participants_)
    (hrp : recover_participant env addr (trace_rpc addr rpc_call.HEARTBEAT s)
      = (s1, some true)) :
    heartbeat_participant ndebug env addr s =
      handle_unfinished_records ndebug env (admit_participant addr s1) := by
  unfold heartbeat_participant
  have h0 : addr ∉ (trace_rpc addr rpc_call.HEARTBEAT s).participants_ := hlive
  simp only [hb, h0, if_false, hrp]

theorem admit_participant_frame (addr : participant_addr) (s1 : coordinator) :
    (admit_participant addr s1).rpcs = s1.rpcs ∧
    (admit_participant addr s1).log = s1.log ∧
    (admit_participant addr s1).conf_participants = s1.conf_participants ∧
    (admit_participant addr s1).participants_ = participants_insert addr s1.participants_ ∧
    (admit_participant addr s1).del_keys_ =
      if (participants_insert addr s1.participants_).length = s1.conf_participants.length
      then [] else s1.del_keys_ := by
  unfold admit_participant
  simp only
  split <;> simp

/-- The snapshot path of `recover_participant`, seen from outside. -/
theorem recover_participant_snapshot_summary (env : rpc_env) (A B : participant_addr)
    (rest : List participant_addr) (p : Nat) (snap : List Nat) (s : coordinator)
    (hlive : s.participants_ = A :: rest) (hrec : s.is_recovered = true)
    (hp : env.next_id B = some p) (hne : p ≠ s.next_id_)
    (hun : ¬ ((p + 1) % 2 ^ 32 = s.next_id_ ∧
      records_has (records s.log) p RECORD_UNRESOLVED = true))
    (hsnap : env.get_snapshot A = some snap) :
    ∃ s1 b tail, recover_participant env B s = (s1, some b) ∧
      s1.participants_ = s.participants_ ∧ s1.del_keys_ = s.del_keys_ ∧
      s1.conf_participants = s.conf_participants ∧
      s1.rpcs = s.rpcs ++ [(B, rpc_call.NEXT_ID), (A, rpc_call.GET_SNAPSHOT),
        (B, rpc_call.RECOVER snap s.del_keys_)] ++ tail ∧
      (b = true ↔ (env.recover B snap s.del_keys_).isSome ∧
        (env.set_next_id B s.next_id_).isSome) := by
  have h := recover_participant_snapshot env A B rest p snap s hlive hrec hp hne hun hsnap
  cases hr : env.recover B snap s.del_keys_ with
  | none =>
    rw [hr] at h
    exact ⟨_, false, [], h, rfl, rfl, rfl, by simp, by simp⟩
  | some u =>
    rw [hr] at h
    cases hs : env.set_next_id B s.next_id_ with
    | none =>
      rw [hs] at h
      exact ⟨_, false, [(B, rpc_call.SET_NEXT_ID s.next_id_)], h, rfl, rfl, rfl, by simp, by simp⟩
    | some u2 =>
      rw [hs] at h
      exact ⟨_, true, [(B, rpc_call.SET_NEXT_ID s.next_id_)], h, rfl, rfl, rfl, by simp, by simp⟩

/-- C12 amended: in a recovered coordinator (`is_recovered` true) whose live set
is `A` alone and whose `del_keys_` holds `k`, when `B` answers `HEARTBEAT` and
reports a NEXT_ID that neither equals the counter nor is one less with that tid
`UNRESOLVED`, and `A` answers `GET_SNAPSHOT` with `snapshot`: the heartbeat step
calls `GET_SNAPSHOT` on `A` and `RECOVER(snapshot, del_keys_)` on `B` while `B` is
not live; `B` is live afterwards only if `RECOVER` and `SET_NEXT_ID` succeeded;
and with `A` and `B` the configured participants `del_keys_` is then cleared. -/
theorem heartbeat_recover_before_insert (ndebug : Bool) (env : rpc_env)
    (A B : participant_addr) (k : String) (p : Nat) (snapshot : List Nat) (s : coordinator)
    (hconf : s.conf_participants = [A, B]) (hlive : s.participants_ = [A]) (hAB : A ≠ B)
    (hk : k ∈ s.del_keys_) (hrec : s.is_recovered = true)
    (hb : env.heartbeat B = some ()) (hp : env.next_id B = some p) (hne : p ≠ s.next_id_)
    (hun : ¬ ((p + 1) % 2 ^ 32 = s.next_id_ ∧
      records_has (records s.log) p RECORD_UNRESOLVED = true))
    (hsnap : env.get_snapshot A = some snapshot) :
    k ∈ s.del_keys_ ∧ s.conf_participants.length = 2 ∧
    recover_before_insert env A B snapshot s
      (recover_participant env B (trace_rpc B rpc_call.HEARTBEAT s))
      (heartbeat_participant ndebug env B s).1 := by
  refine ⟨hk, by rw [hconf]; rfl, ?_⟩
  obtain ⟨s1, b, tail, hmid, hpart, hdel, hcf, hrpcs, hok⟩ :=
    recover_participant_snapshot_summary env A B [] p snapshot
      (trace_rpc B rpc_call.HEARTBEAT s) hlive hrec hp hne hun hsnap
  have hpart' : s1.participants_ = [A] := by rw [hpart]; exact hlive
  have hdel' : s1.del_keys_ = s.del_keys_ := hdel
  have hcf' : s1.conf_participants = s.conf_participants := hcf
  have hrpcs' : s1.rpcs = s.rpcs ++ [(B, rpc_call.HEARTBEAT), (B, rpc_call.NEXT_ID),
      (A, rpc_call.GET_SNAPSHOT), (B, rpc_call.RECOVER snapshot s.del_keys_)] ++ tail := by
    rw [hrpcs]
    simp [trace_rpc]
  have hBA : B ∉ s.participants_ := by
    rw [hlive]
    simp [Ne.symm hAB]
  have hB1 : B ∉ s1.participants_ := by rw [hpart, ← hlive] at *; exact hBA
  unfold recover_before_insert
  rw [hmid]
  cases b with
  | false =>
    rw [heartbeat_participant_rejected ndebug env B s _ () hb hBA hmid]
    exact ⟨⟨tail, hrpcs'⟩, ⟨tail, hrpcs'⟩, hB1, fun hB => absurd hB hB1,
      fun h1 h2 => by
        have := hok.mpr ⟨h1, h2⟩
        cases this⟩
  | true =>
    rw [heartbeat_participant_admitted ndebug env B s _ () hb hBA hmid]
    obtain ⟨hdk, _, _, ext, hext⟩ := handle_unfinished_loop_members ndebug env
      (records (admit_participant B s1).log) false (admit_participant B s1)
    have hfin : (handle_unfinished_records ndebug env (admit_participant B s1)).1
        = (handle_unfinished_loop ndebug env (records (admit_participant B s1).log) false
            (admit_participant B s1)).1 := rfl
    refine ⟨⟨tail ++ ext, ?_⟩, ⟨tail, hrpcs'⟩, hB1, fun _ => hok.mp rfl, ?_⟩
    · rw [hfin, hext, (admit_participant_frame _ _).1, hrpcs', List.append_assoc]
    · intro _ _
      have hfull : (participants_insert B s1.participants_).length
          = s1.conf_participants.length := by
        rw [hpart', hcf', hconf]
        simp only [participants_insert, List.mem_singleton, Ne.symm hAB, if_false,
          List.orderedInsert_length, List.length_cons, List.length_nil]
      rw [hfin, hdk, (admit_participant_frame _ _).2.2.2.2]
      exact if_pos hfull

/-- Witness of C12 amended: participant 2 reports NEXT_ID 7 at counter 8 with
transaction 7 finished, and is recovered from the snapshot of participant 1. -/
theorem heartbeat_recover_before_insert_witness :
    recover_before_insert env_stale 1 2 [1, 2, 3] state_degraded
      (recover_participant env_stale 2 (trace_rpc 2 rpc_call.HEARTBEAT state_degraded))
      (heartbeat_participant false env_stale 2 state_degraded).1 :=
  (heartbeat_recover_before_insert false env_stale 1 2 "k" 7 [1, 2, 3] state_degraded
    rfl rfl (by decide) (by decide) rfl rfl rfl (by decide) (by decide) rfl).2.2

/-! ## `del_keys_` along a run of the system -/

theorem live_length_le (s : coordinator) (h : member_inv s) :
    s.participants_.length ≤ s.conf_participants.length :=
  (List.subperm_of_subset h.1 h.2.1).length_le

/-- A step that only erases participants and changes `del_keys_` only while
leaving fewer live participants than configured keeps the membership invariant. -/
theorem member_inv_shrink (s s' : coordinator) (h : member_inv s)
    (hconf : s'.conf_participants = s.conf_participants)
    (hsub : s'.participants_.Sublist s.participants_)
    (hdel : s'.del_keys_ = s.del_keys_ ∨
      s'.participants_.length < s'.conf_participants.length) :
    member_inv s' := by
  refine ⟨hsub.nodup h.1, ?_, ?_⟩
  · intro p hp
    rw [hconf]
    exact h.2.1 p (hsub.subset hp)
  · intro hfull
    rcases hdel with hdel | hlt
    · rw [hdel]
      apply h.2.2
      have h1 := hsub.length_le
      have h2 := live_length_le s h
      rw [hconf] at hfull
      omega
    · omega

theorem write_live_sublist (prep : participant_addr → Option Bool) (env : rpc_env)
    (s : coordinator) : (write_live prep env s).Sublist s.participants_ := by
  unfold write_live
  simp only
  split
  · exact List.nil_sublist _
  · split
    · exact (commit_loop_sublist _ _ _).trans (prepare_loop_sublist _ _)
    · exact (abort_loop_sublist _ _).trans (prepare_loop_sublist _ _)

theorem write_dispatch_conf (prep : participant_addr → Option Bool) (call : rpc_call)
    (env : rpc_env) (client : tcp_client) (s : coordinator) :
    (write_dispatch prep call env client s).conf_participants = s.conf_participants ∧
    (write_dispatch prep call env client s).del_keys_ = s.del_keys_ := by
  unfold write_dispatch
  by_cases h1 : s.participants_ = []
  · simp [h1, send_error, send_result]
  · simp only [h1, if_false]
    by_cases h2 : (prepare_loop prep s.participants_).participants = []
    · simp [r_log, h2, send_error, send_result]
    · simp only [r_log, h2, if_false]
      cases hok : (prepare_loop prep s.participants_).prepare_ok
      · simp only [notify_if, Bool.false_eq_true, if_false]
        split <;> simp [(abort_db_request_frame _ _ _ _ _).2.2.1,
          (abort_db_request_frame _ _ _ _ _).2.1]
      · simp only [notify_if, if_true]
        split <;> simp [(commit_db_request_frame _ _ _ _ _).2.2.1,
          (commit_db_request_frame _ _ _ _ _).2.1]

theorem get_loop_sublist (call : participant_addr → Option String)
    (l : List participant_addr) : (get_loop call l).participants.Sublist l := by
  induction l with
  | nil => simp [get_loop]
  | cons q rest ih =>
    unfold get_loop
    cases hq : call q with
    | none => simpa using ih.trans (List.sublist_cons_self q rest)
    | some v => simp

theorem handle_db_get_request_members (env : rpc_env) (client : tcp_client)
    (cmd : get_command) (s : coordinator) :
    (handle_db_get_request env client cmd s).conf_participants = s.conf_participants ∧
    (handle_db_get_request env client cmd s).del_keys_ = s.del_keys_ ∧
    (handle_db_get_request env client cmd s).participants_.Sublist s.participants_ := by
  unfold handle_db_get_request
  by_cases h1 : s.participants_ = []
  · simp [h1, send_error, send_result]
  · simp only [h1, if_false, notify_if]
    have hsub := get_loop_sublist (fun p => env.get p cmd) s.participants_
    split <;> split <;> simp [send_error, send_result, hsub]

theorem snapshot_loop_sublist (call : participant_addr → Option (List Nat))
    (l : List participant_addr) : (snapshot_loop call l).participants.Sublist l := by
  induction l with
  | nil => simp [snapshot_loop]
  | cons q rest ih =>
    unfold snapshot_loop
    cases hq : call q with
    | none => simpa using ih.trans (List.sublist_cons_self q rest)
    | some v => simp

theorem recover_participant_members (env : rpc_env) (target : participant_addr)
    (s : coordinator) :
    (recover_participant env target s).1.conf_participants = s.conf_participants ∧
    (recover_participant env target s).1.del_keys_ = s.del_keys_ ∧
    (recover_participant env target s).1.participants_.Sublist s.participants_ := by
  have hsub := snapshot_loop_sublist env.get_snapshot s.participants_
  unfold recover_participant
  split
  · split <;> simp [trace_rpc]
  · split
    · simp [trace_rpc]
    · split
      · simp [trace_rpc]
      · split
        · simp [trace_rpc]
        · simp only [trace_rpc]
          split
          · exact ⟨rfl, rfl, hsub⟩
          · split
            · exact ⟨rfl, rfl, hsub⟩
            · split <;> exact ⟨rfl, rfl, hsub⟩

theorem participants_erase_sublist (addr : participant_addr) (l : List participant_addr) :
    (participants_erase addr l).Sublist l :=
  List.filter_sublist l

theorem member_inv_admit (addr : participant_addr) (s1 : coordinator) (h : member_inv s1)
    (hconf : addr ∈ s1.conf_participants) (hnew : addr ∉ s1.participants_) :
    member_inv (admit_participant addr s1) := by
  have hperm : (participants_insert addr s1.participants_).Perm (addr :: s1.participants_) := by
    unfold participants_insert
    rw [if_neg hnew]
    exact List.perm_orderedInsert _ _ _
  have hnd : (participants_insert addr s1.participants_).Nodup :=
    hperm.nodup_iff.mpr (List.nodup_cons.mpr ⟨hnew, h.1⟩)
  have hsub : ∀ p ∈ participants_insert addr s1.participants_, p ∈ s1.conf_participants := by
    intro p hp
    rcases List.mem_cons.mp (hperm.subset hp) with rfl | hp
    · exact hconf
    · exact h.2.1 p hp
  unfold admit_participant
  simp only
  split
  · exact ⟨hnd, hsub, fun _ => rfl⟩
  · rename_i hlen
    exact ⟨hnd, hsub, fun hfull => absurd hfull hlen⟩

theorem member_inv_unfinished (ndebug : Bool) (env : rpc_env) (s : coordinator)
    (h : member_inv s) : member_inv (handle_unfinished_records ndebug env s).1 := by
  obtain ⟨h1, h2, h3, _⟩ := handle_unfinished_loop_members ndebug env (records s.log) false s
  exact member_inv_shrink s _ h h2 h3 (Or.inl h1)

theorem member_inv_heartbeat (ndebug : Bool) (env : rpc_env) (addr : participant_addr)
    (s : coordinator) (h : member_inv s) (hconf : addr ∈ s.conf_participants) :
    member_inv (heartbeat_participant ndebug env addr s).1 := by
  cases hb : env.heartbeat addr with
  | none =>
    have : heartbeat_participant ndebug env addr s =
        ({ trace_rpc addr rpc_call.HEARTBEAT s with
            participants_ := participants_erase addr s.participants_ }, false) := by
      unfold heartbeat_participant
      simp only [hb]
      rfl
    rw [this]
    exact member_inv_shrink s _ h rfl (participants_erase_sublist _ _) (Or.inl rfl)
  | some u =>
    by_cases hlive : addr ∈ s.participants_
    · have : heartbeat_participant ndebug env addr s
          = (trace_rpc addr rpc_call.HEARTBEAT s, false) := by
        unfold heartbeat_participant
        have h0 : addr ∈ (trace_rpc addr rpc_call.HEARTBEAT s).participants_ := hlive
        simp only [hb, h0, if_true]
      rw [this]
      exact member_inv_shrink s _ h rfl (List.Sublist.refl _) (Or.inl rfl)
    · obtain ⟨m1, m2, m3⟩ := recover_participant_members env addr
        (trace_rpc addr rpc_call.HEARTBEAT s)
      have hs1 : member_inv (recover_participant env addr
          (trace_rpc addr rpc_call.HEARTBEAT s)).1 :=
        member_inv_shrink s _ h m1 m3 (Or.inl m2)
      cases hrp : recover_participant env addr (trace_rpc addr rpc_call.HEARTBEAT s) with
      | mk s1 r =>
        rw [hrp] at hs1 m1 m3
        cases r with
        | none =>
          rw [heartbeat_participant_thrown ndebug env addr s s1 u hb hlive hrp]
          exact member_inv_shrink s1 _ hs1 rfl (participants_erase_sublist _ _) (Or.inl rfl)
        | some b =>
          cases b with
          | false =>
            rw [heartbeat_participant_rejected ndebug env addr s s1 u hb hlive hrp]
            exact hs1
          | true =>
            rw [heartbeat_participant_admitted ndebug env addr s s1 u hb hlive hrp]
            apply member_inv_unfinished
            apply member_inv_admit addr s1 hs1
            · rw [m1]; exact hconf
            · exact fun hc => hlive (m3.subset hc)

theorem member_inv_step (ndebug : Bool) (o : sys_op) (s : coordinator) (h : member_inv s) :
    member_inv (o.step ndebug s) := by
  cases o with
  | set env client cmd =>
    simp only [sys_op.step]
    rw [handle_db_set_request_eq]
    exact member_inv_shrink s _ h (write_dispatch_conf _ _ _ _ _).1
      (by rw [write_dispatch_participants]; exact write_live_sublist _ _ _)
      (Or.inl (write_dispatch_conf _ _ _ _ _).2)
  | del env client cmd =>
    simp only [sys_op.step]
    have hconf : (handle_db_del_request env client cmd s).conf_participants
        = s.conf_participants := by
      obtain ⟨dk, hdk⟩ := handle_db_del_request_eq env client cmd s
      rw [hdk]
      exact (write_dispatch_conf _ _ _ _ _).1
    refine member_inv_shrink s _ h hconf
      (by rw [handle_db_del_request_participants]; exact write_live_sublist _ _ _) ?_
    rw [handle_db_del_request_del_keys, handle_db_del_request_participants, hconf]
    split
    · rename_i hc
      exact Or.inr hc.2.2.2
    · exact Or.inl rfl
  | get env client cmd =>
    simp only [sys_op.step]
    obtain ⟨g1, g2, g3⟩ := handle_db_get_request_members env client cmd s
    exact member_inv_shrink s _ h g1 g3 (Or.inl g2)
  | heartbeat env i =>
    simp only [sys_op.step]
    cases hi : s.conf_participants.get? i with
    | none => exact h
    | some addr =>
      exact member_inv_heartbeat ndebug env addr s h (List.get?_mem hi)

/-- C16: in every state reached from a startup state (`del_keys_` empty, the live
set a duplicate-free collection of configured participants) by SET, DEL and GET
dispatches and heartbeat iterations, with arbitrary replies and failures, a live
set as large as the configured list comes with an empty `del_keys_`. -/
theorem del_keys_empty_at_full_membership (ndebug : Bool) (ops : List sys_op)
    (s0 : coordinator) (hdel : s0.del_keys_ = []) (hnd : s0.participants_.Nodup)
    (hsub : ∀ p ∈ s0.participants_, p ∈ s0.conf_participants) :
    (sys_run ndebug ops s0).participants_.length
        = (sys_run ndebug ops s0).conf_participants.length →
      (sys_run ndebug ops s0).del_keys_ = [] := by
  have hinv : member_inv (sys_run ndebug ops s0) := by
    induction ops using List.reverseRecOn with
    | nil => exact ⟨hnd, hsub, fun _ => hdel⟩
    | append_singleton ops o ih =>
      have : sys_run ndebug (ops ++ [o]) s0 = o.step ndebug (sys_run ndebug ops s0) := by
        simp [sys_run, List.foldl_append]
      rw [this]
      exact member_inv_step ndebug o _ ih
  exact hinv.2.2

/-- Witness of C16: `system_example` from two live participants at counter 7. -/
theorem del_keys_empty_at_full_membership_witness :
    (sys_run true system_example (mk_state [1, 2] [1, 2] 7)).participants_ = [1, 2] ∧
    (sys_run true system_example (mk_state [1, 2] [1, 2] 7)).del_keys_ = [] :=
  ⟨by decide,
   del_keys_empty_at_full_membership true system_example (mk_state [1, 2] [1, 2] 7)
    rfl (by decide) (by decide) (by decide)⟩

/-! ## The request dispatcher -/

theorem dispatch_all_enum (envs : Nat → rpc_env) (client : tcp_client)
    (cs : List command) :
    ∀ (i : Nat) (s : coordinator),
      dispatch_all envs client i cs s =
        (cs.enumFrom i).foldl
          (fun t jc =>
            match jc.2 with
            | command.get cmd => handle_db_get_request (envs jc.1) client cmd t
            | command.set cmd => handle_db_set_request (envs jc.1) client cmd t
            | command.del cmd => handle_db_del_request (envs jc.1) client cmd t
            | command.other => send_error client t)
          s := by
  induction cs with
  | nil => intro i s; rfl
  | cons c cs ih =>
    intro i s
    simp only [dispatch_all, List.enumFrom_cons, List.foldl_cons]
    rw [ih]
    cases c <;> rfl

theorem dispatch_all_in_parse_order (envs : Nat → rpc_env) (client : tcp_client)
    (cs : List command) (s : coordinator) :
    dispatch_all envs client 0 cs s = handle_in_parse_order envs client cs s :=
  dispatch_all_enum envs client cs 0 s

theorem handle_db_get_request_sent (env : rpc_env) (client : tcp_client)
    (cmd : get_command) (s : coordinator) :
    ∃ v, (handle_db_get_request env client cmd s).sent = s.sent ++ [(client, v)] := by
  unfold handle_db_get_request
  by_cases h1 : s.participants_ = []
  · exact ⟨error_string, by simp [h1, send_error, send_result]⟩
  · simp only [h1, if_false, notify_if]
    cases hv : (get_loop (fun p => env.get p cmd) s.participants_).value with
    | none => exact ⟨error_string, by split <;> simp [send_error, send_result]⟩
    | some v => exact ⟨v, by split <;> simp [send_result]⟩

/-- Every command handled sends the client exactly one payload. -/
theorem dispatch_sent (env : rpc_env) (client : tcp_client) (c : command)
    (s : coordinator) :
    ∃ v, (dispatch env client c s).sent = s.sent ++ [(client, v)] := by
  cases c with
  | get cmd => exact handle_db_get_request_sent env client cmd s
  | set cmd =>
    exact ⟨_, by
      simp only [dispatch]
      rw [handle_db_set_request_eq]
      exact write_dispatch_sent _ _ _ _ _⟩
  | del cmd => exact ⟨_, handle_db_del_request_sent env client cmd s⟩
  | other => exact ⟨error_string, by simp [dispatch, send_error, send_result]⟩

theorem dispatch_all_sent (envs : Nat → rpc_env) (client : tcp_client)
    (cs : List command) :
    ∀ (i : Nat) (s : coordinator), ∃ replies : List String,
      (dispatch_all envs client i cs s).sent = s.sent ++ replies.map (fun v => (client, v)) ∧
      replies.length = cs.length := by
  induction cs with
  | nil => intro i s; exact ⟨[], by simp [dispatch_all], rfl⟩
  | cons c cs ih =>
    intro i s
    obtain ⟨v, hv⟩ := dispatch_sent (envs i) client c s
    obtain ⟨rs, hrs, hlen⟩ := ih (i + 1) (dispatch (envs i) client c s)
    refine ⟨v :: rs, ?_, by simp [hlen]⟩
    simp only [dispatch_all]
    rw [hrs, hv]
    simp

/-- C17: when the read succeeded and the parser, run on the carried-over bytes `p`
followed by the new bytes `d`, reads the commands `reads` (the last one leaving
`bytes_parsed() = b`, and `b = 0` when there is none) and then reports an
incomplete frame, `handle_db_requests` puts each command read through its handler
(`handle_db_get_request`, `handle_db_set_request`, `handle_db_del_request`, or
`-ERROR` for another verb) once, in parse order, sends the client one payload per
command and none for the incomplete frame, and re-arms the read with exactly
`p ++ d` without its first `b` bytes. -/
theorem incomplete_frame_carried_over (parser : List Char → parse_run)
    (envs : Nat → rpc_env) (client : tcp_client) (p d : List Char) (s : coordinator)
    (reads : List (command × Nat)) (b : Nat)
    (hrun : parser (p ++ d) = ⟨reads, parse_end.incomplete⟩)
    (hb : (reads = [] ∧ b = 0) ∨ ∃ init c, reads = init ++ [(c, b)]) :
    carried_over_outcome envs client (p ++ d) (reads.map (fun x => x.1)) b s
      (handle_db_requests parser envs client (some p) ⟨true, d⟩ s) ∧
    (p = [] →
      carried_over_outcome envs client d (reads.map (fun x => x.1)) b s
        (handle_db_requests parser envs client none ⟨true, d⟩ s)) := by
  have hbytes : reads.foldl (fun _ x => x.2) 0 = b := by
    rcases hb with ⟨h0, hb0⟩ | ⟨init, c, hr⟩
    · rw [h0, hb0]; rfl
    · rw [hr, List.foldl_append]; rfl
  have h1 : handle_db_requests parser envs client (some p) ⟨true, d⟩ s =
      (dispatch_all envs client 0 (reads.map (fun x => x.1)) s,
        next_read.read (some ((p ++ d).drop b))) := by
    unfold handle_db_requests
    simp only [Bool.true_eq_false, if_false, hrun, parse_db_requests, hbytes,
      handle_command_error]
  have hout : carried_over_outcome envs client (p ++ d) (reads.map (fun x => x.1)) b s
      (handle_db_requests parser envs client (some p) ⟨true, d⟩ s) := by
    rw [h1]
    refine ⟨dispatch_all_in_parse_order _ _ _ _, rfl, ?_⟩
    exact dispatch_all_sent envs client _ 0 s
  refine ⟨hout, ?_⟩
  intro hp
  subst hp
  have h2 : handle_db_requests parser envs client none ⟨true, d⟩ s =
      handle_db_requests parser envs client (some []) ⟨true, d⟩ s := by
    unfold handle_db_requests
    rfl
  rw [h2]
  simpa using hout

/-- Witness of C17: one complete `SET k v` frame of 27 bytes, then an incomplete
one; the SET is committed by the sole participant, the client gets `+OK`, and the
seven bytes of the incomplete frame are carried over. -/
theorem incomplete_frame_carried_over_witness :
    handle_db_requests parser_one_then_incomplete (fun _ => env_ok) 0
        (some "*3\r\n$3\r\nSET\r\n$1\r\nk".toList) ⟨true, "\r\n$1\r\nv\r\n*3\r\n$3".toList⟩
        (mk_state [1] [1] 7) =
      ({ mk_state [1] [1] 8 with
          log := [⟨RECORD_UNRESOLVED, 7, 8⟩, ⟨RECORD_COMMIT, 7, 8⟩, ⟨RECORD_COMMIT_DONE, 7, 8⟩]
          rpcs := [(1, rpc_call.PREPARE_SET ⟨7, "k", "v"⟩), (1, rpc_call.COMMIT 7)]
          sent := [(0, "+OK\r\n")] },
       next_read.read (some "*3\r\n$3".toList)) := by
  have h := (incomplete_frame_carried_over parser_one_then_incomplete (fun _ => env_ok) 0
    "*3\r\n$3\r\nSET\r\n$1\r\nk".toList "\r\n$1\r\nv\r\n*3\r\n$3".toList (mk_state [1] [1] 7)
    [(command.set ⟨0, "k", "v"⟩, 27)] 27 rfl (Or.inr ⟨[], _, rfl⟩)).1
  apply Prod.ext
  · rw [h.1]; decide
  · rw [h.2.1]; decide

/-! ## The client's reply decoder -/

theorem digitChar_toNat : ∀ d, d < 10 → (Nat.digitChar d).toNat = 48 + d := by
  decide

theorem digits_value_append (xs : List Char) (c : Char) :
    digits_value (xs ++ [c]) = digits_value xs * 10 + (c.toNat - 48) := by
  simp [digits_value, List.foldl_append]

theorem toDigitsCore_append (fuel n : Nat) (ds : List Char) :
    Nat.toDigitsCore 10 fuel n ds = Nat.toDigitsCore 10 fuel n [] ++ ds := by
  induction fuel generalizing n ds with
  | zero => simp [Nat.toDigitsCore]
  | succ f ih =>
    simp only [Nat.toDigitsCore]
    split
    · simp
    · rw [ih (n / 10) (Nat.digitChar (n % 10) :: ds), ih (n / 10) [Nat.digitChar (n % 10)]]
      simp

theorem toDigitsCore_spec (fuel n : Nat) (h : n < fuel) :
    Nat.toDigitsCore 10 fuel n [] ≠ [] ∧
    (∀ c ∈ Nat.toDigitsCore 10 fuel n [], is_digit c = true) ∧
    digits_value (Nat.toDigitsCore 10 fuel n []) = n := by
  induction fuel generalizing n with
  | zero => omega
  | succ f ih =>
    have hd : n % 10 < 10 := Nat.mod_lt _ (by omega)
    have hc := digitChar_toNat (n % 10) hd
    have hdig : is_digit (Nat.digitChar (n % 10)) = true := by
      simp only [is_digit, hc, decide_eq_true_eq]
      omega
    simp only [Nat.toDigitsCore]
    split
    · rename_i h0
      refine ⟨by simp, by simpa using hdig, ?_⟩
      simp only [digits_value, List.foldl_cons, List.foldl_nil, hc]
      omega
    · rename_i h0
      rw [toDigitsCore_append]
      obtain ⟨i1, i2, i3⟩ := ih (n / 10) (by omega)
      refine ⟨by simp, ?_, ?_⟩
      · intro c hcmem
        rcases List.mem_append.mp hcmem with hcmem | hcmem
        · exact i2 c hcmem
        · simp at hcmem; subst hcmem; exact hdig
      · rw [digits_value_append, i3, hc]
        omega

theorem decimal_spec (n : Nat) :
    decimal n ≠ [] ∧ (∀ c ∈ decimal n, is_digit c = true) ∧ digits_value (decimal n) = n :=
  toDigitsCore_spec (n + 1) n (Nat.lt_succ_self n)

theorem takeWhile_digits (ds rest : List Char) (c : Char)
    (hds : ∀ x ∈ ds, is_digit x = true) (hc : is_digit c = false) :
    (ds ++ c :: rest).takeWhile is_digit = ds := by
  induction ds with
  | nil => simp [List.takeWhile, hc]
  | cons x xs ih =>
    have hx := hds x (List.mem_cons_self _ _)
    rw [List.cons_append, List.takeWhile_cons, hx]
    simp only [if_true]
    rw [ih (fun y hy => hds y (List.mem_cons_of_mem _ hy))]

/-- `decode_int` at the start of a run of digits that a non-digit ends. -/
theorem decode_int_at (pre ds rest : List Char) (c : Char) (i : Nat) (hi : i = pre.length)
    (hds : ∀ x ∈ ds, is_digit x = true) (hc : is_digit c = false) :
    decode_int (pre ++ (ds ++ c :: rest)) i = (stoi_digits ds, i + ds.length) := by
  subst hi
  unfold decode_int
  simp only [List.drop_left]
  rw [takeWhile_digits ds rest c hds hc]

theorem stoi_decimal (n : Nat) (h : n ≤ 2147483647) : stoi_digits (decimal n) = (n : Int) := by
  obtain ⟨h1, _, h3⟩ := decimal_spec n
  simp [stoi_digits, h1, h3, h]

theorem stoi_decimal_overflow (n : Nat) (h : 2147483647 < n) : stoi_digits (decimal n) = -1 := by
  obtain ⟨h1, _, h3⟩ := decimal_spec n
  simp only [stoi_digits, h1, h3, if_false]
  rw [if_neg (by omega)]

theorem substr_at (a b : List Char) (i n : Nat) (hi : i = a.length) :
    substr (a ++ b) i n = b.take n := by
  subst hi
  simp [substr]

theorem get_at (a b : List Char) (c : Char) (i : Nat) (hi : i = a.length) :
    (a ++ c :: b).get? i = some c := by
  subst hi
  rw [List.get?_eq_getElem?, List.getElem?_append_right (Nat.le_refl _)]
  simp

theorem decode_loop_items (rest : List (List Char)) :
    ∀ (pre ss : List Char) (fuel : Nat), rest.length < fuel →
      (∀ b ∈ rest, b ≠ [] ∧ b.length ≤ 2147483647) →
      decode_loop (pre ++ (separator ++ (rest.map encode_bulk_string).flatten)) fuel
          pre.length ss
        = some ((ss ++ (rest.map (fun b => b ++ [' '])).flatten).take
            ((ss ++ (rest.map (fun b => b ++ [' '])).flatten).length - 1)) := by
  induction rest with
  | nil =>
    intro pre ss fuel hf _
    cases fuel with
    | zero => omega
    | succ f =>
      simp only [List.map_nil, List.flatten_nil, List.append_nil]
      have hlen : (pre ++ separator).length = pre.length + 2 := by simp [separator]
      have hsub : substr (pre ++ separator) pre.length 2 = separator := by
        rw [substr_at _ _ _ _ rfl]; rfl
      rw [decode_loop]
      rw [if_pos (by omega), if_neg (not_not.mpr hsub), if_pos (by omega)]
  | cons b rest ih =>
    intro pre ss fuel hf hb
    cases fuel with
    | zero => omega
    | succ f =>
      obtain ⟨hbne, hblen⟩ := hb b (List.mem_cons_self _ _)
      have hbpos : 0 < b.length := List.length_pos.mpr hbne
      obtain ⟨_, hdig, _⟩ := decimal_spec b.length
      have hstoi := stoi_decimal b.length hblen
      have hcr : is_digit '\r' = false := by decide
      generalize hD : decimal b.length = D at hdig hstoi
      generalize hT : (rest.map encode_bulk_string).flatten = T at ih
      have hV : pre ++ (separator ++ ((b :: rest).map encode_bulk_string).flatten) =
          pre ++ (separator ++ ('$' :: (D ++ '\r' :: ('\n' :: (b ++ (separator ++ T)))))) := by
        simp [encode_bulk_string, separator, hD, hT]
      rw [hV]
      generalize hval :
        pre ++ (separator ++ ('$' :: (D ++ '\r' :: ('\n' :: (b ++ (separator ++ T)))))) = V
      have s1 : V = (pre ++ separator) ++ ('$' :: (D ++ '\r' :: ('\n' :: (b ++ (separator ++ T))))) := by
        rw [← hval]; simp
      have s2 : V = (pre ++ separator ++ ['$']) ++ (D ++ '\r' :: ('\n' :: (b ++ (separator ++ T)))) := by
        rw [← hval]; simp
      have s3 : V = (pre ++ separator ++ ['$'] ++ D) ++ (separator ++ (b ++ (separator ++ T))) := by
        rw [← hval]; simp [separator]
      have s4 : V = (pre ++ separator ++ ['$'] ++ D ++ separator) ++ (b ++ (separator ++ T)) := by
        rw [← hval]; simp [separator]
      have s5 : V = (pre ++ separator ++ ['$'] ++ D ++ separator ++ b) ++ (separator ++ T) := by
        rw [← hval]; simp [separator]
      have hlenV : V.length = pre.length + 3 + D.length + 2 + b.length + 2 + T.length := by
        rw [← hval]; simp [separator]; omega
      have f1 : substr V pre.length 2 = separator := by
        rw [← hval, substr_at _ _ _ _ rfl]; rfl
      have f2 : V.get? (pre.length + 2) = some '$' := by
        rw [s1]; exact get_at _ _ _ _ (by simp [separator])
      have f3 : decode_int V (pre.length + 3) = ((b.length : Int), pre.length + 3 + D.length) := by
        rw [s2, decode_int_at _ D _ '\r' _ (by simp [separator]) hdig hcr, hstoi]
      have f4 : substr V (pre.length + 3 + D.length) 2 = separator := by
        rw [s3, substr_at _ _ _ _ (by simp [separator]; omega)]; rfl
      have f5 : substr V (pre.length + 3 + D.length + 2) b.length = b := by
        rw [s4, substr_at _ _ _ _ (by simp [separator]; omega)]; simp
      rw [decode_loop]
      rw [if_pos (by omega), if_neg (not_not.mpr f1), if_neg (by omega),
        if_neg (not_not.mpr f2)]
      simp only [f3]
      rw [if_neg (by omega), if_neg (by
        rw [f4]
        simp only [ne_eq, not_true_eq_false, or_false, ge_iff_le, not_le]
        omega)]
      simp only [Int.toNat_ofNat, f5]
      have hidx : pre.length + 3 + D.length + 2 + b.length
          = (pre ++ separator ++ ['$'] ++ D ++ separator ++ b).length := by
        simp [separator]; omega
      rw [hidx, s5, ih _ _ f (by simp at hf; omega)
        (fun x hx => hb x (List.mem_cons_of_mem _ hx))]
      simp [List.append_assoc]

theorem items_length_le (l : List (List Char)) :
    l.length ≤ ((l.map encode_bulk_string).flatten).length := by
  induction l with
  | nil => simp
  | cons b t ih =>
    simp only [List.map_cons, List.flatten_cons, List.length_append, List.length_cons,
      encode_bulk_string]
    omega

theorem flatten_spaces (l : List (List Char)) (h : l ≠ []) :
    (l.map (fun b => b ++ [' '])).flatten = join_spaces l ++ [' '] := by
  induction l with
  | nil => exact absurd rfl h
  | cons a t ih =>
    cases t with
    | nil => simp [join_spaces, List.intercalate, List.intersperse]
    | cons b t' =>
      have h2 := ih (by simp)
      simp only [List.map_cons, List.flatten_cons] at h2 ⊢
      rw [h2]
      simp [join_spaces, List.intercalate, List.intersperse]

theorem decode_loop_total (value : List Char) (fuel : Nat) :
    ∀ (idx : Nat) (ss : List Char), value.length - idx < fuel →
      (decode_loop value fuel idx ss).isSome = true := by
  induction fuel with
  | zero =>
    intro idx ss h
    omega
  | succ f ih =>
    intro idx ss h
    rw [decode_loop]
    split
    · split
      · rfl
      · split
        · rfl
        · split
          · rfl
          · simp only
            split
            · rfl
            · split
              · rfl
              · apply ih
                simp only [decode_int]
                omega
    · rfl

/-- The decoder never runs out of fuel: `decode_result` returns a string. -/
theorem decode_result_total (value : List Char) : (decode_result value).isSome = true := by
  unfold decode_result
  split
  · rfl
  · split
    · rfl
    · split
      · rfl
      · split
        · rfl
        · simp only
          split
          · rfl
          · apply decode_loop_total
            omega

theorem decode_result_encode (l : List (List Char)) (hne : l ≠ [])
    (hn : l.length ≤ 2147483647) (hb : ∀ b ∈ l, b ≠ [] ∧ b.length ≤ 2147483647) :
    decode_result (encode_bulk_array l) = some (join_spaces l) := by
  obtain ⟨_, hdig, _⟩ := decimal_spec l.length
  have hstoi := stoi_decimal l.length hn
  have hcr : is_digit '\r' = false := by decide
  have hpos : 0 < l.length := List.length_pos.mpr hne
  generalize hD : decimal l.length = D at hdig hstoi
  generalize hT : (l.map encode_bulk_string).flatten = T
  have hTlen : l.length ≤ T.length := by rw [← hT]; exact items_length_le l
  have hV : encode_bulk_array l = '*' :: (D ++ '\r' :: ('\n' :: T)) := by
    simp [encode_bulk_array, separator, hD, hT]
  have s1 : encode_bulk_array l = ['*'] ++ (D ++ '\r' :: ('\n' :: T)) := by rw [hV]; rfl
  have s2 : encode_bulk_array l = ('*' :: D) ++ (separator ++ T) := by
    rw [hV]; simp [separator]
  have hlen : (encode_bulk_array l).length = 1 + D.length + 2 + T.length := by
    rw [hV]; simp; omega
  have f1 : decode_int (encode_bulk_array l) 1 = ((l.length : Int), 1 + D.length) := by
    rw [s1, decode_int_at ['*'] D _ '\r' 1 rfl hdig hcr, hstoi]
  have e1 : encode_bulk_array l ≠ "+OK\r\n".toList := by
    rw [hV]; intro h; injection h with h _; exact absurd h (by decide)
  have e2 : encode_bulk_array l ≠ "-ERROR\r\n".toList := by
    rw [hV]; intro h; injection h with h _; exact absurd h (by decide)
  have e3 : ¬ (encode_bulk_array l ≠ [] ∧ (encode_bulk_array l).head? = some ':') := by
    rw [hV]; simp
  have e4 : ¬ (encode_bulk_array l = [] ∨ (encode_bulk_array l).head? ≠ some '*') := by
    rw [hV]; simp
  unfold decode_result
  rw [if_neg e1, if_neg e2, if_neg e3, if_neg e4]
  simp only [f1]
  rw [if_neg (by omega)]
  have hidx : 1 + D.length = ('*' :: D).length := by simp; omega
  rw [hidx, s2, ← hT, decode_loop_items l _ _ _ (by rw [hT]; simp; omega) hb]
  rw [List.nil_append, flatten_spaces l hne]
  simp

theorem decode_result_overflow (l : List (List Char)) (hn : 2147483647 < l.length) :
    decode_result (encode_bulk_array l) = some [] := by
  obtain ⟨_, hdig, _⟩ := decimal_spec l.length
  have hstoi := stoi_decimal_overflow l.length hn
  have hcr : is_digit '\r' = false := by decide
  generalize hD : decimal l.length = D at hdig hstoi
  generalize hT : (l.map encode_bulk_string).flatten = T
  have hV : encode_bulk_array l = '*' :: (D ++ '\r' :: ('\n' :: T)) := by
    simp [encode_bulk_array, separator, hD, hT]
  have s1 : encode_bulk_array l = ['*'] ++ (D ++ '\r' :: ('\n' :: T)) := by rw [hV]; rfl
  have f1 : decode_int (encode_bulk_array l) 1 = (-1, 1 + D.length) := by
    rw [s1, decode_int_at ['*'] D _ '\r' 1 rfl hdig hcr, hstoi]
  have e1 : encode_bulk_array l ≠ "+OK\r\n".toList := by
    rw [hV]; intro h; injection h with h _; exact absurd h (by decide)
  have e2 : encode_bulk_array l ≠ "-ERROR\r\n".toList := by
    rw [hV]; intro h; injection h with h _; exact absurd h (by decide)
  have e3 : ¬ (encode_bulk_array l ≠ [] ∧ (encode_bulk_array l).head? = some ':') := by
    rw [hV]; simp
  have e4 : ¬ (encode_bulk_array l = [] ∨ (encode_bulk_array l).head? ≠ some '*') := by
    rw [hV]; simp
  unfold decode_result
  rw [if_neg e1, if_neg e2, if_neg e3, if_neg e4]
  simp only [f1]
  rw [if_pos (by omega)]

theorem join_spaces_ne_nil (a : List Char) (t : List (List Char)) (ha : a ≠ []) :
    join_spaces (a :: t) ≠ [] := by
  cases t with
  | nil => simpa [join_spaces, List.intercalate, List.intersperse] using ha
  | cons b t' => simp [join_spaces, List.intercalate, List.intersperse, ha]

/-- C18 as stated fails: for the list of `2 ^ 31` copies of the one-byte string
`a`, the count `2147483648` does not fit `int`, `decode_int` returns `-1`, and
`decode_result` returns the empty string instead of the joined strings. -/
theorem decode_result_counterexample :
    List.replicate 2147483648 ['a'] ≠ [] ∧
    (∀ b ∈ List.replicate 2147483648 ['a'], b ≠ [] ∧ b.length < 2 ^ 31) ∧
    decode_result (encode_bulk_array (List.replicate 2147483648 ['a'])) = some [] ∧
    join_spaces (List.replicate 2147483648 ['a']) ≠ [] := by
  refine ⟨?_, ?_, ?_, ?_⟩
  · exact List.ne_nil_of_length_pos (by rw [List.length_replicate]; omega)
  · intro b hb
    rw [List.eq_of_mem_replicate hb]
    exact ⟨by simp, by norm_num⟩
  · exact decode_result_overflow _ (by rw [List.length_replicate]; omega)
  · have : List.replicate 2147483648 ['a'] = ['a'] :: List.replicate 2147483647 ['a'] :=
      List.replicate_succ ['a'] 2147483647
    rw [this]
    exact join_spaces_ne_nil _ _ (by simp)

/-- C18 amended: for every non-empty list of fewer than `2 ^ 31` non-empty byte
strings, each shorter than `2 ^ 31` bytes, `decode_result` applied to the
bulk-array encoding returns the strings joined by single spaces; it returns
`+OK\r\n` and any string starting with `:` unchanged, and the empty string for
`-ERROR\r\n`. -/
theorem decode_result_bulk_array :
    (∀ l : List (List Char), l ≠ [] → l.length < 2 ^ 31 →
      (∀ b ∈ l, b ≠ [] ∧ b.length < 2 ^ 31) →
      decode_result (encode_bulk_array l) = some (join_spaces l)) ∧
    decode_result "+OK\r\n".toList = some "+OK\r\n".toList ∧
    (∀ v : List Char, v.head? = some ':' → decode_result v = some v) ∧
    decode_result "-ERROR\r\n".toList = some [] := by
  refine ⟨?_, by decide, ?_, by decide⟩
  · intro l hne hn hb
    have e31 : (2 : Nat) ^ 31 = 2147483648 := by norm_num
    rw [e31] at hn
    refine decode_result_encode l hne (by omega) ?_
    intro b hbm
    have := hb b hbm
    rw [e31] at this
    exact ⟨this.1, by omega⟩
  · intro v hv
    cases v with
    | nil => simp at hv
    | cons c t =>
      simp only [List.head?_cons, Option.some.injEq] at hv
      subst hv
      have e1 : (':' :: t) ≠ "+OK\r\n".toList := by
        intro h; injection h with h _; exact absurd h (by decide)
      have e2 : (':' :: t) ≠ "-ERROR\r\n".toList := by
        intro h; injection h with h _; exact absurd h (by decide)
      unfold decode_result
      rw [if_neg e1, if_neg e2, if_pos ⟨by simp, rfl⟩]

/-- Witness of C18 amended: the bulk array of `foo` and `ba r`. -/
theorem decode_result_bulk_array_witness :
    decode_result "*2\r\n$3\r\nfoo\r\n$4\r\nba r\r\n".toList = some "foo ba r".toList := by
  have h := decode_result_bulk_array.1 ["foo".toList, "ba r".toList] (by decide) (by decide)
    (by decide)
  have e : encode_bulk_array ["foo".toList, "ba r".toList]
      = "*2\r\n$3\r\nfoo\r\n$4\r\nba r\r\n".toList := by decide
  have j : join_spaces ["foo".toList, "ba r".toList] = "foo ba r".toList := by decide
  rw [e, j] at h
  exact h

end cdb
